import Mathlib

/-!
Verification of cscan: target splitter, worker registry, result lookup and audit paging.

A shallow embedding of the Go sources

* `scheduler/splitter.go` (target expansion and batching),
* `api/internal/logic/workerlogic.go` (worker list / delete / rename),
* `rpc/task/internal/logic/getpocvalidationresultlogic.go` (result lookup),
* `api/internal/handler/worker/audithandler.go` (paging parameters),

together with the parts of the Go standard library (`strings`, `net`,
`net/netip`) that the splitter calls.  Go strings are Lean strings, byte
slices are lists of naturals below 256, Go `int` is `Int`, and loops that
need not terminate carry a step budget.
-/

set_option autoImplicit false

namespace Cscan

/-! ## Outcome of running Go code -/

/-- Outcome of a Go call in the model: a normal return, a loop that is still
running when the step budget is used up, or a runtime panic. -/
inductive Run (α : Type) where
  | done (a : α)
  | fuelOut
  | panic
  deriving DecidableEq, Repr

/-! ## Package strings -/

/-- Go `unicode.IsSpace`: the white-space code points trimmed by `strings.TrimSpace`. -/
def isSpace (c : Char) : Bool :=
  let n := c.toNat
  n = 0x09 || n = 0x0A || n = 0x0B || n = 0x0C || n = 0x0D || n = 0x20 ||
  n = 0x85 || n = 0xA0 || n = 0x1680 || (0x2000 ≤ n && n ≤ 0x200A) ||
  n = 0x2028 || n = 0x2029 || n = 0x202F || n = 0x205F || n = 0x3000

/-- Go `strings.TrimSpace`: leading and trailing white space removed. -/
def TrimSpace (s : String) : String :=
  ⟨List.rdropWhile isSpace (List.dropWhile isSpace s.data)⟩

/-- Go `strings.Split(s, sep)` for a one-character separator. -/
def Split (s : String) (sep : Char) : List String :=
  (List.splitOn sep s.data).map String.mk

/-- Go `strings.Join(elems, sep)` for a one-character separator. -/
def Join (elems : List String) (sep : Char) : String :=
  ⟨List.intercalate [sep] (elems.map String.data)⟩

/-- Go `strings.Contains(s, sep)` for a one-character `sep`. -/
def Contains (s : String) (sep : Char) : Bool :=
  s.data.contains sep

/-- Go `strings.HasPrefix(s, prefix)` for a one-character prefix. -/
def HasPrefix (s : String) (c : Char) : Bool :=
  match s.data with
  | [] => false
  | d :: _ => d == c

/-! ## Package net: addresses as byte slices -/

/-- Go `net.IP`: a byte slice; the nil slice is the empty list. -/
abbrev IP := List Nat

/-- Go `net.IPMask`. -/
abbrev IPMask := List Nat

/-- Go `net.IPNet`. -/
structure IPNet where
  IP : IP
  Mask : IPMask
  deriving DecidableEq, Repr

/-- The 12-byte prefix of an IPv4 address held in 16-byte form. -/
def v4InV6Prefix : List Nat := [0, 0, 0, 0, 0, 0, 0, 0, 0, 0, 0xff, 0xff]

/-- Go `IP.To4`: the 4-byte form of an IPv4 address, nil otherwise. -/
def To4 (ip : IP) : IP :=
  if ip.length = 4 then ip
  else if ip.length = 16 ∧ (ip.take 10).all (· == 0) ∧ ip.getD 10 0 = 0xff ∧ ip.getD 11 0 = 0xff then
    ip.drop 12
  else []

/-- Go `IP.Equal`: equality up to the 4-byte / 16-byte form of an IPv4 address. -/
def Equal (ip x : IP) : Bool :=
  if ip.length = x.length then ip == x
  else if ip.length = 4 ∧ x.length = 16 then x.take 12 == v4InV6Prefix && ip == x.drop 12
  else if ip.length = 16 ∧ x.length = 4 then ip.take 12 == v4InV6Prefix && ip.drop 12 == x
  else false

/-- Go `IP.Mask`: byte-wise and with the mask, nil when the lengths do not fit. -/
def Mask (ip : IP) (mask : IPMask) : IP :=
  let mask := if mask.length = 16 ∧ ip.length = 4 ∧ (mask.take 12).all (· == 0xff) then mask.drop 12 else mask
  let ip := if mask.length = 4 ∧ ip.length = 16 ∧ ip.take 12 == v4InV6Prefix then ip.drop 12 else ip
  if ip.length ≠ mask.length then []
  else List.zipWith (fun a m => a &&& m) ip mask

/-- The byte loop of `net.CIDRMask`: `l` bytes still to write, `n` one bits still to place. -/
def cidrMaskBytes : Nat → Nat → List Nat
  | 0, _ => []
  | l + 1, n =>
    if n ≥ 8 then 0xff :: cidrMaskBytes l (n - 8)
    else (0xff - (0xff >>> n)) % 256 :: cidrMaskBytes l 0

/-- Go `net.CIDRMask(ones, bits)`: `ones` leading one bits in `bits / 8` bytes. -/
def CIDRMask (ones bits : Nat) : IPMask :=
  if bits ≠ 32 ∧ bits ≠ 128 then []
  else if ones > bits then []
  else cidrMaskBytes (bits / 8) ones

/-- Go `networkNumberAndMask`: the network address and mask in matching lengths. -/
def networkNumberAndMask (n : IPNet) : Option (IP × IPMask) :=
  let ip4 := To4 n.IP
  if ip4 = [] ∧ n.IP.length ≠ 16 then none
  else
    let ip := if ip4 = [] then n.IP else ip4
    if n.Mask.length = 4 then
      if ip.length ≠ 4 then none else some (ip, n.Mask)
    else if n.Mask.length = 16 then
      if ip.length = 4 then some (ip, n.Mask.drop 12) else some (ip, n.Mask)
    else none

/-- Go `IPNet.Contains`. -/
def IPNet.Contains (n : IPNet) (ip : Cscan.IP) : Bool :=
  match networkNumberAndMask n with
  | none =>
    -- nn is nil: only an address of length zero has the same length
    let x := To4 ip
    (if x = [] then ip else x).length = 0
  | some (nn, m) =>
    let x := To4 ip
    let ip := if x = [] then ip else x
    if ip.length ≠ nn.length then false
    else (List.range ip.length).all fun i =>
      nn.getD i 0 &&& m.getD i 0 == ip.getD i 0 &&& m.getD i 0

/-! ## Package net/netip: textual forms -/

/-- Go `parseIPv4Fields`, the scan over the characters: `prev` is the character
before the current one (none at index 0), `val` and `digLen` describe the octet
being read and `fields` holds the octets already finished. -/
def parseIPv4Fields (prev : Option Char) (val digLen : Nat) (fields : List Nat) :
    List Char → Option (List Nat)
  | [] => if fields.length < 3 then none else some (fields ++ [val])
  | c :: rest =>
    if '0' ≤ c ∧ c ≤ '9' then
      if digLen = 1 ∧ val = 0 then none
      else
        let val := val * 10 + (c.toNat - '0'.toNat)
        if val > 255 then none
        else parseIPv4Fields (some c) val (digLen + 1) fields rest
    else if c = '.' then
      if prev = none ∨ rest = [] ∨ prev = some '.' then none
      else if fields.length = 3 then none
      else parseIPv4Fields (some c) 0 0 (fields ++ [val]) rest
    else none

/-- Go `netip.parseIPv4`: the four octets of a dotted-decimal address. -/
def parseIPv4 (s : List Char) : Option (List Nat) :=
  parseIPv4Fields none 0 0 [] s

/-- Value of a hexadecimal digit, none for any other character. -/
def hexVal (c : Char) : Option Nat :=
  if '0' ≤ c ∧ c ≤ '9' then some (c.toNat - '0'.toNat)
  else if 'a' ≤ c ∧ c ≤ 'f' then some (c.toNat - 'a'.toNat + 10)
  else if 'A' ≤ c ∧ c ≤ 'F' then some (c.toNat - 'A'.toNat + 10)
  else none

/-- The hex-group scan of `netip.parseIPv6`: reads hex digits from the front,
failing on a fifth digit; returns the digit count, the value and the rest. -/
def scanHex (off acc : Nat) : List Char → Option (Nat × Nat × List Char)
  | [] => some (off, acc, [])
  | c :: rest =>
    match hexVal c with
    | none => some (off, acc, c :: rest)
    | some d =>
      let acc := acc * 16 + d
      if off > 3 then none
      else if acc > 0xFFFF then none
      else scanHex (off + 1) acc rest

/-- The main loop of `netip.parseIPv6`. `ip` holds the bytes written so far
(its length is the index `i` of the source), `ellipsis` the position of `::`.
The counter bounds the iterations: every round writes two bytes of sixteen.
Returns the bytes, the ellipsis position and the unread rest. -/
def parseIPv6Loop : Nat → List Nat → Option Nat → List Char →
    Option (List Nat × Option Nat × List Char)
  | 0, ip, ellipsis, s => some (ip, ellipsis, s)
  | n + 1, ip, ellipsis, s =>
    if ¬ ip.length < 16 then some (ip, ellipsis, s)
    else
      match scanHex 0 0 s with
      | none => none
      | some (off, acc, rest) =>
        if off = 0 then none
        else if rest.head? = some '.' then
          if ellipsis = none ∧ ip.length ≠ 12 then none
          else if ip.length + 4 > 16 then none
          else
            match parseIPv4 s with
            | none => none
            | some v4 => some (ip ++ v4, ellipsis, [])
        else
          let ip := ip ++ [acc / 256, acc % 256]
          match rest with
          | [] => some (ip, ellipsis, [])
          | c :: rest1 =>
            if c ≠ ':' then none
            else
              match rest1 with
              | [] => none
              | d :: rest2 =>
                if d = ':' then
                  if ellipsis ≠ none then none
                  else if rest2 = [] then some (ip, some ip.length, [])
                  else parseIPv6Loop n ip (some ip.length) rest2
                else parseIPv6Loop n ip ellipsis rest1

/-- Go `netip.parseIPv6`: the sixteen bytes and the zone of an IPv6 address. -/
def parseIPv6 (input : List Char) : Option (List Nat × List Char) :=
  let body := input.takeWhile (· ≠ '%')
  let hasZone := input.contains '%'
  let zone := (input.dropWhile (· ≠ '%')).drop 1
  if hasZone ∧ zone = [] then none
  else
    let lead := body.take 2 = [':', ':']
    let s := if lead then body.drop 2 else body
    let ellipsis : Option Nat := if lead then some 0 else none
    if lead ∧ s = [] then some (List.replicate 16 0, zone)
    else
      match parseIPv6Loop 8 [] ellipsis s with
      | none => none
      | some (ip, ellipsis, rest) =>
        if rest ≠ [] then none
        else if ip.length < 16 then
          match ellipsis with
          | none => none
          | some e => some (ip.take e ++ List.replicate (16 - ip.length) 0 ++ ip.drop e, zone)
        else if ellipsis ≠ none then none
        else some (ip, zone)

/-- Go `netip.ParseAddr` followed by `Addr.As16`: the first of `.`, `:` and `%`
in the text picks the parser; an IPv4 address is returned in 16-byte form. -/
def ParseAddr (s : List Char) : Option (List Nat × Nat × List Char) :=
  match s.find? (fun c => c = '.' ∨ c = ':' ∨ c = '%') with
  | some '.' => (parseIPv4 s).map fun v4 => (v4InV6Prefix ++ v4, 32, [])
  | some ':' => (parseIPv6 s).map fun r => (r.1, 128, r.2)
  | _ => none

/-- Go `net.ParseIP`: the 16-byte form of a textual address without zone, or nil. -/
def ParseIP (s : String) : Option IP :=
  match ParseAddr s.data with
  | some (ip, _, zone) => if zone = [] then some ip else none
  | none => none

/-- Go `net.dtoi`: leading decimal digits of `s`; returns the value, the number
of characters read and whether a number below `0xFFFFFF` was read. -/
def dtoi (n i : Nat) : List Char → Nat × Nat × Bool
  | [] => if i = 0 then (0, 0, false) else (n, i, true)
  | c :: rest =>
    if '0' ≤ c ∧ c ≤ '9' then
      let n := n * 10 + (c.toNat - '0'.toNat)
      if n ≥ 0xFFFFFF then (0xFFFFFF, i, false)
      else dtoi n (i + 1) rest
    else if i = 0 then (0, 0, false) else (n, i, true)

/-- Go `net.ParseCIDR`: address and network of `a.b.c.d/len` or an IPv6 CIDR. -/
def ParseCIDR (s : String) : Option (IP × IPNet) :=
  if ¬ s.data.contains '/' then none
  else
    let addr := s.data.takeWhile (· ≠ '/')
    let mask := (s.data.dropWhile (· ≠ '/')).drop 1
    match ParseAddr addr with
    | none => none
    | some (addr16, bitLen, zone) =>
      if zone ≠ [] then none
      else
        let (n, i, ok) := dtoi 0 0 mask
        if ¬ ok ∨ i ≠ mask.length ∨ n > bitLen then none
        else
          let m := CIDRMask n bitLen
          some (addr16, { IP := Mask addr16 m, Mask := m })

/-- Go `netip.Addr.string4`: dotted decimal of four bytes. -/
def string4 (ip : List Nat) : String :=
  ⟨List.intercalate ['.'] (ip.map (Nat.toDigits 10))⟩

/-- The 16-bit group `j` of a 16-byte address (`Addr.v6u16`). -/
def v6u16 (ip : List Nat) (j : Nat) : Nat :=
  ip.getD (2 * j) 0 * 256 + ip.getD (2 * j + 1) 0

/-- Length of the run of zero groups starting at group `i` (inner loop of `appendTo6`);
the counter bounds the scan by the eight groups. -/
def zeroRun (ip : List Nat) : Nat → Nat → Nat
  | 0, _ => 0
  | n + 1, j => if j < 8 ∧ v6u16 ip j = 0 then 1 + zeroRun ip n (j + 1) else 0

/-- First loop of `appendTo6`: the first longest run of at least two zero
groups, as `(zeroStart, zeroEnd)`; `(255, 255)` when there is none. -/
def zeroSpan (ip : List Nat) : Nat → Nat → Nat × Nat → Nat × Nat
  | 0, _, z => z
  | n + 1, i, z =>
    let l := zeroRun ip 8 i
    let z := if l ≥ 2 ∧ l > z.2 - z.1 then (i, i + l) else z
    zeroSpan ip n (i + 1) z

/-- Second loop of `appendTo6`: the groups in hex, `::` in place of the zero span. -/
def appendGroups (ip : List Nat) (z : Nat × Nat) : Nat → Nat → List Char
  | 0, _ => []
  | n + 1, i =>
    if ¬ i < 8 then []
    else if i = z.1 then
      ':' :: ':' ::
        (if z.2 ≥ 8 then []
         else Nat.toDigits 16 (v6u16 ip z.2) ++ appendGroups ip z n (z.2 + 1))
    else
      (if i > 0 then [':'] else []) ++ Nat.toDigits 16 (v6u16 ip i) ++ appendGroups ip z n (i + 1)

/-- Go `netip.Addr.string6` for an address without zone. -/
def string6 (ip : List Nat) : String :=
  ⟨appendGroups ip (zeroSpan ip 8 0 (255, 255)) 8 0⟩

/-- Go `net.hexString`: two lower-case hex digits per byte. -/
def hexString (b : List Nat) : String :=
  ⟨(b.map fun tn => [Nat.digitChar (tn / 16), Nat.digitChar (tn % 16)]).flatten⟩

/-- Go `IP.String`. -/
def IP.String (ip : IP) : String :=
  if ip.length = 0 then "<nil>"
  else if ip.length ≠ 4 ∧ ip.length ≠ 16 then "?" ++ hexString ip
  else if (To4 ip).length = 4 then string4 (To4 ip)
  else string6 ip

/-! ## scheduler/splitter.go -/

/-- Go `TargetSplitter`: the number of targets per batch. -/
structure TargetSplitter where
  batchSize : Int
  deriving DecidableEq, Repr

/-- Go `NewTargetSplitter`: a non-positive batch size becomes 50. -/
def NewTargetSplitter (batchSize : Int) : TargetSplitter :=
  if batchSize ≤ 0 then { batchSize := 50 } else { batchSize := batchSize }

/-- The loop of `incIP` on the reversed byte slice: from the last byte leftwards,
add one modulo 256 and stop at the first byte that did not wrap to zero. -/
def incIPRev : List Nat → List Nat
  | [] => []
  | b :: bs =>
    let b1 := (b + 1) % 256
    if b1 > 0 then b1 :: bs else b1 :: incIPRev bs

/-- Go `TargetSplitter.incIP` (the slice is updated in place; here the new value is returned). -/
def incIP (ip : IP) : IP :=
  (incIPRev ip.reverse).reverse

/-- The `for` loop of `expandCIDR`: while the network contains `ip`, record it
and step to the next address. One unit of the budget pays one round. -/
def cidrLoop (ipnet : IPNet) : Nat → IP → List String → Run (List String)
  | 0, ip, ips => if ipnet.Contains ip then .fuelOut else .done ips
  | fuel + 1, ip, ips =>
    if ipnet.Contains ip then cidrLoop ipnet fuel (incIP ip) (ips ++ [IP.String ip])
    else .done ips

/-- Go `TargetSplitter.expandCIDR`. -/
def expandCIDR (fuel : Nat) (cidr : String) : Run (List String) :=
  match ParseCIDR cidr with
  | none => .done [cidr]
  | some (_, ipnet) =>
    match cidrLoop ipnet fuel (Mask ipnet.IP ipnet.Mask) [] with
    | .done ips =>
      if ips.length > 2 then .done ((ips.take (ips.length - 1)).drop 1) else .done ips
    | .fuelOut => .fuelOut
    | .panic => .panic

/-- The `for` loop of `expandIPRange`: until `ip` equals `endIP`, record it and
step to the next address. One unit of the budget pays one round. -/
def rangeLoop (endIP : IP) : Nat → IP → List String → Run (List String)
  | 0, ip, ips => if Equal ip endIP then .done ips else .fuelOut
  | fuel + 1, ip, ips =>
    if Equal ip endIP then .done ips
    else rangeLoop endIP fuel (incIP ip) (ips ++ [IP.String ip])

/-- Go `TargetSplitter.expandIPRange`. -/
def expandIPRange (fuel : Nat) (ipRange : String) : Run (List String) :=
  match Split ipRange '-' with
  | [p0, p1] =>
    match ParseIP (TrimSpace p0), ParseIP (TrimSpace p1) with
    | some startIP, some endIP =>
      match rangeLoop endIP fuel startIP [] with
      | .done ips => .done (ips ++ [IP.String endIP])
      | .fuelOut => .fuelOut
      | .panic => .panic
    | _, _ => .done [ipRange]
  | _ => .done [ipRange]

/-- The body of the `for` loop of `parseAllTargets` for one trimmed line that
is neither blank nor a comment. -/
def parseLine (fuel : Nat) (line : String) : Run (List String) :=
  if Contains line '/' then expandCIDR fuel line
  else if Contains line '-' ∧ (ParseIP ((Split line '-').headD "")).isSome then
    expandIPRange fuel line
  else .done [line]

/-- The `for` loop of `parseAllTargets` over the lines, `targets` being the
slice built so far. -/
def parseLines (fuel : Nat) : List String → List String → Run (List String)
  | [], targets => .done targets
  | line :: rest, targets =>
    let line := TrimSpace line
    if line = "" ∨ HasPrefix line '#' then parseLines fuel rest targets
    else
      match parseLine fuel line with
      | .done ips => parseLines fuel rest (targets ++ ips)
      | .fuelOut => .fuelOut
      | .panic => .panic

/-- Go `TargetSplitter.parseAllTargets`. -/
def parseAllTargets (fuel : Nat) (target : String) : Run (List String) :=
  parseLines fuel (Split target '\n') []

/-- The `for` loop of `SplitTargets`: `i` is the loop variable, `batches` the
slice built so far. Slicing `allTargets[i:end]` panics when `end < i`. -/
def batchLoop (batchSize : Int) (allTargets : List String) :
    Nat → Int → List String → Run (List String)
  | 0, i, batches => if i < allTargets.length then .fuelOut else .done batches
  | fuel + 1, i, batches =>
    if i < allTargets.length then
      let end0 := i + batchSize
      let end1 := if end0 > allTargets.length then (allTargets.length : Int) else end0
      if i < 0 ∨ end1 < i then .panic
      else
        let batch := Join ((allTargets.drop i.toNat).take (end1 - i).toNat) '\n'
        batchLoop batchSize allTargets fuel (i + batchSize) (batches ++ [batch])
    else .done batches

/-- Go `TargetSplitter.SplitTargets`. -/
def SplitTargets (s : TargetSplitter) (fuel : Nat) (target : String) : Run (List String) :=
  match parseAllTargets fuel target with
  | .done allTargets =>
    if (allTargets.length : Int) ≤ s.batchSize then .done [target]
    else batchLoop s.batchSize allTargets fuel 0 []
  | .fuelOut => .fuelOut
  | .panic => .panic

/-- Go `TargetSplitter.GetTargetCount`. -/
def GetTargetCount (fuel : Nat) (target : String) : Run Int :=
  match parseAllTargets fuel target with
  | .done ts => .done ts.length
  | .fuelOut => .fuelOut
  | .panic => .panic

/-- Go `TargetSplitter.NeedSplit`. -/
def NeedSplit (s : TargetSplitter) (fuel : Nat) (target : String) : Run Bool :=
  match GetTargetCount fuel target with
  | .done n => .done (decide (n > s.batchSize))
  | .fuelOut => .fuelOut
  | .panic => .panic

/-! ## The backing store (Redis) -/

/-- A value held under a store key: a string with its time to live in
nanoseconds (none: no expiry), a sorted set of scored members, or a value of
another kind (list, hash, set, stream). -/
inductive Value where
  | str (data : String) (ttl : Option Nat)
  | zset (members : List (Int × String))
  | other
  deriving DecidableEq, Repr

/-- The store as the program sees it: the keys with their values and the
messages published so far as `(channel, payload)`, oldest first. -/
structure Store where
  kv : List (String × Value)
  published : List (String × String)
  deriving DecidableEq, Repr

/-- The value under `key`, if the key exists. -/
def Store.lookup (s : Store) (key : String) : Option Value :=
  s.kv.lookup key

/-- Redis `GET key`: the string under `key`; none stands for the error result
(key missing, or a value that is not a string). -/
def Store.Get (s : Store) (key : String) : Option String :=
  match s.lookup key with
  | some (.str data _) => some data
  | _ => none

/-- Redis `EXISTS key`: the number of existing keys among the one given. -/
def Store.Exists (s : Store) (key : String) : Int :=
  if (s.lookup key).isSome then 1 else 0

/-- Redis `SET key data` with expiry `ttl`: replaces whatever was under `key`. -/
def Store.Set (s : Store) (key data : String) (ttl : Option Nat) : Store :=
  { s with kv := s.kv.filter (fun e => e.1 != key) ++ [(key, Value.str data ttl)] }

/-- Redis `DEL key`. -/
def Store.Del (s : Store) (key : String) : Store :=
  { s with kv := s.kv.filter (fun e => e.1 != key) }

/-- Redis `PUBLISH channel message`. -/
def Store.Publish (s : Store) (channel message : String) : Store :=
  { s with published := s.published ++ [(channel, message)] }

/-- The keys of the store that start with `pre`, in store order: the keys that
match the pattern `pre*`. -/
def Store.Keys (s : Store) (pre : String) : List String :=
  (s.kv.map Prod.fst).filter fun k => pre.data.isPrefixOf k.data

/-- What the connection to the store does during one call of the worker logic.
Command number `i` of the call, counted from 0, fails with the error `fault i`
when there is one, and is then not applied; `keysOrder` is the order in which
the reply to `KEYS` lists the matching keys, which Redis does not fix. -/
structure Conn where
  fault : Nat → Option String
  keysOrder : List String → List String

/-- The command `GET key` as command number `i` of the call: none stands for
the error result (the command failed, the key is missing, or the value is not
a string). -/
def Conn.Get (c : Conn) (i : Nat) (s : Store) (key : String) : Option String :=
  match c.fault i with
  | some _ => none
  | none => s.Get key

/-- The value of `EXISTS key` as command number `i` of the call, taken without
its error: a command that failed reads as 0. -/
def Conn.Exists (c : Conn) (i : Nat) (s : Store) (key : String) : Int :=
  match c.fault i with
  | some _ => 0
  | none => s.Exists key

/-- The command `SET` as command number `i` of the call; its result is not looked at. -/
def Conn.Set (c : Conn) (i : Nat) (s : Store) (key data : String) (ttl : Option Nat) : Store :=
  match c.fault i with
  | some _ => s
  | none => s.Set key data ttl

/-- The command `DEL` as command number `i` of the call; its result is not looked at. -/
def Conn.Del (c : Conn) (i : Nat) (s : Store) (key : String) : Store :=
  match c.fault i with
  | some _ => s
  | none => s.Del key

/-- The command `PUBLISH` as command number `i` of the call; its result is not looked at. -/
def Conn.Publish (c : Conn) (i : Nat) (s : Store) (channel message : String) : Store :=
  match c.fault i with
  | some _ => s
  | none => s.Publish channel message

/-- The command `KEYS pre*` as command number `i` of the call: none stands for
the error result, otherwise the matching keys in the order of the reply. -/
def Conn.Keys (c : Conn) (i : Nat) (s : Store) (pre : String) : Option (List String) :=
  match c.fault i with
  | some _ => none
  | none => some (c.keysOrder (s.Keys pre))

/-! ## Package encoding/json and package time, as far as the program uses them -/

/-- A Go `float64`, kept as its IEEE-754 bit pattern: the program only copies such values. -/
abbrev Float64 := Nat

/-- A value decoded by `json.Unmarshal` into `interface{}`. -/
inductive Json where
  | null
  | bool (b : Bool)
  | num (f : Float64)
  | str (s : String)
  | arr (xs : List Json)
  | obj (kvs : List (String × Json))

/-- A Go `map[string]interface{}` that is not nil. -/
abbrev JObj := List (String × Json)

/-- Result of `json.Unmarshal` into a `map[string]interface{}` variable:
an error, the nil map (JSON `null`), or a map. -/
inductive Decoded where
  | err
  | nilMap
  | map (m : JObj)

/-- Go `WorkerStatus` of workerlogic.go. -/
structure WorkerStatus where
  WorkerName : String
  IP : String
  CPULoad : Float64
  MemUsed : Float64
  TaskStartedNumber : Int
  TaskExecutedNumber : Int
  UpdateTime : String
  deriving DecidableEq, Repr

/-- The library functions whose results the program consumes and the clock.
`decodeMap` and `decodeWorkerStatus` are `json.Unmarshal` on a non-empty
input, `encodeMap` is `json.Marshal` of a map, `parseTime` is
`time.ParseInLocation("2006-01-02 15:04:05", s, time.Local)` as Unix
nanoseconds, `now key` is the wall clock in Unix nanoseconds at the moment the
record under `key` is examined, and `sscanInt` is `fmt.Sscanf(s, "%d", &x)`:
the integer stored into `x`, none when nothing is stored. -/
structure Env where
  decodeMap : String → Decoded
  encodeMap : JObj → String
  decodeWorkerStatus : String → Option WorkerStatus
  parseTime : String → Option Int
  now : String → Int
  sscanInt : String → Option Int

/-- Go `json.Unmarshal(data, &m)` for `m map[string]interface{}`: empty input is a syntax error. -/
def Env.UnmarshalMap (env : Env) (data : String) : Decoded :=
  if data = "" then .err else env.decodeMap data

/-- Go `json.Unmarshal(data, &status)` for `status WorkerStatus`; none is an error. -/
def Env.UnmarshalWorkerStatus (env : Env) (data : String) : Option WorkerStatus :=
  if data = "" then none else env.decodeWorkerStatus data

/-- Go `time.ParseInLocation("2006-01-02 15:04:05", value, time.Local)` as Unix
nanoseconds; none is an error. The empty text never matches the layout. -/
def Env.ParseInLocation (env : Env) (value : String) : Option Int :=
  if value = "" then none else env.parseTime value

/-- Indexing a Go map, `m[key]`; a nil map has no entries. -/
def Decoded.get (d : Decoded) (key : String) : Option Json :=
  match d with
  | .map m => m.lookup key
  | _ => none

/-- Go `v, _ := x.(string)`: the string, or the empty string for anything else. -/
def asString : Option Json → String
  | some (.str s) => s
  | _ => ""

/-- Go `getString`: the string under `key`, or the empty string. -/
def getString (m : JObj) (key : String) : String :=
  match m.lookup key with
  | some (.str v) => v
  | _ => ""

/-- Go `getBool`: the boolean under `key`, or false. -/
def getBool (m : JObj) (key : String) : Bool :=
  match m.lookup key with
  | some (.bool v) => v
  | _ => false

/-- Go map assignment `m[key] = v` on a map that is not nil. -/
def JObj.set (m : JObj) (key : String) (v : Json) : JObj :=
  if (m.lookup key).isSome then m.map fun e => if e.1 == key then (key, v) else e
  else m ++ [(key, v)]

/-- Arithmetic of a 64-bit Go `int`: the value wrapped into `[-2^63, 2^63)`. -/
def wrapInt (x : Int) : Int :=
  (x + 9223372036854775808) % 18446744073709551616 - 9223372036854775808

/-- Go `time.Duration` of one second, in nanoseconds. -/
def Second : Int := 1000000000

/-- Go `Time.Sub` on Unix-nanosecond instants: the difference, saturated to the `int64` range. -/
def timeSub (t u : Int) : Int :=
  if t - u < -(2 ^ 63) then -(2 ^ 63)
  else if t - u > 2 ^ 63 - 1 then 2 ^ 63 - 1
  else t - u

/-! ## api/internal/logic/workerlogic.go -/

/-- Go `types.Worker`. -/
structure Worker where
  Name : String
  IP : String
  CPULoad : Float64
  MemUsed : Float64
  TaskCount : Int
  RunningCount : Int
  Status : String
  UpdateTime : String
  deriving DecidableEq, Repr

/-- Go `types.WorkerListResp`. -/
structure WorkerListResp where
  Code : Int
  Msg : String
  List : List Worker
  deriving DecidableEq, Repr

/-- Go `types.WorkerDeleteResp` and `types.WorkerRenameResp`. -/
structure BaseResp where
  Code : Int
  Msg : String
  deriving DecidableEq, Repr

/-- The online status computed in the loop of `WorkerList` for the record under `key`. -/
def workerStatusOf (env : Env) (key : String) (status : WorkerStatus) : String :=
  if status.UpdateTime ≠ "" then
    match env.ParseInLocation status.UpdateTime with
    | some updateTime =>
      let elapsed := timeSub (env.now key) updateTime
      if elapsed < 60 * Second then "running" else "offline"
    | none => "offline"
  else "offline"

/-- The loop of `WorkerList` over the keys of the reply, `list` being the slice
built so far and `i` the number of the next command: one `GET` per key. -/
def workerListLoop (env : Env) (c : Conn) (s : Store) :
    Nat → List String → List Worker → List Worker
  | _, [], list => list
  | i, key :: keys, list =>
    match c.Get i s key with
    | none => workerListLoop env c s (i + 1) keys list
    | some data =>
      match env.UnmarshalWorkerStatus data with
      | none => workerListLoop env c s (i + 1) keys list
      | some status =>
        let workerStatus := workerStatusOf env key status
        let runningCount := wrapInt (status.TaskStartedNumber - status.TaskExecutedNumber)
        let runningCount := if runningCount < 0 then 0 else runningCount
        workerListLoop env c s (i + 1) keys (list ++ [{
          Name := status.WorkerName
          IP := status.IP
          CPULoad := status.CPULoad
          MemUsed := status.MemUsed
          TaskCount := status.TaskExecutedNumber
          RunningCount := runningCount
          Status := workerStatus
          UpdateTime := status.UpdateTime }])

/-- Go `WorkerListLogic.WorkerList`, run on the store as it is once the
500 ms wait is over. The commands of the call are `PUBLISH` (number 0), `KEYS`
(number 1) and one `GET` for each key of the reply (from number 2 on). -/
def WorkerList (env : Env) (c : Conn) (s : Store) : WorkerListResp × Store :=
  let s := c.Publish 0 s "cscan:worker:query" "refresh"
  match c.Keys 1 s "worker:" with
  | none => ({ Code := 500, Msg := "查询失败", List := [] }, s)
  | some keys => ({ Code := 0, Msg := "success", List := workerListLoop env c s 2 keys [] }, s)

/-- Go `WorkerDeleteLogic.WorkerDelete`. The commands of the call are `PUBLISH`
(number 0), `DEL` of the status key (number 1) and `DEL` of the control key
(number 2). -/
def WorkerDelete (c : Conn) (s : Store) (name : String) : BaseResp × Store :=
  if name = "" then ({ Code := 400, Msg := "Worker名称不能为空" }, s)
  else
    let stopMsg := "\x7b\"action\":\"stop\",\"workerName\":\"" ++ name ++ "\"\x7d"
    let s := c.Publish 0 s "cscan:worker:control" stopMsg
    let workerKey := "worker:" ++ name
    let s := c.Del 1 s workerKey
    let ctrlKey := "worker_ctrl:" ++ name
    let s := c.Del 2 s ctrlKey
    ({ Code := 0, Msg := "Worker已删除，停止信号已发送" }, s)

/-- Go `WorkerRenameLogic.WorkerRename`; assigning into the nil map panics. The
commands of the call are `GET` (number 0), `EXISTS` (number 1), `SET`
(number 2), `DEL` (number 3) and `PUBLISH` (number 4). -/
def WorkerRename (env : Env) (c : Conn) (s : Store) (oldName newName : String) :
    Run (BaseResp × Store) :=
  if oldName = "" ∨ newName = "" then .done ({ Code := 400, Msg := "Worker名称不能为空" }, s)
  else if oldName = newName then .done ({ Code := 400, Msg := "新旧名称相同" }, s)
  else
    let oldKey := "worker:" ++ oldName
    match c.Get 0 s oldKey with
    | none => .done ({ Code := 404, Msg := "Worker不存在" }, s)
    | some data =>
      let newKey := "worker:" ++ newName
      if c.Exists 1 s newKey > 0 then .done ({ Code := 400, Msg := "新名称已被使用" }, s)
      else
        match env.UnmarshalMap data with
        | .err => .done ({ Code := 500, Msg := "数据解析失败" }, s)
        | .nilMap => .panic
        | .map status =>
          let status := status.set "workerName" (.str newName)
          let newData := env.encodeMap status
          let s := c.Set 2 s newKey newData (some (10 * 60 * 1000000000))
          let s := c.Del 3 s oldKey
          let renameMsg := "\x7b\"action\":\"rename\",\"workerName\":\"" ++ oldName ++
            "\",\"newName\":\"" ++ newName ++ "\"\x7d"
          let s := c.Publish 4 s "cscan:worker:control" renameMsg
          .done ({ Code := 0, Msg := "重命名成功" }, s)

/-! ## rpc/task/internal/logic/getpocvalidationresultlogic.go -/

/-- Go `pb.PocValidationResult`. -/
structure PocValidationResult where
  PocId : String
  PocName : String
  TemplateId : String
  Severity : String
  Matched : Bool
  MatchedUrl : String
  Details : String
  Output : String
  PocType : String
  Tags : List String
  deriving DecidableEq, Repr

/-- Go `pb.GetPocValidationResultResp`. -/
structure GetPocValidationResultResp where
  Success : Bool
  Message : String
  Status : String
  Results : List PocValidationResult := []
  CompletedCount : Int := 0
  TotalCount : Int := 0
  UpdateTime : String := ""
  CreateTime : String := ""
  deriving DecidableEq, Repr

/-- Go conversion `int32(n)` of a length. -/
def toInt32 (n : Nat) : Int :=
  ((n : Int) + 2 ^ 31) % 2 ^ 32 - 2 ^ 31

/-- The strings among the elements of a `tags` array. -/
def tagStrings : List Json → List String
  | [] => []
  | .str t :: ts => t :: tagStrings ts
  | _ :: ts => tagStrings ts

/-- The loop over `result["results"]`: one entry per element that is a map. -/
def pocResults : List Json → List PocValidationResult
  | [] => []
  | .obj rMap :: rs =>
    { PocId := getString rMap "pocId"
      PocName := getString rMap "pocName"
      TemplateId := getString rMap "templateId"
      Severity := getString rMap "severity"
      Matched := getBool rMap "matched"
      MatchedUrl := getString rMap "matchedUrl"
      Details := getString rMap "details"
      Output := getString rMap "output"
      PocType := getString rMap "pocType"
      Tags := match rMap.lookup "tags" with
        | some (.arr tags) => tagStrings tags
        | _ => [] } :: pocResults rs
  | _ :: rs => pocResults rs

/-- Go `GetPocValidationResultLogic.GetPocValidationResult` (it only reads the store). -/
def GetPocValidationResult (env : Env) (s : Store) (taskId : String) : GetPocValidationResultResp :=
  if taskId = "" then { Success := false, Message := "TaskId不能为空", Status := "ERROR" }
  else
    let resultKey := "cscan:task:result:" ++ taskId
    match s.Get resultKey with
    | none =>
      let taskInfoKey := "cscan:task:info:" ++ taskId
      let notFound : GetPocValidationResultResp :=
        { Success := false, Message := "未找到验证结果", Status := "NOT_FOUND" }
      match s.Get taskInfoKey with
      | none => notFound
      | some taskInfoData =>
        if taskInfoData ≠ "" then
          match env.UnmarshalMap taskInfoData with
          | .err => notFound
          | taskInfo =>
            let status := asString (taskInfo.get "status")
            if status = "" ∨ status = "PENDING" ∨ status = "STARTED" then
              { Success := true, Message := "任务执行中", Status := "RUNNING" }
            else notFound
        else notFound
    | some resultData =>
      match env.UnmarshalMap resultData with
      | .err => { Success := false, Message := "解析结果失败", Status := "ERROR" }
      | result =>
        let status := asString (result.get "status")
        let status := if status = "" then "COMPLETED" else status
        let pbResults := match result.get "results" with
          | some (.arr results) => pocResults results
          | _ => []
        { Success := true
          Message := "success"
          Status := status
          Results := pbResults
          CompletedCount := toInt32 pbResults.length
          TotalCount := toInt32 pbResults.length
          UpdateTime := asString (result.get "updateTime")
          CreateTime := asString (result.get "createTime") }

/-! ## api/internal/handler/worker/audithandler.go -/

/-- The paging parameters of `WorkerAuditLogHandler`: `p` and `ps` are the
query values of `page` and `pageSize` (empty when absent); the result is the
`(page, pageSize)` passed to the search and echoed in the response. -/
def WorkerAuditLogHandler.paging (env : Env) (p ps : String) : Int × Int :=
  let page : Int := 1
  let pageSize : Int := 20
  let page := if p ≠ "" then (env.sscanInt p).getD page else page
  let pageSize := if ps ≠ "" then (env.sscanInt ps).getD pageSize else pageSize
  let pageSize := if pageSize > 100 then 100 else pageSize
  let pageSize := if pageSize < 1 then 20 else pageSize
  let page := if page < 1 then 1 else page
  (page, pageSize)

/-! ## A sample environment and sample stores, for the examples -/

/-- A JSON text for a map whose values are strings (other values are written `null`). -/
def sampleEncode (m : JObj) : String :=
  "\x7b" ++ String.intercalate ","
    (m.map fun e => "\"" ++ e.1 ++ "\":" ++
      (match e.2 with
       | .str v => "\"" ++ v ++ "\""
       | _ => "null")) ++ "\x7d"

/-- An environment that decodes a handful of texts; the clock stands at
2024-01-01 00:01:00 UTC for every record. -/
def sampleEnv : Env where
  decodeMap := fun d =>
    if d = "\x7b\"status\":\"STARTED\"\x7d" then .map [("status", .str "STARTED")]
    else if d = "\x7b\"results\":[]\x7d" then .map [("results", .arr [])]
    else if d = "\x7b\"workerName\":\"w1\",\"ip\":\"10.0.0.9\"\x7d" then
      .map [("workerName", .str "w1"), ("ip", .str "10.0.0.9")]
    else if d = "null" then .nilMap
    else .err
  encodeMap := sampleEncode
  decodeWorkerStatus := fun d =>
    if d = "\x7b\"workerName\":\"w1\",\"updateTime\":\"2024-01-01 00:00:00\"\x7d" then
      some { WorkerName := "w1", IP := "", CPULoad := 0, MemUsed := 0, TaskStartedNumber := 0,
             TaskExecutedNumber := 0, UpdateTime := "2024-01-01 00:00:00" }
    else if d = "\x7b\"workerName\":\"w2\",\"updateTime\":\"2024-01-01 00:00:50\"\x7d" then
      some { WorkerName := "w2", IP := "", CPULoad := 0, MemUsed := 0, TaskStartedNumber := 3,
             TaskExecutedNumber := 1, UpdateTime := "2024-01-01 00:00:50" }
    else none
  parseTime := fun t =>
    if t = "2024-01-01 00:00:00" then some 1704067200000000000
    else if t = "2024-01-01 00:00:50" then some 1704067250000000000
    else none
  now := fun _ => 1704067260000000000
  sscanInt := fun t =>
    if t = "500" then some 500
    else if t = "0" then some 0
    else if t = "-3" then some (-3)
    else if t = "7" then some 7
    else none

/-- A store with one worker record, its control flag and one task-info record. -/
def sampleStore : Store where
  kv := [("worker:w1", .str "\x7b\"workerName\":\"w1\",\"ip\":\"10.0.0.9\"\x7d" none),
         ("worker_ctrl:w1", .str "STOP" none),
         ("cscan:task:info:t1", .str "\x7b\"status\":\"STARTED\"\x7d" (some 86400000000000))]
  published := []

/-- A store with two worker records: one last updated 60 s, one 10 s before the sample clock. -/
def sampleFleet : Store where
  kv := [("worker:w1", .str "\x7b\"workerName\":\"w1\",\"updateTime\":\"2024-01-01 00:00:00\"\x7d" none),
         ("worker:w2", .str "\x7b\"workerName\":\"w2\",\"updateTime\":\"2024-01-01 00:00:50\"\x7d" none)]
  published := []

/-- A connection that answers every command and lists keys in store order. -/
def sampleConn : Conn where
  fault := fun _ => none
  keysOrder := id

/-- A connection on which command number `i` times out and every other command
is answered. -/
def sampleConnLost (i : Nat) : Conn where
  fault := fun j => if j = i then some "i/o timeout" else none
  keysOrder := id

/-- The characters that occur in the text `IP.String` gives for an address. -/
def isAddrChar (c : Char) : Bool :=
  "0123456789abcdef*.:?<nil>".data.contains c

/-- The characters of a dotted-decimal address: a decimal digit or a dot. -/
def isDotDec (c : Char) : Bool :=
  decide (('0' ≤ c ∧ c ≤ '9') ∨ c = '.')

/-- The 4-byte form of the IPv4 address with 32-bit value `n`, most significant byte first. -/
def ipv4 (n : Nat) : IP :=
  [n / 16777216 % 256, n / 65536 % 256, n / 256 % 256, n % 256]

/-- The 16-byte form of the IPv4 address with value `n`, as `net.ParseIP` returns it. -/
def ipv4In16 (n : Nat) : IP :=
  v4InV6Prefix ++ ipv4 n

/-! ## The sorted-set commands of the store -/

/-- The text of the error Redis gives for a command on a key of another type. -/
def WRONGTYPE : String := "WRONGTYPE Operation against a key holding the wrong kind of value"

/-- Redis `ZADD key score member`: creates the sorted set when the key is
missing, replaces the score of a member already present, and fails with
`WRONGTYPE` when the key holds another kind of value. -/
def Store.ZAdd (s : Store) (key : String) (score : Int) (member : String) : Except String Store :=
  match s.lookup key with
  | none => .ok { s with kv := s.kv ++ [(key, .zset [(score, member)])] }
  | some (.zset ms) =>
    .ok { s with kv := s.kv.filter (fun e => e.1 != key) ++
      [(key, .zset (ms.filter (fun m => m.2 != member) ++ [(score, member)]))] }
  | some _ => .error WRONGTYPE

/-- The member a sorted set ranks first: the lowest score, and among equal
scores the member that is first when the members are compared character by
character (the byte order of their UTF-8 form). -/
def zsetMin : List (Int × String) → Option (Int × String)
  | [] => none
  | x :: xs =>
    match zsetMin xs with
    | none => some x
    | some y => if x.1 < y.1 ∨ (x.1 = y.1 ∧ x.2.data < y.2.data) then some x else some y

/-- Redis `ZPOPMIN key`: removes and returns the member ranked first; nothing
is returned for a missing key, an empty set or a key of another type. The key
goes away with its last member. -/
def Store.ZPopMin (s : Store) (key : String) : Option (Int × String) × Store :=
  match s.lookup key with
  | some (.zset ms) =>
    match zsetMin ms with
    | none => (none, s)
    | some m =>
      let rest := ms.filter (fun x => x != m)
      if rest = [] then (some m, s.Del key)
      else (some m, { s with kv := s.kv.filter (fun e => e.1 != key) ++ [(key, .zset rest)] })
  | _ => (none, s)

/-- Redis `ZRANGE key 0 0`: the member ranked first, left in place. -/
def Store.ZFirst (s : Store) (key : String) : Option (Int × String) :=
  match s.lookup key with
  | some (.zset ms) => zsetMin ms
  | _ => none

/-- Redis `ZREM key member`. -/
def Store.ZRem (s : Store) (key member : String) : Store :=
  match s.lookup key with
  | some (.zset ms) =>
    let rest := ms.filter (fun x => x.2 != member)
    if rest = [] then s.Del key
    else { s with kv := s.kv.filter (fun e => e.1 != key) ++ [(key, .zset rest)] }
  | _ => s

/-! ## Conversion of integers to float64 -/

/-- The position of the leading bit of `m` (0 for `m < 2`), found in at most
`fuel` halvings; 64 halvings are enough for an `int64`. -/
def leadingBit : Nat → Nat → Nat
  | 0, _ => 0
  | fuel + 1, m => if 2 ≤ m then leadingBit fuel (m / 2) + 1 else 0

/-- Go conversion `float64(n)` of an `int64`, as the exact value of the
result: `n` itself below `2^53` in absolute value, otherwise `n` rounded to 53
significant bits, halfway cases to the even neighbour. -/
def float64OfInt64 (n : Int) : Int :=
  let m := n.natAbs
  if m < 2 ^ 53 then n
  else
    let e := leadingBit 64 m - 52
    let q := m / 2 ^ e
    let r := m % 2 ^ e
    let q1 := if 2 * r > 2 ^ e ∨ (2 * r = 2 ^ e ∧ q % 2 = 1) then q + 1 else q
    if n < 0 then -((q1 * 2 ^ e : Nat) : Int) else ((q1 * 2 ^ e : Nat) : Int)

/-! ## rpc/task/internal/logic/validatepoclogic.go -/

/-- Go `pb.ValidatePocReq`. -/
structure ValidatePocReq where
  Url : String
  PocId : String
  PocType : String
  Timeout : Int
  deriving DecidableEq, Repr

/-- Go `pb.ValidatePocResp`. -/
structure ValidatePocResp where
  Success : Bool
  Message : String
  Matched : Bool
  TaskId : String := ""
  deriving DecidableEq, Repr

/-- Go `scheduler.TaskInfo`, with the fields `ValidatePoc` fills in. -/
structure TaskInfo where
  TaskId : String
  MainTaskId : String
  WorkspaceId : String
  TaskName : String
  Config : String
  Priority : Int
  deriving DecidableEq, Repr

/-- A command sent to the store. -/
inductive Cmd where
  | zadd (key : String) (score : Int) (member : String)
  | del (key : String)
  | set (key data : String) (ttl : Option Nat)
  deriving DecidableEq, Repr

/-- What one call of `ValidatePoc` gets from outside: the identifier from
`uuid.New().String()`, the reading of `time.Now().UnixNano()`, the text of
`time.Now().Local().Format("2006-01-02 15:04:05")`, `json.Marshal` of the task
configuration and of the task, and for the store command number `i` of the call
the error with which the store or the connection fails it, if it does. -/
structure PocCall where
  uuid : String
  unixNano : Int
  createTime : String
  marshalConfig : ValidatePocReq → String
  marshalTask : TaskInfo → String
  fault : Nat → Option String

/-- The command `ZADD` as command number `i` of the call: the error it returns,
if any, and the store afterwards. -/
def PocCall.zadd (call : PocCall) (i : Nat) (s : Store) (key : String) (score : Int)
    (member : String) : Option String × Store :=
  match call.fault i with
  | some e => (some e, s)
  | none =>
    match s.ZAdd key score member with
    | .error e => (some e, s)
    | .ok s1 => (none, s1)

/-- The command `DEL` as command number `i` of the call; its result is not looked at. -/
def PocCall.del (call : PocCall) (i : Nat) (s : Store) (key : String) : Store :=
  match call.fault i with
  | some _ => s
  | none => s.Del key

/-- The command `SET` as command number `i` of the call; its result is not looked at. -/
def PocCall.set (call : PocCall) (i : Nat) (s : Store) (key data : String)
    (ttl : Option Nat) : Store :=
  match call.fault i with
  | some _ => s
  | none => s.Set key data ttl

/-- The task `ValidatePoc` builds for a request. -/
def pocTask (call : PocCall) (req : ValidatePocReq) : TaskInfo :=
  { TaskId := call.uuid
    MainTaskId := call.uuid
    WorkspaceId := "default"
    TaskName := "POC验证"
    Config := call.marshalConfig req
    Priority := 2 }

/-- The map `ValidatePoc` stores as the task-info record. -/
def pocTaskInfo (call : PocCall) (req : ValidatePocReq) : JObj :=
  [("workspaceId", .str "default"),
   ("mainTaskId", .str call.uuid),
   ("taskType", .str "poc_validate"),
   ("url", .str req.Url),
   ("pocId", .str req.PocId),
   ("pocType", .str req.PocType),
   ("createTime", .str call.createTime)]

/-- The enqueue of `ValidatePoc`: the `ZADD` and, after a wrong-type error, the
`DEL` and the one repeated `ZADD`. Returns the error left at the end, the store
and the commands sent. -/
def ValidatePoc.enqueue (call : PocCall) (s : Store) (req : ValidatePocReq) :
    Option String × Store × List Cmd :=
  let taskJson := call.marshalTask (pocTask call req)
  let queueKey := "cscan:task:queue"
  let score := float64OfInt64 call.unixNano
  match call.zadd 0 s queueKey score taskJson with
  | (some err, s1) =>
    if err = WRONGTYPE then
      let s2 := call.del 1 s1 queueKey
      let (err2, s3) := call.zadd 2 s2 queueKey score taskJson
      (err2, s3, [.zadd queueKey score taskJson, .del queueKey, .zadd queueKey score taskJson])
    else (some err, s1, [.zadd queueKey score taskJson])
  | (none, s1) => (none, s1, [.zadd queueKey score taskJson])

/-- Go `ValidatePocLogic.ValidatePoc`: the response, the store afterwards and
the commands sent to the store, in order. -/
def ValidatePoc (env : Env) (call : PocCall) (s : Store) (req : ValidatePocReq) :
    ValidatePocResp × Store × List Cmd :=
  match ValidatePoc.enqueue call s req with
  | (some err, s1, cmds) =>
    ({ Success := false, Message := "任务入队失败: " ++ err, Matched := false }, s1, cmds)
  | (none, s1, cmds) =>
    let taskInfoKey := "cscan:task:info:" ++ call.uuid
    let taskInfoData := env.encodeMap (pocTaskInfo call req)
    let ttl := some (24 * 3600 * 1000000000)
    let s2 := call.set cmds.length s1 taskInfoKey taskInfoData ttl
    ({ Success := true, Message := "POC验证任务已下发", Matched := false, TaskId := call.uuid },
      s2, cmds ++ [.set taskInfoKey taskInfoData ttl])

/-- A run of `ValidatePoc` calls one after the other, each with its own
request: the store after the last call. -/
def enqueueAll (env : Env) : Store → List (PocCall × ValidatePocReq) → Store
  | s, [] => s
  | s, job :: rest => enqueueAll env (ValidatePoc env job.1 s job.2).2.1 rest

/-- The members returned by `n` successive `ZPOPMIN` commands on the task
queue, stopping early when the queue is empty. -/
def drainQueue : Nat → Store → List String
  | 0, _ => []
  | n + 1, s =>
    match s.ZPopMin "cscan:task:queue" with
    | (some m, s1) => m.2 :: drainQueue n s1
    | (none, _) => []

/-! ## The pop of the task queue -/

/-- Modelled from the spec: the worker's pop of the task queue, which is not
among the sources. The spec asks for a single store operation that removes and
returns the minimum-scored entry; here that is one `ZPOPMIN` on the queue key,
and the caller receives the member, or nothing when the queue is empty. -/
def popNext (s : Store) : Option String × Store :=
  ((s.ZPopMin "cscan:task:queue").1.map Prod.snd, (s.ZPopMin "cscan:task:queue").2)

/-- Modelled from the spec: two callers pop concurrently. The store runs one
command at a time, so the two single-command pops take effect in one of two
orders; the result is what the first and the second caller receive and the
store afterwards. -/
def twoPops (firstCallerFirst : Bool) (s : Store) : Option String × Option String × Store :=
  if firstCallerFirst then
    let (a, s1) := popNext s
    let (b, s2) := popNext s1
    (a, b, s2)
  else
    let (b, s1) := popNext s
    let (a, s2) := popNext s1
    (a, b, s2)

/-- Modelled from the spec: the pop as the read-then-delete pair the spec rules
out, run by two callers whose commands interleave as read, read, delete,
delete. The result is what the two callers receive. -/
def twoReadThenDelete (s : Store) : Option String × Option String × Store :=
  let a := (s.ZFirst "cscan:task:queue").map Prod.snd
  let b := (s.ZFirst "cscan:task:queue").map Prod.snd
  let s1 := match a with
    | some m => s.ZRem "cscan:task:queue" m
    | none => s
  let s2 := match b with
    | some m => s1.ZRem "cscan:task:queue" m
    | none => s1
  (a, b, s2)

/-! ## Byte slices as numbers -/

/-- The number a byte slice stands for, most significant byte first. -/
def beVal (ip : List Nat) : Nat :=
  ip.foldl (fun acc b => acc * 256 + b) 0

/-! ## Targets that parse to themselves -/

/-- A target that `parseAllTargets` hands back as it is: trimmed, not blank, not
a comment, and parsed as a line to the one-element list of itself with any
budget. -/
def Stable (t : String) : Prop :=
  TrimSpace t = t ∧ t ≠ "" ∧ HasPrefix t '#' = false ∧
    ∀ fuel : Nat, parseLine fuel t = .done [t]

/-! ## Worker records that do not decode -/

/-- A worker key whose record `WorkerList` cannot use: `GET` fails, or the
payload does not decode. -/
def corruptWorker (env : Env) (s : Store) (key : String) : Bool :=
  match s.Get key with
  | none => true
  | some data => (env.UnmarshalWorkerStatus data).isNone

/-- The store without the worker keys whose record cannot be used. -/
def dropCorruptWorkers (env : Env) (s : Store) : Store :=
  { s with kv := s.kv.filter fun e =>
      !("worker:".data.isPrefixOf e.1.data && corruptWorker env s e.1) }

/-- The entry the loop of `WorkerList` appends for the record `status` under `key`. -/
def workerEntry (env : Env) (key : String) (status : WorkerStatus) : Worker :=
  { Name := status.WorkerName
    IP := status.IP
    CPULoad := status.CPULoad
    MemUsed := status.MemUsed
    TaskCount := status.TaskExecutedNumber
    RunningCount :=
      if wrapInt (status.TaskStartedNumber - status.TaskExecutedNumber) < 0 then 0
      else wrapInt (status.TaskStartedNumber - status.TaskExecutedNumber)
    Status := workerStatusOf env key status
    UpdateTime := status.UpdateTime }

/-- The entry of the record the store holds under `key`, when there is a
string under `key` and it decodes. -/
def storedWorker (env : Env) (s : Store) (key : String) : Option Worker :=
  match s.Get key with
  | none => none
  | some data => (env.UnmarshalWorkerStatus data).map (workerEntry env key)

/-- What one round of the loop of `WorkerList` adds for `key` when its `GET`
is command number `i`: the entry of the record, or nothing when the record
cannot be read or does not decode. -/
def readWorker (env : Env) (c : Conn) (s : Store) (i : Nat) (key : String) : Option Worker :=
  match c.Get i s key with
  | none => none
  | some data => (env.UnmarshalWorkerStatus data).map (workerEntry env key)

/-! ## More samples for the examples -/

/-- A call of `ValidatePoc` at the given clock reading with the given
identifier, on a store that answers every command. -/
def sampleCall (uuid : String) (unixNano : Int) : PocCall where
  uuid := uuid
  unixNano := unixNano
  createTime := "2023-11-14 22:13:20"
  marshalConfig := fun req => "\x7b\"url\":\"" ++ req.Url ++ "\"\x7d"
  marshalTask := fun t => "\x7b\"taskId\":\"" ++ t.TaskId ++ "\"\x7d"
  fault := fun _ => none

/-- A call of `ValidatePoc` during which the connection fails every command. -/
def sampleCallOffline : PocCall :=
  { sampleCall "a1" 1700000000000000000 with fault := fun _ => some "connection refused" }

/-- A call of `ValidatePoc` during which the `DEL`, command number 1, is lost. -/
def sampleCallDelLost : PocCall :=
  { sampleCall "a1" 1700000000000000000 with
    fault := fun i => if i = 1 then some "i/o timeout" else none }

/-- A request to validate one POC. -/
def sampleReq : ValidatePocReq :=
  { Url := "http://10.0.0.9", PocId := "p1", PocType := "nuclei", Timeout := 30 }

/-- A store whose queue key is left over as a plain string. -/
def sampleStoreOldQueue : Store where
  kv := [("cscan:task:queue", .str "old" none)]
  published := []

/-- A store with a result record that is not JSON, next to the info record of the task. -/
def sampleStoreBadResult : Store where
  kv := [("cscan:task:result:t1", .str "not json" none),
         ("cscan:task:info:t1", .str "\x7b\"status\":\"STARTED\"\x7d" (some 86400000000000))]
  published := []

/-- A connection that answers every command and lists keys in the reverse of
store order. -/
def sampleConnRev : Conn where
  fault := fun _ => none
  keysOrder := List.reverse

/-- A store with a worker record that is not JSON between two records that decode. -/
def sampleFleetCorrupt : Store where
  kv := [("worker:w1", .str "\x7b\"workerName\":\"w1\",\"updateTime\":\"2024-01-01 00:00:00\"\x7d" none),
         ("worker:w3", .str "garbage" none),
         ("worker:w2", .str "\x7b\"workerName\":\"w2\",\"updateTime\":\"2024-01-01 00:00:50\"\x7d" none)]
  published := []

/-! ## scanner/naabu.go -/

/-- Go `result.HostResult` as the callback reads it: the host and the port
numbers of `hr.Ports`, in order. -/
structure HostResult where
  Host : String
  Ports : List Int
  deriving DecidableEq, Repr

/-- Go `Asset`, with the fields the callback fills in. -/
structure Asset where
  Authority : String
  Host : String
  Port : Int
  Category : String
  deriving DecidableEq, Repr

/-- The variables of `runNaabu` that the callbacks share under the mutex: the
collected assets and the two maps; a key missing from a Go map reads as the
zero value. -/
structure NaabuState where
  assets : List Asset
  hostPortCount : String → Int
  skippedHosts : String → Bool

/-- Assignment to one key of a Go map. -/
def mapSet {α : Type} (m : String → α) (key : String) (v : α) : String → α :=
  fun k => if k = key then v else m k

/-- The asset the callback builds for an open port; `getCategory` is the
helper of that name, which is not among the sources. -/
def newAsset (getCategory : String → String) (host : String) (port : Int) : Asset :=
  { Authority := host ++ ":" ++ toString port
    Host := host
    Port := port
    Category := getCategory host }

/-- The `for` loop of the `OnResult` callback over `hr.Ports`; the `return`
inside the loop ends the callback. -/
def OnResult.ports (getCategory : String → String) (PortThreshold : Int) (host : String) :
    List Int → NaabuState → NaabuState
  | [], st => st
  | port :: rest, st =>
    let st := { st with
      hostPortCount := mapSet st.hostPortCount host (wrapInt (st.hostPortCount host + 1)) }
    if PortThreshold > 0 ∧ st.hostPortCount host > PortThreshold then
      if ¬ st.skippedHosts host = true then
        { st with
          skippedHosts := mapSet st.skippedHosts host true
          assets := st.assets.filter fun a => a.Host != host }
      else st
    else
      OnResult.ports getCategory PortThreshold host rest
        { st with assets := st.assets ++ [newAsset getCategory host port] }

/-- The `OnResult` callback of `runNaabu`, run under the mutex. -/
def OnResult (getCategory : String → String) (PortThreshold : Int) (st : NaabuState)
    (hr : HostResult) : NaabuState :=
  if st.skippedHosts hr.Host = true then st
  else OnResult.ports getCategory PortThreshold hr.Host hr.Ports st

/-- The state of `runNaabu` before the scan starts. -/
def NaabuState.init : NaabuState :=
  { assets := [], hostPortCount := fun _ => 0, skippedHosts := fun _ => false }

/-- Go `NaabuScanner.runNaabu`, as far as the assets go: `calls` are the
results the runner hands to the callback, in the order the mutex lets them in
(none when the runner cannot be created); the assets collected are returned. -/
def runNaabu (getCategory : String → String) (PortThreshold : Int) (calls : List HostResult) :
    List Asset :=
  (calls.foldl (OnResult getCategory PortThreshold) NaabuState.init).assets

/-! ## Auxiliary notions for the port threshold -/

/-- The ports reported by a sequence of callbacks, one `(host, port)` for each, in order. -/
def reports (calls : List HostResult) : List (String × Int) :=
  calls.flatMap fun hr => hr.Ports.map fun port => (hr.Host, port)

/-- The number of ports reported for `host` in all. -/
def reportedPorts (host : String) (calls : List HostResult) : Nat :=
  ((reports calls).filter fun e => e.1 == host).length

/-- Every reported port as the asset the callback builds for it, in order. -/
def reportedAssets (getCategory : String → String) (calls : List HostResult) : List Asset :=
  (reports calls).map fun e => newAsset getCategory e.1 e.2

/-- What the callback does with one reported port: nothing when the host is
skipped already, otherwise one round of its loop. -/
def portStep (getCategory : String → String) (PortThreshold : Int) (st : NaabuState)
    (e : String × Int) : NaabuState :=
  if st.skippedHosts e.1 = true then st
  else
    let c := wrapInt (st.hostPortCount e.1 + 1)
    if PortThreshold > 0 ∧ c > PortThreshold then
      { assets := st.assets.filter fun a => a.Host != e.1
        hostPortCount := mapSet st.hostPortCount e.1 c
        skippedHosts := mapSet st.skippedHosts e.1 true }
    else
      { assets := st.assets ++ [newAsset getCategory e.1 e.2]
        hostPortCount := mapSet st.hostPortCount e.1 c
        skippedHosts := st.skippedHosts }

/-- What holds between the state of `runNaabu` and the ports `es` reported so
far, for a threshold in force: a host is skipped exactly when more ports than
the threshold were reported for it, the counter of a host not skipped is the
number of its reported ports, and the assets are the reported ports of the
hosts within the threshold, in the order reported. -/
def ThresholdInv (getCategory : String → String) (PortThreshold : Int) (st : NaabuState)
    (es : List (String × Int)) : Prop :=
  (∀ h : String, st.skippedHosts h =
      decide (PortThreshold < ((es.filter fun e => e.1 == h).length : Int))) ∧
    (∀ h : String, st.skippedHosts h = false →
      st.hostPortCount h = ((es.filter fun e => e.1 == h).length : Int)) ∧
    st.assets = (es.map fun e => newAsset getCategory e.1 e.2).filter fun a =>
      decide (((es.filter fun e => e.1 == a.Host).length : Int) ≤ PortThreshold)

/-! ## More samples -/

/-- A category helper for the examples. -/
def sampleCategory (host : String) : String :=
  if host = "" then "" else "ipv4"

/-- Five callbacks of a scan: four ports of `10.0.0.1` in all, two of `10.0.0.2`. -/
def sampleCalls : List HostResult :=
  [{ Host := "10.0.0.1", Ports := [80, 443] },
   { Host := "10.0.0.2", Ports := [22] },
   { Host := "10.0.0.1", Ports := [8080] },
   { Host := "10.0.0.2", Ports := [25] },
   { Host := "10.0.0.1", Ports := [9090] }]

/-! # Theorems -/

/-! ## Package strings -/

theorem splitOnP_no_sep {α : Type} (p : α → Bool) (xs : List α) :
    ∀ l ∈ List.splitOnP p xs, ∀ x ∈ l, p x = false := by
  induction xs with
  | nil => simp
  | cons a as ih =>
    rw [List.splitOnP_cons]
    by_cases h : p a = true
    · simp only [h, if_true, List.mem_cons]
      rintro l (rfl | hl) x hx
      · simp at hx
      · exact ih l hl x hx
    · simp only [h, if_false]
      cases hsp : List.splitOnP p as with
      | nil => exact absurd hsp (List.splitOnP_ne_nil p as)
      | cons hd tl =>
        rw [hsp] at ih
        intro l hl x hx
        rw [List.modifyHead_cons] at hl
        rcases List.mem_cons.1 hl with h1 | h2
        · rw [h1] at hx
          rcases List.mem_cons.1 hx with hxa | hx
          · rw [hxa]; simpa using h
          · exact ih hd (List.mem_cons_self _ _) x hx
        · exact ih l (List.mem_cons_of_mem _ h2) x hx

theorem Split_no_sep (s : String) (sep : Char) :
    ∀ t ∈ Split s sep, sep ∉ t.data := by
  intro t ht hmem
  simp only [Split, List.mem_map] at ht
  obtain ⟨l, hl, rfl⟩ := ht
  have := splitOnP_no_sep (· == sep) s.data l hl sep hmem
  simp at this

theorem Split_ne_nil (s : String) (sep : Char) : Split s sep ≠ [] := by
  simp [Split, List.splitOn, List.splitOnP_ne_nil]

theorem TrimSpace_subset (s : String) : ∀ c ∈ (TrimSpace s).data, c ∈ s.data := by
  intro c hc
  have h1 : List.rdropWhile isSpace (List.dropWhile isSpace s.data) <+:
      List.dropWhile isSpace s.data := List.rdropWhile_prefix _ _
  exact (List.dropWhile_suffix _).subset (h1.subset hc)

theorem Split_Join (elems : List String) (sep : Char) (hne : elems ≠ [])
    (h : ∀ t ∈ elems, sep ∉ t.data) : Split (Join elems sep) sep = elems := by
  unfold Split Join
  simp only
  rw [List.splitOn_intercalate]
  · simp [List.map_map, Function.comp_def]
  · intro l hl
    obtain ⟨t, ht, rfl⟩ := List.mem_map.1 hl
    exact h t ht
  · simpa using hne

/-! ## Package net: the text of an address -/

theorem digitChar_isAddrChar (n : Nat) : isAddrChar (Nat.digitChar n) = true := by
  by_cases h : n < 16
  · interval_cases n <;> decide
  · have hstar : Nat.digitChar n = '*' := by
      unfold Nat.digitChar
      repeat rw [if_neg (by omega)]
    rw [hstar]
    decide

theorem toDigitsCore_isAddrChar (b : Nat) : ∀ (fuel n : Nat) (ds : List Char),
    (∀ c ∈ ds, isAddrChar c = true) → ∀ c ∈ Nat.toDigitsCore b fuel n ds, isAddrChar c = true := by
  intro fuel
  induction fuel with
  | zero => intro n ds h c hc; exact h c (by simpa [Nat.toDigitsCore] using hc)
  | succ f ih =>
    intro n ds h c hc
    have hds : ∀ c ∈ Nat.digitChar (n % b) :: ds, isAddrChar c = true := by
      intro c hc
      rcases List.mem_cons.1 hc with rfl | hc
      · exact digitChar_isAddrChar _
      · exact h c hc
    simp only [Nat.toDigitsCore] at hc
    split at hc
    · exact hds c hc
    · exact ih _ _ hds c hc

theorem toDigits_isAddrChar (b n : Nat) : ∀ c ∈ Nat.toDigits b n, isAddrChar c = true :=
  toDigitsCore_isAddrChar b _ _ [] (by simp)

theorem mem_intercalate {α : Type} (sep : List α) (ls : List (List α)) (c : α)
    (h : c ∈ List.intercalate sep ls) : c ∈ sep ∨ ∃ l ∈ ls, c ∈ l := by
  induction ls with
  | nil => simp [List.intercalate] at h
  | cons a as ih =>
    cases as with
    | nil =>
      simp [List.intercalate] at h
      exact Or.inr ⟨a, by simp, h⟩
    | cons b bs =>
      have hstep : List.intercalate sep (a :: b :: bs) = a ++ sep ++ List.intercalate sep (b :: bs) := by
        simp [List.intercalate, List.intersperse]
      rw [hstep] at h
      rcases List.mem_append.1 h with h | h
      · rcases List.mem_append.1 h with h | h
        · exact Or.inr ⟨a, by simp, h⟩
        · exact Or.inl h
      · rcases ih h with h | ⟨l, hl, hc⟩
        · exact Or.inl h
        · exact Or.inr ⟨l, List.mem_cons_of_mem _ hl, hc⟩

theorem string4_isAddrChar (ip : List Nat) : ∀ c ∈ (string4 ip).data, isAddrChar c = true := by
  intro c hc
  rcases mem_intercalate _ _ c hc with h | ⟨l, hl, hcl⟩
  · simp at h; subst h; decide
  · obtain ⟨n, _, rfl⟩ := List.mem_map.1 hl
    exact toDigits_isAddrChar 10 n c hcl

theorem appendGroups_isAddrChar (ip : List Nat) (z : Nat × Nat) :
    ∀ (n i : Nat), ∀ c ∈ appendGroups ip z n i, isAddrChar c = true := by
  intro n
  induction n with
  | zero => intro i c hc; simp [appendGroups] at hc
  | succ n ih =>
    intro i c hc
    simp only [appendGroups] at hc
    split at hc
    · simp at hc
    · split at hc
      · rcases List.mem_cons.1 hc with rfl | hc
        · decide
        · rcases List.mem_cons.1 hc with rfl | hc
          · decide
          · split at hc
            · simp at hc
            · rcases List.mem_append.1 hc with hc | hc
              · exact toDigits_isAddrChar 16 _ c hc
              · exact ih _ c hc
      · rcases List.mem_append.1 hc with hc | hc
        · rcases List.mem_append.1 hc with hc | hc
          · split at hc
            · simp at hc; subst hc; decide
            · simp at hc
          · exact toDigits_isAddrChar 16 _ c hc
        · exact ih _ c hc

theorem hexString_isAddrChar (b : List Nat) : ∀ c ∈ (hexString b).data, isAddrChar c = true := by
  intro c hc
  simp only [hexString, List.mem_flatten, List.mem_map] at hc
  obtain ⟨l, ⟨tn, _, rfl⟩, hcl⟩ := hc
  simp only [List.mem_cons, List.mem_singleton, List.not_mem_nil, or_false] at hcl
  rcases hcl with rfl | rfl <;> exact digitChar_isAddrChar _

/-- Every character of the text of an address is a hex digit, `.`, `:` or one
of the few characters of the fallback forms. -/
theorem IP_String_isAddrChar (ip : IP) : ∀ c ∈ (IP.String ip).data, isAddrChar c = true := by
  intro c hc
  unfold IP.String at hc
  split at hc
  · revert c; decide
  · split at hc
    · rw [String.data_append] at hc
      rcases List.mem_append.1 hc with hc | hc
      · have hq : c = '?' := by simpa using hc
        subst hq; decide
      · exact hexString_isAddrChar _ c hc
    · split at hc
      · exact string4_isAddrChar _ c hc
      · exact appendGroups_isAddrChar _ _ _ _ c hc

theorem IP_String_no_newline (ip : IP) : '\n' ∉ (IP.String ip).data := by
  intro h
  have := IP_String_isAddrChar ip _ h
  revert this
  decide

/-! ## splitter.go: what the expansion loops return -/

theorem cidrLoop_mono (ipnet : IPNet) : ∀ (fuel k : Nat) (ip : IP) (ips out : List String),
    cidrLoop ipnet fuel ip ips = .done out → cidrLoop ipnet (fuel + k) ip ips = .done out := by
  intro fuel
  induction fuel with
  | zero =>
    intro k ip ips out h
    simp only [cidrLoop] at h
    split at h
    · cases h
    · cases k with
      | zero => simp [cidrLoop, *]
      | succ k => simp [cidrLoop, *]
  | succ f ih =>
    intro k ip ips out h
    rw [show f + 1 + k = (f + k) + 1 by omega]
    simp only [cidrLoop] at h ⊢
    split at h
    · rename_i hc
      rw [if_pos hc]
      exact ih k _ _ _ h
    · rename_i hc
      rw [if_neg hc]
      exact h

theorem rangeLoop_mono (endIP : IP) : ∀ (fuel k : Nat) (ip : IP) (ips out : List String),
    rangeLoop endIP fuel ip ips = .done out → rangeLoop endIP (fuel + k) ip ips = .done out := by
  intro fuel
  induction fuel with
  | zero =>
    intro k ip ips out h
    simp only [rangeLoop] at h
    split at h
    · cases k with
      | zero => simp [rangeLoop, *]
      | succ k => simp [rangeLoop, *]
    · cases h
  | succ f ih =>
    intro k ip ips out h
    rw [show f + 1 + k = (f + k) + 1 by omega]
    simp only [rangeLoop] at h ⊢
    split at h
    · rename_i hc
      rw [if_pos hc]
      exact h
    · rename_i hc
      rw [if_neg hc]
      exact ih k _ _ _ h

theorem expandCIDR_mono (fuel k : Nat) (cidr : String) (out : List String)
    (h : expandCIDR fuel cidr = .done out) : expandCIDR (fuel + k) cidr = .done out := by
  unfold expandCIDR at h ⊢
  cases hp : ParseCIDR cidr with
  | none => simpa [hp] using h
  | some r =>
    obtain ⟨a, ipnet⟩ := r
    simp only [hp] at h ⊢
    cases hl : cidrLoop ipnet fuel (Mask ipnet.IP ipnet.Mask) [] with
    | done ips =>
      rw [cidrLoop_mono ipnet fuel k _ _ _ hl]
      simpa [hl] using h
    | fuelOut => simp [hl] at h
    | panic => simp [hl] at h

theorem expandIPRange_mono (fuel k : Nat) (r : String) (out : List String)
    (h : expandIPRange fuel r = .done out) : expandIPRange (fuel + k) r = .done out := by
  unfold expandIPRange at h ⊢
  split
  · rename_i p0 p1 hs
    simp only [hs] at h
    split
    · rename_i startIP endIP h0 h1
      simp only [h0, h1] at h
      cases hl : rangeLoop endIP fuel startIP [] with
      | done ips =>
        rw [rangeLoop_mono endIP fuel k _ _ _ hl]
        simpa [hl] using h
      | fuelOut => simp [hl] at h
      | panic => simp [hl] at h
    · rename_i hne
      split at h
      · rename_i startIP endIP h0 h1
        exact absurd h1 (by intro h1; exact hne _ _ h0 h1)
      · exact h
  · rename_i hne
    split at h
    · rename_i p0 p1 hs
      exact absurd hs (hne p0 p1)
    · exact h

theorem parseLine_mono (fuel k : Nat) (line : String) (out : List String)
    (h : parseLine fuel line = .done out) : parseLine (fuel + k) line = .done out := by
  unfold parseLine at h ⊢
  split
  · rename_i hc
    rw [if_pos hc] at h
    exact expandCIDR_mono _ _ _ _ h
  · rename_i hc
    rw [if_neg hc] at h
    split
    · rename_i hr
      rw [if_pos hr] at h
      exact expandIPRange_mono _ _ _ _ h
    · rename_i hr
      rw [if_neg hr] at h
      exact h

theorem parseLines_mono (fuel k : Nat) : ∀ (lines targets out : List String),
    parseLines fuel lines targets = .done out → parseLines (fuel + k) lines targets = .done out := by
  intro lines
  induction lines with
  | nil => intro targets out h; simpa [parseLines] using h
  | cons line rest ih =>
    intro targets out h
    simp only [parseLines] at h ⊢
    split
    · rename_i hskip
      rw [if_pos hskip] at h
      exact ih _ _ h
    · rename_i hskip
      rw [if_neg hskip] at h
      cases hl : parseLine fuel (TrimSpace line) with
      | done ips =>
        rw [parseLine_mono fuel k _ _ hl]
        simp only [hl] at h
        exact ih _ _ h
      | fuelOut => simp [hl] at h
      | panic => simp [hl] at h

/-- A result of `parseAllTargets` does not depend on the step budget: once the
budget is enough for a normal return, every larger budget gives the same list. -/
theorem parseAllTargets_mono (fuel fuel1 : Nat) (target : String) (ts : List String)
    (hle : fuel ≤ fuel1) (h : parseAllTargets fuel target = .done ts) :
    parseAllTargets fuel1 target = .done ts := by
  obtain ⟨k, rfl⟩ := Nat.exists_eq_add_of_le hle
  exact parseLines_mono fuel k _ _ _ h

/-! ## splitter.go: every target is a trimmed line or the text of an address -/

theorem cidrLoop_all (P : String → Prop) (hP : ∀ ip : IP, P (IP.String ip)) (ipnet : IPNet) :
    ∀ (fuel : Nat) (ip : IP) (ips out : List String), (∀ t ∈ ips, P t) →
      cidrLoop ipnet fuel ip ips = .done out → ∀ t ∈ out, P t := by
  intro fuel
  induction fuel with
  | zero =>
    intro ip ips out hips h
    simp only [cidrLoop] at h
    split at h
    · cases h
    · cases h; exact hips
  | succ f ih =>
    intro ip ips out hips h
    simp only [cidrLoop] at h
    split at h
    · refine ih _ _ _ ?_ h
      intro t ht
      rcases List.mem_append.1 ht with ht | ht
      · exact hips t ht
      · rw [List.mem_singleton.1 ht]; exact hP ip
    · cases h; exact hips

theorem rangeLoop_all (P : String → Prop) (hP : ∀ ip : IP, P (IP.String ip)) (endIP : IP) :
    ∀ (fuel : Nat) (ip : IP) (ips out : List String), (∀ t ∈ ips, P t) →
      rangeLoop endIP fuel ip ips = .done out → ∀ t ∈ out, P t := by
  intro fuel
  induction fuel with
  | zero =>
    intro ip ips out hips h
    simp only [rangeLoop] at h
    split at h
    · cases h; exact hips
    · cases h
  | succ f ih =>
    intro ip ips out hips h
    simp only [rangeLoop] at h
    split at h
    · cases h; exact hips
    · refine ih _ _ _ ?_ h
      intro t ht
      rcases List.mem_append.1 ht with ht | ht
      · exact hips t ht
      · rw [List.mem_singleton.1 ht]; exact hP ip

theorem expandCIDR_all (P : String → Prop) (hP : ∀ ip : IP, P (IP.String ip))
    (fuel : Nat) (cidr : String) (out : List String) (hc : P cidr)
    (h : expandCIDR fuel cidr = .done out) : ∀ t ∈ out, P t := by
  unfold expandCIDR at h
  split at h
  · cases h; simpa using hc
  · rename_i a ipnet hp
    cases hl : cidrLoop ipnet fuel (Mask ipnet.IP ipnet.Mask) [] with
    | done ips =>
      have hall := cidrLoop_all P hP ipnet fuel _ [] ips (by simp) hl
      simp only [hl] at h
      split at h
      · cases h
        intro t ht
        exact hall t (List.mem_of_mem_take (List.mem_of_mem_drop ht))
      · cases h; exact hall
    | fuelOut => simp [hl] at h
    | panic => simp [hl] at h

theorem expandIPRange_all (P : String → Prop) (hP : ∀ ip : IP, P (IP.String ip))
    (fuel : Nat) (r : String) (out : List String) (hc : P r)
    (h : expandIPRange fuel r = .done out) : ∀ t ∈ out, P t := by
  unfold expandIPRange at h
  split at h
  · split at h
    · rename_i startIP endIP h0 h1
      cases hl : rangeLoop endIP fuel startIP [] with
      | done ips =>
        have hall := rangeLoop_all P hP endIP fuel _ [] ips (by simp) hl
        simp only [hl] at h
        cases h
        intro t ht
        rcases List.mem_append.1 ht with ht | ht
        · exact hall t ht
        · rw [List.mem_singleton.1 ht]; exact hP endIP
      | fuelOut => simp [hl] at h
      | panic => simp [hl] at h
    · cases h; simpa using hc
  · cases h; simpa using hc

theorem parseLine_all (P : String → Prop) (hP : ∀ ip : IP, P (IP.String ip))
    (fuel : Nat) (line : String) (out : List String) (hc : P line)
    (h : parseLine fuel line = .done out) : ∀ t ∈ out, P t := by
  unfold parseLine at h
  split at h
  · exact expandCIDR_all P hP _ _ _ hc h
  · split at h
    · exact expandIPRange_all P hP _ _ _ hc h
    · cases h; simpa using hc

theorem parseLines_all (P : String → Prop) (hP : ∀ ip : IP, P (IP.String ip)) (fuel : Nat) :
    ∀ (lines targets out : List String), (∀ l ∈ lines, P (TrimSpace l)) → (∀ t ∈ targets, P t) →
      parseLines fuel lines targets = .done out → ∀ t ∈ out, P t := by
  intro lines
  induction lines with
  | nil => intro targets out _ ht h; simp only [parseLines] at h; cases h; exact ht
  | cons line rest ih =>
    intro targets out hl ht h
    have hrest : ∀ l ∈ rest, P (TrimSpace l) := fun l hm => hl l (List.mem_cons_of_mem _ hm)
    simp only [parseLines] at h
    split at h
    · exact ih _ _ hrest ht h
    · cases hpl : parseLine fuel (TrimSpace line) with
      | done ips =>
        simp only [hpl] at h
        refine ih _ _ hrest ?_ h
        intro t htm
        rcases List.mem_append.1 htm with htm | htm
        · exact ht t htm
        · exact parseLine_all P hP fuel _ ips (hl line (List.mem_cons_self _ _)) hpl t htm
      | fuelOut => simp [hpl] at h
      | panic => simp [hpl] at h

/-- No target returned by `parseAllTargets` contains a line break. -/
theorem parseAllTargets_no_newline (fuel : Nat) (target : String) (ts : List String)
    (h : parseAllTargets fuel target = .done ts) : ∀ t ∈ ts, '\n' ∉ t.data := by
  refine parseLines_all (fun t => '\n' ∉ t.data) IP_String_no_newline fuel _ [] ts ?_ (by simp) h
  intro l hl hmem
  exact Split_no_sep target '\n' l hl (TrimSpace_subset l _ hmem)

/-! ## splitter.go: the batching loop -/

theorem flatten_chunks {α : Type} (b : Nat) (ts : List α) : ∀ k : Nat,
    ((List.range k).map fun j => (ts.drop (j * b)).take b).flatten = ts.take (k * b) := by
  intro k
  induction k with
  | zero => simp
  | succ k ih =>
    rw [List.range_succ, List.map_append, List.flatten_append, ih]
    simp only [List.map_cons, List.map_nil, List.flatten_cons, List.flatten_nil, List.append_nil]
    rw [show (k + 1) * b = k * b + b by ring, List.take_add]

theorem ceil_div_bounds (n b : Nat) (hb : 1 ≤ b) (hn : 1 ≤ n) :
    ((n + b - 1) / b - 1) * b < n ∧ n ≤ ((n + b - 1) / b) * b ∧ 1 ≤ (n + b - 1) / b := by
  have h1 := Nat.div_add_mod (n + b - 1) b
  have h2 := Nat.mod_lt (n + b - 1) (show b > 0 by omega)
  have hk : 1 ≤ (n + b - 1) / b := by
    rw [Nat.le_div_iff_mul_le (by omega)]
    omega
  obtain ⟨q, hq⟩ : ∃ q, (n + b - 1) / b = q + 1 := ⟨(n + b - 1) / b - 1, by omega⟩
  rw [hq] at h1 ⊢
  simp only [Nat.add_sub_cancel]
  have h3 : b * (q + 1) = q * b + b := by ring
  have h4 : (q + 1) * b = q * b + b := by ring
  rw [h3] at h1
  rw [h4]
  generalize q * b = m at h1 ⊢
  omega

theorem batchLoop_eq (b : Nat) (hb : 1 ≤ b) (all : List String) :
    ∀ (fuel i : Nat) (acc : List String), (all.length - i + b - 1) / b ≤ fuel →
      batchLoop (b : Int) all fuel (i : Int) acc =
        .done (acc ++ (List.range ((all.length - i + b - 1) / b)).map fun j =>
          Join ((all.drop (i + j * b)).take b) '\n') := by
  intro fuel
  induction fuel with
  | zero =>
    intro i acc hk
    have hk0 : (all.length - i + b - 1) / b = 0 := Nat.le_zero.1 hk
    have hi : ¬ i < all.length := by
      intro hlt
      have := (ceil_div_bounds (all.length - i) b hb (by omega)).2.2
      omega
    have hi' : ¬ ((i : Int) < (all.length : Int)) := by omega
    simp [batchLoop, hk0, hi']
  | succ f ih =>
    intro i acc hk
    by_cases hi : i < all.length
    · have hi' : (i : Int) < (all.length : Int) := by omega
      have hstep : (all.length - i + b - 1) / b = (all.length - (i + b) + b - 1) / b + 1 := by
        by_cases hle : i + b ≤ all.length
        · rw [show all.length - i + b - 1 = (all.length - (i + b) + b - 1) + b by omega]
          exact Nat.add_div_right _ (by omega)
        · have h0 : (all.length - (i + b) + b - 1) / b = 0 :=
            Nat.div_eq_of_lt (by omega)
          rw [h0]
          have h1 : (all.length - i + b - 1) / b < 2 := by
            rw [Nat.div_lt_iff_lt_mul (by omega)]
            omega
          have h2 := (ceil_div_bounds (all.length - i) b hb (by omega)).2.2
          omega
      have hslice : (all.drop (i : Int).toNat).take
          ((if (i : Int) + (b : Int) > (all.length : Int) then (all.length : Int)
            else (i : Int) + (b : Int)) - (i : Int)).toNat = (all.drop i).take b := by
        simp only [Int.toNat_ofNat]
        split
        · rename_i hgt
          have e : ((all.length : Int) - (i : Int)).toNat = all.length - i := by omega
          rw [e, List.take_of_length_le (by simp), List.take_of_length_le (by simp; omega)]
        · have e : ((i : Int) + (b : Int) - (i : Int)).toNat = b := by omega
          rw [e]
      have hnp : ¬ ((i : Int) < 0 ∨
          (if (i : Int) + (b : Int) > (all.length : Int) then (all.length : Int)
            else (i : Int) + (b : Int)) < (i : Int)) := by
        split <;> omega
      simp only [batchLoop, if_pos hi', if_neg hnp, hslice]
      have hcast : (i : Int) + (b : Int) = ((i + b : Nat) : Int) := by push_cast; rfl
      rw [hcast, ih (i + b) _ (by omega), hstep, List.range_succ_eq_map]
      simp only [List.map_cons, List.map_map, List.append_assoc, List.singleton_append,
        Nat.zero_mul, Nat.add_zero]
      congr 3
      apply List.map_congr_left
      intro j _
      simp only [Function.comp, Nat.succ_eq_add_one]
      rw [show i + (j + 1) * b = i + b + j * b by ring]
    · have hi' : ¬ ((i : Int) < (all.length : Int)) := by omega
      have hk0 : (all.length - i + b - 1) / b = 0 := Nat.div_eq_of_lt (by omega)
      simp [batchLoop, hk0, hi']

/-! ## splitter.go: `SplitTargets` -/

theorem chunk_lengths {α : Type} (b : Nat) (ts : List α) (q : Nat) (hq : q * b < ts.length) :
    ((List.range (q + 1)).map fun j => ((ts.drop (j * b)).take b).length) =
      List.replicate q b ++ [min b (ts.length - q * b)] := by
  rw [List.range_succ, List.map_append]
  congr 1
  · rw [List.eq_replicate_iff]
    refine ⟨by simp, ?_⟩
    intro x hx
    obtain ⟨j, hj, rfl⟩ := List.mem_map.1 hx
    have hjq : j < q := List.mem_range.1 hj
    have h1 : (j + 1) * b ≤ q * b := Nat.mul_le_mul_right b (by omega)
    have h2 : (j + 1) * b = j * b + b := by ring
    simp only [List.length_take, List.length_drop]
    omega
  · simp [List.length_take, List.length_drop]

theorem SplitTargets_eq (s : TargetSplitter) (b fuel : Nat) (target : String)
    (ts : List String) (hb : 1 ≤ b) (hs : s.batchSize = (b : Int))
    (hparse : parseAllTargets fuel target = .done ts) (hn : b < ts.length)
    (hfuel : (ts.length + b - 1) / b ≤ fuel) :
    SplitTargets s fuel target =
      .done ((List.range ((ts.length + b - 1) / b)).map fun j =>
        Join ((ts.drop (j * b)).take b) '\n') := by
  unfold SplitTargets
  simp only [hparse, hs]
  have hgt : ¬ ((ts.length : Int) ≤ (b : Int)) := by omega
  rw [if_neg hgt]
  have h := batchLoop_eq b hb ts fuel 0 [] (by simpa using hfuel)
  simp only [Nat.cast_zero, Nat.sub_zero, List.nil_append, Nat.zero_add] at h
  exact h

/-! ## Decimal digits -/

theorem digitChar_digit (d : Nat) (hd : d < 10) :
    '0' ≤ Nat.digitChar d ∧ Nat.digitChar d ≤ '9' ∧
      (Nat.digitChar d).toNat - '0'.toNat = d := by
  interval_cases d <;> decide

theorem toDigits_lt_10 (n : Nat) (h : n < 10) : Nat.toDigits 10 n = [Nat.digitChar n] := by
  have h0 : n / 10 = 0 := by omega
  have h1 : n % 10 = n := by omega
  simp [Nat.toDigits, Nat.toDigitsCore, h0, h1]

theorem toDigits_lt_100 (n : Nat) (h1 : 10 ≤ n) (h2 : n < 100) :
    Nat.toDigits 10 n = [Nat.digitChar (n / 10), Nat.digitChar (n % 10)] := by
  have h0 : ¬ n / 10 = 0 := by omega
  have h3 : n / 10 / 10 = 0 := by omega
  have h4 : n / 10 % 10 = n / 10 := by omega
  obtain ⟨m, rfl⟩ : ∃ m, n = m + 1 := ⟨n - 1, by omega⟩
  simp [Nat.toDigits, Nat.toDigitsCore, h0, h3, h4]

theorem toDigits_lt_1000 (n : Nat) (h1 : 100 ≤ n) (h2 : n < 1000) :
    Nat.toDigits 10 n =
      [Nat.digitChar (n / 100), Nat.digitChar (n / 10 % 10), Nat.digitChar (n % 10)] := by
  have h0 : ¬ n / 10 = 0 := by omega
  have h3 : ¬ n / 10 / 10 = 0 := by omega
  have h4 : n / 10 / 10 / 10 = 0 := by omega
  have h5 : n / 10 / 10 % 10 = n / 100 := by omega
  obtain ⟨m, rfl⟩ : ∃ m, n = m + 2 := ⟨n - 2, by omega⟩
  simp [Nat.toDigits, Nat.toDigitsCore, h0, h3, h4, h5]

/-- The decimal text of a byte is one to three digit characters. -/
theorem toDigits_byte (n : Nat) (hn : n < 256) :
    ∀ c ∈ Nat.toDigits 10 n, '0' ≤ c ∧ c ≤ '9' := by
  intro c hc
  by_cases h1 : n < 10
  · rw [toDigits_lt_10 n h1] at hc
    simp only [List.mem_singleton] at hc
    subst hc
    exact ⟨(digitChar_digit n h1).1, (digitChar_digit n h1).2.1⟩
  · by_cases h2 : n < 100
    · rw [toDigits_lt_100 n (by omega) h2] at hc
      simp only [List.mem_cons, List.mem_singleton, List.not_mem_nil, or_false] at hc
      rcases hc with rfl | rfl
      · exact ⟨(digitChar_digit _ (by omega)).1, (digitChar_digit _ (by omega)).2.1⟩
      · exact ⟨(digitChar_digit _ (by omega)).1, (digitChar_digit _ (by omega)).2.1⟩
    · rw [toDigits_lt_1000 n (by omega) (by omega)] at hc
      simp only [List.mem_cons, List.mem_singleton, List.not_mem_nil, or_false] at hc
      rcases hc with rfl | rfl | rfl
      · exact ⟨(digitChar_digit _ (by omega)).1, (digitChar_digit _ (by omega)).2.1⟩
      · exact ⟨(digitChar_digit _ (by omega)).1, (digitChar_digit _ (by omega)).2.1⟩
      · exact ⟨(digitChar_digit _ (by omega)).1, (digitChar_digit _ (by omega)).2.1⟩

theorem toDigits_byte_ne_nil (n : Nat) (hn : n < 256) : Nat.toDigits 10 n ≠ [] := by
  by_cases h1 : n < 10
  · rw [toDigits_lt_10 n h1]; simp
  · by_cases h2 : n < 100
    · rw [toDigits_lt_100 n (by omega) h2]; simp
    · rw [toDigits_lt_1000 n (by omega) (by omega)]; simp

/-! ## `parseIPv4Fields` on the decimal text of a byte -/

theorem parseIPv4Fields_digit (prev : Option Char) (val digLen : Nat) (fields : List Nat)
    (d : Nat) (hd : d < 10) (rest : List Char) (hlead : ¬ (digLen = 1 ∧ val = 0))
    (hval : val * 10 + d ≤ 255) :
    parseIPv4Fields prev val digLen fields (Nat.digitChar d :: rest) =
      parseIPv4Fields (some (Nat.digitChar d)) (val * 10 + d) (digLen + 1) fields rest := by
  obtain ⟨h0, h9, hv⟩ := digitChar_digit d hd
  have hgt : ¬ (val * 10 + d > 255) := by omega
  simp only [parseIPv4Fields, h0, h9, and_self, if_true, if_neg hlead, hv, if_neg hgt]

/-- Reading the decimal text of the byte `n` from the start of a field leaves
the scanner with value `n` just after a digit. -/
theorem parseIPv4Fields_byte (n : Nat) (hn : n < 256) (prev : Option Char)
    (fields : List Nat) (rest : List Char) :
    ∃ (c : Char) (digLen : Nat), '0' ≤ c ∧
      parseIPv4Fields prev 0 0 fields (Nat.toDigits 10 n ++ rest) =
        parseIPv4Fields (some c) n digLen fields rest := by
  by_cases h1 : n < 10
  · refine ⟨Nat.digitChar n, 1, (digitChar_digit n h1).1, ?_⟩
    rw [toDigits_lt_10 n h1]
    simp only [List.singleton_append]
    rw [parseIPv4Fields_digit _ _ _ _ n h1 _ (by omega) (by omega)]
    simp
  · by_cases h2 : n < 100
    · refine ⟨Nat.digitChar (n % 10), 2, (digitChar_digit _ (by omega)).1, ?_⟩
      rw [toDigits_lt_100 n (by omega) h2]
      simp only [List.cons_append, List.nil_append]
      rw [parseIPv4Fields_digit _ _ _ _ (n / 10) (by omega) _ (by omega) (by omega),
        parseIPv4Fields_digit _ _ _ _ (n % 10) (by omega) _ (by omega) (by omega)]
      congr 1
      omega
    · refine ⟨Nat.digitChar (n % 10), 3, (digitChar_digit _ (by omega)).1, ?_⟩
      rw [toDigits_lt_1000 n (by omega) (by omega)]
      simp only [List.cons_append, List.nil_append]
      rw [parseIPv4Fields_digit _ _ _ _ (n / 100) (by omega) _ (by omega) (by omega),
        parseIPv4Fields_digit _ _ _ _ (n / 10 % 10) (by omega) _ (by omega) (by omega),
        parseIPv4Fields_digit _ _ _ _ (n % 10) (by omega) _ (by omega) (by omega)]
      congr 1
      omega

theorem parseIPv4Fields_dot (c : Char) (hc : '0' ≤ c) (val digLen : Nat) (fields : List Nat)
    (r : Char) (rs : List Char) (hf : fields.length < 3) :
    parseIPv4Fields (some c) val digLen fields ('.' :: r :: rs) =
      parseIPv4Fields (some '.') 0 0 (fields ++ [val]) (r :: rs) := by
  have hcd : c ≠ '.' := by
    intro h; subst h; revert hc; decide
  have hf3 : ¬ fields.length = 3 := by omega
  have hnd : ¬ ('0' ≤ '.' ∧ '.' ≤ '9') := by decide
  simp [parseIPv4Fields, hnd, hcd, hf3]

/-- The scanner reads back the four bytes of a dotted-decimal text. -/
theorem parseIPv4_string4 (a b c d : Nat) (ha : a < 256) (hb : b < 256) (hc : c < 256)
    (hd : d < 256) : parseIPv4 (string4 [a, b, c, d]).data = some [a, b, c, d] := by
  have hne : ∀ n, n < 256 → ∃ r rs, Nat.toDigits 10 n = r :: rs := by
    intro n hn
    cases h : Nat.toDigits 10 n with
    | nil => exact absurd h (toDigits_byte_ne_nil n hn)
    | cons r rs => exact ⟨r, rs, rfl⟩
  have htxt : (string4 [a, b, c, d]).data =
      Nat.toDigits 10 a ++ '.' :: (Nat.toDigits 10 b ++ '.' ::
        (Nat.toDigits 10 c ++ '.' :: (Nat.toDigits 10 d ++ []))) := by
    simp [string4, List.intercalate, List.intersperse]
  rw [htxt, parseIPv4]
  obtain ⟨ca, la, hca, ea⟩ := parseIPv4Fields_byte a ha none [] ('.' :: (Nat.toDigits 10 b ++ '.' ::
        (Nat.toDigits 10 c ++ '.' :: (Nat.toDigits 10 d ++ []))))
  rw [ea]
  obtain ⟨rb, rsb, hb'⟩ := hne b hb
  obtain ⟨cb, lb, hcb, eb⟩ := parseIPv4Fields_byte b hb (some '.') [a] ('.' ::
        (Nat.toDigits 10 c ++ '.' :: (Nat.toDigits 10 d ++ [])))
  have s1 := parseIPv4Fields_dot ca hca a la [] rb (rsb ++ '.' ::
        (Nat.toDigits 10 c ++ '.' :: (Nat.toDigits 10 d ++ []))) (by simp)
  rw [← List.cons_append, ← hb'] at s1
  rw [s1, List.nil_append, eb]
  obtain ⟨rc, rsc, hc'⟩ := hne c hc
  obtain ⟨cc, lc, hcc, ec⟩ := parseIPv4Fields_byte c hc (some '.') [a, b] ('.' ::
        (Nat.toDigits 10 d ++ []))
  have s2 := parseIPv4Fields_dot cb hcb b lb [a] rc (rsc ++ '.' ::
        (Nat.toDigits 10 d ++ [])) (by simp)
  rw [← List.cons_append, ← hc'] at s2
  rw [s2, List.singleton_append, ec]
  obtain ⟨rd, rsd, hd'⟩ := hne d hd
  obtain ⟨cd, ld, hcd, ed⟩ := parseIPv4Fields_byte d hd (some '.') [a, b, c] []
  have s3 := parseIPv4Fields_dot cc hcc c lc [a, b] rd (rsd ++ []) (by simp)
  rw [← List.cons_append, ← hd'] at s3
  rw [s3, show ([a, b] ++ [c] : List Nat) = [a, b, c] from rfl, ed]
  simp [parseIPv4Fields]

/-! ## Dotted-decimal text -/

theorem digit_toNat (c : Char) (h0 : '0' ≤ c) (h9 : c ≤ '9') : 48 ≤ c.toNat ∧ c.toNat ≤ 57 :=
  ⟨h0, h9⟩

theorem isDotDec_cases (c : Char) (h : isDotDec c = true) :
    (48 ≤ c.toNat ∧ c.toNat ≤ 57) ∨ c = '.' := by
  simp only [isDotDec, decide_eq_true_eq] at h
  rcases h with ⟨h0, h9⟩ | h
  · exact Or.inl (digit_toNat c h0 h9)
  · exact Or.inr h

theorem isDotDec_not_space (c : Char) (h : isDotDec c = true) : isSpace c = false := by
  rcases isDotDec_cases c h with ⟨a, b⟩ | rfl
  · simp only [isSpace]
    simp
    omega
  · decide

theorem isDotDec_ne (c x : Char) (h : isDotDec c = true) (hx : isDotDec x = false) : c ≠ x := by
  intro hcx
  rw [hcx, hx] at h
  cases h

theorem string4_isDotDec (a b c d : Nat) (ha : a < 256) (hb : b < 256) (hc : c < 256)
    (hd : d < 256) : ∀ x ∈ (string4 [a, b, c, d]).data, isDotDec x = true := by
  intro x hx
  rcases mem_intercalate _ _ x hx with h | ⟨l, hl, hxl⟩
  · simp at h; subst h; decide
  · simp only [List.map_cons, List.map_nil, List.mem_cons, List.mem_singleton,
      List.not_mem_nil, or_false] at hl
    have key : ∀ n, n < 256 → x ∈ Nat.toDigits 10 n → isDotDec x = true := by
      intro n hn hx
      have := toDigits_byte n hn x hx
      simp [isDotDec, this]
    rcases hl with rfl | rfl | rfl | rfl
    · exact key a ha hxl
    · exact key b hb hxl
    · exact key c hc hxl
    · exact key d hd hxl

theorem string4_ne_nil (a b c d : Nat) : (string4 [a, b, c, d]).data ≠ [] := by
  intro h
  have hlen := congrArg List.length h
  simp [string4, List.intercalate, List.intersperse] at hlen

theorem find?_first {α : Type} (p : α → Bool) (x : α) (hx : p x = true) :
    ∀ (l r : List α), (∀ c ∈ l, p c = false) → List.find? p (l ++ x :: r) = some x := by
  intro l
  induction l with
  | nil => intro r _; simp [hx]
  | cons a as ih =>
    intro r h
    have ha : p a = false := h a (List.mem_cons_self _ _)
    simp only [List.cons_append, List.find?_cons, ha]
    exact ih r fun c hc => h c (List.mem_cons_of_mem _ hc)

/-- `netip.ParseAddr` reads a dotted-decimal text back as an IPv4 address. -/
theorem ParseAddr_string4 (a b c d : Nat) (ha : a < 256) (hb : b < 256) (hc : c < 256)
    (hd : d < 256) :
    ParseAddr (string4 [a, b, c, d]).data = some (v4InV6Prefix ++ [a, b, c, d], 32, []) := by
  have htxt : (string4 [a, b, c, d]).data =
      Nat.toDigits 10 a ++ '.' :: (Nat.toDigits 10 b ++ '.' ::
        (Nat.toDigits 10 c ++ '.' :: (Nat.toDigits 10 d ++ []))) := by
    simp [string4, List.intercalate, List.intersperse]
  have hfind : List.find? (fun c => decide (c = '.' ∨ c = ':' ∨ c = '%'))
      (string4 [a, b, c, d]).data = some '.' := by
    rw [htxt]
    apply find?_first _ _ (by decide)
    intro x hx
    have := toDigits_byte a ha x hx
    obtain ⟨h1, h2⟩ := digit_toNat x this.1 this.2
    have e1 : x ≠ '.' := by intro h; subst h; revert h1; decide
    have e2 : x ≠ ':' := by intro h; subst h; revert h2; decide
    have e3 : x ≠ '%' := by intro h; subst h; revert h1; decide
    simp [e1, e2, e3]
  unfold ParseAddr
  rw [hfind]
  simp [parseIPv4_string4 a b c d ha hb hc hd]

/-- `net.ParseIP` reads a dotted-decimal text back, in 16-byte form. -/
theorem ParseIP_string4 (a b c d : Nat) (ha : a < 256) (hb : b < 256) (hc : c < 256)
    (hd : d < 256) : ParseIP (string4 [a, b, c, d]) = some (v4InV6Prefix ++ [a, b, c, d]) := by
  unfold ParseIP
  rw [ParseAddr_string4 a b c d ha hb hc hd]
  rfl

theorem ipv4_lt (n : Nat) : ∀ x ∈ ipv4 n, x < 256 := by
  intro x hx
  simp only [ipv4, List.mem_cons, List.mem_singleton, List.not_mem_nil, or_false] at hx
  rcases hx with rfl | rfl | rfl | rfl <;> omega

theorem IP_String_ipv4 (n : Nat) : IP.String (ipv4 n) = string4 (ipv4 n) := by
  simp [IP.String, To4, ipv4]

theorem IP_String_ipv4In16 (n : Nat) : IP.String (ipv4In16 n) = IP.String (ipv4 n) := by
  rw [IP_String_ipv4]
  simp [IP.String, To4, ipv4In16, ipv4, v4InV6Prefix]

theorem ParseAddr_ipv4 (n : Nat) :
    ParseAddr (IP.String (ipv4 n)).data = some (ipv4In16 n, 32, []) := by
  rw [IP_String_ipv4]
  exact ParseAddr_string4 _ _ _ _ (by omega) (by omega) (by omega) (by omega)

theorem ParseIP_ipv4 (n : Nat) : ParseIP (IP.String (ipv4 n)) = some (ipv4In16 n) := by
  rw [IP_String_ipv4]
  exact ParseIP_string4 _ _ _ _ (by omega) (by omega) (by omega) (by omega)

theorem IP_String_ipv4_isDotDec (n : Nat) : ∀ x ∈ (IP.String (ipv4 n)).data, isDotDec x = true := by
  rw [IP_String_ipv4]
  exact string4_isDotDec _ _ _ _ (by omega) (by omega) (by omega) (by omega)

theorem IP_String_ipv4_ne_nil (n : Nat) : (IP.String (ipv4 n)).data ≠ [] := by
  rw [IP_String_ipv4]
  exact string4_ne_nil _ _ _ _

/-! ## Strings without white space -/

theorem TrimSpace_eq_self (s : String) (h : ∀ c ∈ s.data, isSpace c = false) :
    TrimSpace s = s := by
  have h1 : List.dropWhile isSpace s.data = s.data := by
    cases hs : s.data with
    | nil => rfl
    | cons c cs =>
      have : isSpace c = false := h c (by rw [hs]; exact List.mem_cons_self _ _)
      simp [List.dropWhile, this]
  have h2 : List.rdropWhile isSpace s.data = s.data := by
    rw [List.rdropWhile_eq_self_iff]
    intro hl
    have := h _ (List.getLast_mem hl)
    simp [this]
  unfold TrimSpace
  rw [h1, h2]

theorem Split_eq_single (s : String) (sep : Char) (h : sep ∉ s.data) : Split s sep = [s] := by
  unfold Split List.splitOn
  rw [List.splitOnP_eq_single]
  · rfl
  · intro x hx hxs
    rw [beq_iff_eq] at hxs
    exact h (hxs ▸ hx)

theorem Split_two (s t : String) (sep : Char) (hs : sep ∉ s.data) (ht : sep ∉ t.data) :
    Split (s ++ String.singleton sep ++ t) sep = [s, t] := by
  unfold Split List.splitOn
  have hd : (s ++ String.singleton sep ++ t).data = s.data ++ sep :: t.data := by
    simp [String.data_append, String.singleton]
  rw [hd, List.splitOnP_first, List.splitOnP_eq_single]
  · rfl
  · intro x hx hxs
    rw [beq_iff_eq] at hxs
    exact ht (hxs ▸ hx)
  · intro x hx hxs
    rw [beq_iff_eq] at hxs
    exact hs (hxs ▸ hx)
  · simp

/-! ## splitter.go: `incIP` on IPv4 addresses -/

theorem incIPRev_ipv4 (n : Nat) (rest : List Nat) (h : n + 1 < 4294967296) :
    incIPRev (n % 256 :: n / 256 % 256 :: n / 65536 % 256 :: n / 16777216 % 256 :: rest) =
      (n + 1) % 256 :: (n + 1) / 256 % 256 :: (n + 1) / 65536 % 256 ::
        (n + 1) / 16777216 % 256 :: rest := by
  by_cases h3 : n % 256 = 255
  · by_cases h2 : n / 256 % 256 = 255
    · by_cases h1 : n / 65536 % 256 = 255
      · have e3 : (n + 1) % 256 = 0 := by omega
        have e2 : (n + 1) / 256 % 256 = 0 := by omega
        have e1 : (n + 1) / 65536 % 256 = 0 := by omega
        have e0 : (n + 1) / 16777216 % 256 = n / 16777216 % 256 + 1 := by omega
        have c0 : (n / 16777216 % 256 + 1) % 256 = n / 16777216 % 256 + 1 := by omega
        simp [incIPRev, h3, h2, h1, e3, e2, e1, e0, c0]
      · have e3 : (n + 1) % 256 = 0 := by omega
        have e2 : (n + 1) / 256 % 256 = 0 := by omega
        have e1 : (n + 1) / 65536 % 256 = n / 65536 % 256 + 1 := by omega
        have e0 : (n + 1) / 16777216 % 256 = n / 16777216 % 256 := by omega
        have c1 : (n / 65536 % 256 + 1) % 256 = n / 65536 % 256 + 1 := by omega
        simp [incIPRev, h3, h2, e3, e2, e1, e0, c1]
    · have e3 : (n + 1) % 256 = 0 := by omega
      have e2 : (n + 1) / 256 % 256 = n / 256 % 256 + 1 := by omega
      have e1 : (n + 1) / 65536 % 256 = n / 65536 % 256 := by omega
      have e0 : (n + 1) / 16777216 % 256 = n / 16777216 % 256 := by omega
      have c2 : (n / 256 % 256 + 1) % 256 = n / 256 % 256 + 1 := by omega
      simp [incIPRev, h3, e3, e2, e1, e0, c2]
  · have e3 : (n + 1) % 256 = n % 256 + 1 := by omega
    have e2 : (n + 1) / 256 % 256 = n / 256 % 256 := by omega
    have e1 : (n + 1) / 65536 % 256 = n / 65536 % 256 := by omega
    have e0 : (n + 1) / 16777216 % 256 = n / 16777216 % 256 := by omega
    have c3 : (n % 256 + 1) % 256 = n % 256 + 1 := by omega
    simp [incIPRev, e3, e2, e1, e0, c3]

/-- On the 16-byte form of an IPv4 address below 255.255.255.255, `incIP` gives the next address. -/
theorem incIP_ipv4In16 (n : Nat) (h : n + 1 < 4294967296) :
    incIP (ipv4In16 n) = ipv4In16 (n + 1) := by
  have hrev : (ipv4In16 n).reverse =
      n % 256 :: n / 256 % 256 :: n / 65536 % 256 :: n / 16777216 % 256 ::
        [255, 255, 0, 0, 0, 0, 0, 0, 0, 0, 0, 0] := by
    simp [ipv4In16, ipv4, v4InV6Prefix]
  unfold incIP
  rw [hrev, incIPRev_ipv4 n _ h]
  simp [ipv4In16, ipv4, v4InV6Prefix]

theorem ipv4_injective (a b : Nat) (ha : a < 4294967296) (hb : b < 4294967296)
    (h : ipv4 a = ipv4 b) : a = b := by
  simp only [ipv4, List.cons.injEq, and_true] at h
  omega

theorem Equal_ipv4In16 (a b : Nat) (ha : a < 4294967296) (hb : b < 4294967296) :
    Equal (ipv4In16 a) (ipv4In16 b) = decide (a = b) := by
  have hlen : (ipv4In16 a).length = (ipv4In16 b).length := by
    simp [ipv4In16, ipv4, v4InV6Prefix]
  unfold Equal
  rw [if_pos hlen]
  by_cases hab : a = b
  · subst hab; simp
  · have : ipv4In16 a ≠ ipv4In16 b := by
      intro h
      exact hab (ipv4_injective a b ha hb (List.append_cancel_left h))
    simp [hab, this]

/-! ## splitter.go: `expandIPRange` on an ascending IPv4 range -/

theorem rangeLoop_ipv4 (b : Nat) (hb : b < 4294967296) :
    ∀ (k a fuel : Nat) (acc : List String), a + k = b → k ≤ fuel →
      rangeLoop (ipv4In16 b) fuel (ipv4In16 a) acc =
        .done (acc ++ (List.range k).map fun i => IP.String (ipv4 (a + i))) := by
  intro k
  induction k with
  | zero =>
    intro a fuel acc hab _
    have : a = b := by omega
    subst this
    have heq : Equal (ipv4In16 a) (ipv4In16 a) = true := by
      rw [Equal_ipv4In16 a a hb hb]; simp
    cases fuel <;> simp [rangeLoop, heq]
  | succ k ih =>
    intro a fuel acc hab hfuel
    have hne : Equal (ipv4In16 a) (ipv4In16 b) = false := by
      rw [Equal_ipv4In16 a b (by omega) hb]; simp; omega
    obtain ⟨f, rfl⟩ : ∃ f, fuel = f + 1 := ⟨fuel - 1, by omega⟩
    simp only [rangeLoop, hne, Bool.false_eq_true, if_false]
    rw [incIP_ipv4In16 a (by omega), ih (a + 1) f _ (by omega) (by omega),
      IP_String_ipv4In16, List.range_succ_eq_map]
    simp only [List.map_cons, List.map_map, List.append_assoc, List.singleton_append,
      Nat.add_zero]
    congr 3
    apply List.map_congr_left
    intro i _
    simp only [Function.comp, Nat.succ_eq_add_one]
    rw [show a + 1 + i = a + (i + 1) by omega]

theorem isDotDec_dash : isDotDec '-' = false := by decide

theorem IP_String_ipv4_no_dash (n : Nat) : '-' ∉ (IP.String (ipv4 n)).data :=
  fun h => isDotDec_ne _ _ (IP_String_ipv4_isDotDec n _ h) isDotDec_dash rfl

theorem IP_String_ipv4_trim (n : Nat) : TrimSpace (IP.String (ipv4 n)) = IP.String (ipv4 n) :=
  TrimSpace_eq_self _ fun c hc => isDotDec_not_space c (IP_String_ipv4_isDotDec n c hc)

/-- `expandIPRange` on the text `a-b` of two IPv4 addresses `a ≤ b`. -/
theorem expandIPRange_ipv4 (a b fuel : Nat) (hab : a ≤ b) (hb : b < 4294967296)
    (hfuel : b - a ≤ fuel) :
    expandIPRange fuel (IP.String (ipv4 a) ++ "-" ++ IP.String (ipv4 b)) =
      .done ((List.range (b - a + 1)).map fun i => IP.String (ipv4 (a + i))) := by
  have hparts : Split (IP.String (ipv4 a) ++ "-" ++ IP.String (ipv4 b)) '-' =
      [IP.String (ipv4 a), IP.String (ipv4 b)] :=
    Split_two _ _ '-' (IP_String_ipv4_no_dash a) (IP_String_ipv4_no_dash b)
  have hloop := rangeLoop_ipv4 b hb (b - a) a fuel [] (by omega) hfuel
  unfold expandIPRange
  rw [hparts]
  simp only [IP_String_ipv4_trim, ParseIP_ipv4, hloop, List.nil_append, IP_String_ipv4In16]
  rw [List.range_succ, List.map_append]
  simp only [List.map_cons, List.map_nil]
  rw [show a + (b - a) = b by omega]

/-- C4. For IPv4 addresses `a ≤ b` (as 32-bit values), the line `a-b` expands to
exactly the `b - a + 1` addresses `a, a+1, ..., b` in ascending order, once the
step budget covers the `b - a` rounds of the loop. -/
theorem parseAllTargets_range (a b fuel : Nat) (hab : a ≤ b) (hb : b < 4294967296)
    (hfuel : b - a ≤ fuel) :
    parseAllTargets fuel (IP.String (ipv4 a) ++ "-" ++ IP.String (ipv4 b)) =
      .done ((List.range (b - a + 1)).map fun i => IP.String (ipv4 (a + i))) := by
  have hda := IP_String_ipv4_isDotDec a
  have hdb := IP_String_ipv4_isDotDec b
  have hline : (IP.String (ipv4 a) ++ "-" ++ IP.String (ipv4 b)).data =
      (IP.String (ipv4 a)).data ++ '-' :: (IP.String (ipv4 b)).data := by
    simp [String.data_append]
  have hchars : ∀ c ∈ (IP.String (ipv4 a) ++ "-" ++ IP.String (ipv4 b)).data,
      isDotDec c = true ∨ c = '-' := by
    intro c hc
    rw [hline] at hc
    rcases List.mem_append.1 hc with hc | hc
    · exact Or.inl (hda c hc)
    · rcases List.mem_cons.1 hc with hc | hc
      · exact Or.inr hc
      · exact Or.inl (hdb c hc)
  have hnot : ∀ x : Char, isDotDec x = false → x ≠ '-' →
      x ∉ (IP.String (ipv4 a) ++ "-" ++ IP.String (ipv4 b)).data := by
    intro x hx hxd hmem
    rcases hchars x hmem with h | h
    · rw [hx] at h; cases h
    · exact hxd h
  -- one line, which trimming leaves as it is
  have hsplit : Split (IP.String (ipv4 a) ++ "-" ++ IP.String (ipv4 b)) '\n' =
      [IP.String (ipv4 a) ++ "-" ++ IP.String (ipv4 b)] :=
    Split_eq_single _ _ (hnot '\n' (by decide) (by decide))
  have htrim : TrimSpace (IP.String (ipv4 a) ++ "-" ++ IP.String (ipv4 b)) =
      IP.String (ipv4 a) ++ "-" ++ IP.String (ipv4 b) := by
    apply TrimSpace_eq_self
    intro c hc
    rcases hchars c hc with h | h
    · exact isDotDec_not_space c h
    · subst h; decide
  have hnonempty : ¬ (IP.String (ipv4 a) ++ "-" ++ IP.String (ipv4 b) = "") := by
    intro h
    have := congrArg String.data h
    rw [hline] at this
    simp at this
  have hhash : HasPrefix (IP.String (ipv4 a) ++ "-" ++ IP.String (ipv4 b)) '#' = false := by
    unfold HasPrefix
    rw [hline]
    cases hs : (IP.String (ipv4 a)).data with
    | nil => exact absurd hs (IP_String_ipv4_ne_nil a)
    | cons c cs =>
      have hc : isDotDec c = true := hda c (by rw [hs]; exact List.mem_cons_self _ _)
      have : c ≠ '#' := isDotDec_ne c '#' hc (by decide)
      simp [this]
  have hslash : Contains (IP.String (ipv4 a) ++ "-" ++ IP.String (ipv4 b)) '/' = false := by
    unfold Contains
    have := hnot '/' (by decide) (by decide)
    simpa using this
  have hdash : Contains (IP.String (ipv4 a) ++ "-" ++ IP.String (ipv4 b)) '-' = true := by
    unfold Contains
    rw [hline]
    simp
  -- the text before the first dash is the first address
  have hparts : Split (IP.String (ipv4 a) ++ "-" ++ IP.String (ipv4 b)) '-' =
      [IP.String (ipv4 a), IP.String (ipv4 b)] :=
    Split_two _ _ '-' (IP_String_ipv4_no_dash a) (IP_String_ipv4_no_dash b)
  have hexp := expandIPRange_ipv4 a b fuel hab hb hfuel
  unfold parseAllTargets
  rw [hsplit]
  simp only [parseLines, htrim, hnonempty, hhash, Bool.false_eq_true, or_self, if_false]
  unfold parseLine
  simp only [hslash, hdash, hparts, List.headD_cons, ParseIP_ipv4, Option.isSome_some,
    Bool.false_eq_true, if_false, and_self, if_true, hexp, List.nil_append]

/-- C4, on the example of the specification. -/
theorem parseAllTargets_range_witness :
    parseAllTargets 2 "10.0.0.1-10.0.0.3" = .done ["10.0.0.1", "10.0.0.2", "10.0.0.3"] := by
  have h := parseAllTargets_range 167772161 167772163 2 (by decide) (by decide) (by decide)
  have e1 : IP.String (ipv4 167772161) ++ "-" ++ IP.String (ipv4 167772163) =
      "10.0.0.1-10.0.0.3" := by decide
  have e2 : ((List.range (167772163 - 167772161 + 1)).map fun i =>
      IP.String (ipv4 (167772161 + i))) = ["10.0.0.1", "10.0.0.2", "10.0.0.3"] := by decide
  rw [e1, e2] at h
  exact h

/-! ## splitter.go: `expandCIDR` on the block of all addresses -/

theorem incIPRev_length : ∀ bs : List Nat, (incIPRev bs).length = bs.length := by
  intro bs
  induction bs with
  | nil => rfl
  | cons b bs ih =>
    simp only [incIPRev]
    split <;> simp [ih]

theorem incIP_length (ip : IP) : (incIP ip).length = ip.length := by
  simp [incIP, incIPRev_length]

theorem Contains_zero_mask (ip : IP) (h : ip.length = 4) :
    IPNet.Contains { IP := [0, 0, 0, 0], Mask := [0, 0, 0, 0] } ip = true := by
  have hnn : networkNumberAndMask { IP := [0, 0, 0, 0], Mask := [0, 0, 0, 0] } =
      some ([0, 0, 0, 0], [0, 0, 0, 0]) := by decide
  have h4 : To4 ip = ip := by simp [To4, h]
  have hne : ip ≠ [] := by intro h0; rw [h0] at h; cases h
  unfold IPNet.Contains
  rw [hnn]
  simp only [h4, hne, if_false, h, List.length_cons, List.length_nil]
  simp [List.range_succ]

theorem cidrLoop_zero_mask : ∀ (fuel : Nat) (ip : IP) (ips : List String), ip.length = 4 →
    cidrLoop { IP := [0, 0, 0, 0], Mask := [0, 0, 0, 0] } fuel ip ips = .fuelOut := by
  intro fuel
  induction fuel with
  | zero =>
    intro ip ips h
    simp [cidrLoop, Contains_zero_mask ip h]
  | succ f ih =>
    intro ip ips h
    simp only [cidrLoop, Contains_zero_mask ip h, if_true]
    exact ih _ _ (by rw [incIP_length]; exact h)

/-- C3 fails on the block of all IPv4 addresses. `0.0.0.0/0` is a valid CIDR;
the network contains every address `incIP` reaches (after 255.255.255.255 it
wraps to 0.0.0.0), so the loop of `expandCIDR` is still running whatever the
step budget, and `parseAllTargets` returns no list of hosts. -/
theorem parseAllTargets_cidr_all_diverges (fuel : Nat) :
    parseAllTargets fuel "0.0.0.0/0" = .fuelOut := by
  have hsplit : Split "0.0.0.0/0" '\n' = ["0.0.0.0/0"] := by decide
  have htrim : TrimSpace "0.0.0.0/0" = "0.0.0.0/0" := by decide
  have hskip : ¬ (("0.0.0.0/0" : String) = "" ∨ HasPrefix "0.0.0.0/0" '#' = true) := by decide
  have hslash : Contains "0.0.0.0/0" '/' = true := by decide
  have hcidr : ParseCIDR "0.0.0.0/0" =
      some (ipv4In16 0, { IP := [0, 0, 0, 0], Mask := [0, 0, 0, 0] }) := by decide
  have hmask : Mask [0, 0, 0, 0] [0, 0, 0, 0] = [0, 0, 0, 0] := by decide
  have hloop := cidrLoop_zero_mask fuel [0, 0, 0, 0] [] rfl
  unfold parseAllTargets
  rw [hsplit]
  simp only [parseLines, htrim, if_neg hskip]
  unfold parseLine
  rw [if_pos hslash]
  unfold expandCIDR
  simp only [hcidr, hmask, hloop]

/-! ## The store: what a command changes -/

theorem lookup_filter_ne (kv : List (String × Value)) (key k : String) (h : k ≠ key) :
    (kv.filter fun e => e.1 != key).lookup k = kv.lookup k := by
  induction kv with
  | nil => rfl
  | cons e es ih =>
    obtain ⟨a, v⟩ := e
    by_cases ha : a = key
    · subst ha
      have hk : (k == a) = false := by simpa using h
      simp [List.filter, List.lookup, hk, ih]
    · have hne : (a != key) = true := by simpa using ha
      simp only [List.filter, hne, List.lookup]
      rw [ih]

theorem lookup_filter_self (kv : List (String × Value)) (key : String) :
    (kv.filter fun e => e.1 != key).lookup key = none := by
  induction kv with
  | nil => rfl
  | cons e es ih =>
    obtain ⟨a, v⟩ := e
    by_cases ha : a = key
    · subst ha
      simp [List.filter, ih]
    · have hne : (a != key) = true := by simpa using ha
      have hk : (key == a) = false := by simpa using fun h => ha h.symm
      simp [List.filter, hne, List.lookup, hk, ih]

theorem lookup_append_of_none (kv : List (String × Value)) (k key : String) (v : Value)
    (h : kv.lookup k = none) : (kv ++ [(key, v)]).lookup k = if k = key then some v else none := by
  induction kv with
  | nil =>
    by_cases hk : k = key
    · subst hk; simp [List.lookup]
    · have : (k == key) = false := by simpa using hk
      simp [List.lookup, this, hk]
  | cons e es ih =>
    obtain ⟨a, w⟩ := e
    by_cases hka : (k == a) = true
    · simp [List.lookup, hka] at h
    · have hka' : (k == a) = false := by simpa using hka
      simp only [List.lookup, hka'] at h
      simp only [List.cons_append, List.lookup, hka']
      exact ih h

theorem lookup_append_of_ne (kv : List (String × Value)) (k key : String) (v : Value)
    (h : k ≠ key) : (kv ++ [(key, v)]).lookup k = kv.lookup k := by
  induction kv with
  | nil =>
    have : (k == key) = false := by simpa using h
    simp [List.lookup, this]
  | cons e es ih =>
    obtain ⟨a, w⟩ := e
    by_cases hka : (k == a) = true
    · simp [List.lookup, hka]
    · have hka' : (k == a) = false := by simpa using hka
      simp only [List.cons_append, List.lookup, hka']
      exact ih

theorem Store.lookup_Del_self (s : Store) (key : String) : (s.Del key).lookup key = none :=
  lookup_filter_self s.kv key

theorem Store.lookup_Del_ne (s : Store) (key k : String) (h : k ≠ key) :
    (s.Del key).lookup k = s.lookup k :=
  lookup_filter_ne s.kv key k h

theorem Store.lookup_Set_ne (s : Store) (key data : String) (ttl : Option Nat) (k : String)
    (h : k ≠ key) : (s.Set key data ttl).lookup k = s.lookup k := by
  unfold Store.Set Store.lookup
  simp only
  rw [lookup_append_of_ne _ _ _ _ h, lookup_filter_ne _ _ _ h]

theorem Store.lookup_Publish (s : Store) (channel message k : String) :
    (s.Publish channel message).lookup k = s.lookup k := rfl

/-- C5. Status resolution of `GetPocValidationResult` for a non-empty task id:
(a) a result record that decodes fixes the status, whatever the info record
holds: a non-empty `status` string is reported as it is, a missing or empty one
as `COMPLETED`; (b) without a result record, an info record that decodes and
whose `status` is missing, empty, `PENDING` or `STARTED` gives `RUNNING`;
(c) with neither record the status is `NOT_FOUND`. -/
theorem GetPocValidationResult_status (env : Env) (s : Store) (taskId : String)
    (hid : taskId ≠ "") :
    (∀ data, s.Get ("cscan:task:result:" ++ taskId) = some data →
      env.UnmarshalMap data ≠ .err →
        (∀ st, (env.UnmarshalMap data).get "status" = some (.str st) → st ≠ "" →
          (GetPocValidationResult env s taskId).Status = st) ∧
        (((env.UnmarshalMap data).get "status" = none ∨
            (env.UnmarshalMap data).get "status" = some (.str "")) →
          (GetPocValidationResult env s taskId).Status = "COMPLETED")) ∧
    (s.Get ("cscan:task:result:" ++ taskId) = none →
      ∀ data, s.Get ("cscan:task:info:" ++ taskId) = some data →
        env.UnmarshalMap data ≠ .err →
        ((env.UnmarshalMap data).get "status" = none ∨
          ∃ st, (env.UnmarshalMap data).get "status" = some (.str st) ∧
            (st = "" ∨ st = "PENDING" ∨ st = "STARTED")) →
        (GetPocValidationResult env s taskId).Status = "RUNNING") ∧
    (s.Get ("cscan:task:result:" ++ taskId) = none →
      s.Get ("cscan:task:info:" ++ taskId) = none →
      (GetPocValidationResult env s taskId).Status = "NOT_FOUND") := by
  refine ⟨?_, ?_, ?_⟩
  · intro data hget hdec
    constructor
    · intro st hst hne
      unfold GetPocValidationResult
      rw [if_neg hid]
      simp only [hget]
      cases hd : env.UnmarshalMap data with
      | err => exact absurd hd hdec
      | nilMap => rw [hd] at hst; simp [Decoded.get] at hst
      | map m =>
        rw [hd] at hst
        simp [hst, asString, hne]
    · intro hst
      unfold GetPocValidationResult
      rw [if_neg hid]
      simp only [hget]
      cases hd : env.UnmarshalMap data with
      | err => exact absurd hd hdec
      | nilMap => simp [Decoded.get, asString]
      | map m =>
        rw [hd] at hst
        rcases hst with hst | hst <;> simp [hst, asString]
  · intro hres data hinfo hdec hst
    have hne : data ≠ "" := by
      intro h
      apply hdec
      simp [Env.UnmarshalMap, h]
    unfold GetPocValidationResult
    rw [if_neg hid]
    simp only [hres, hinfo, ne_eq, hne, not_false_eq_true, if_true]
    cases hd : env.UnmarshalMap data with
    | err => exact absurd hd hdec
    | nilMap => simp [Decoded.get, asString]
    | map m =>
      rw [hd] at hst
      rcases hst with hst | ⟨st, hst, hval⟩
      · simp [hst, asString]
      · rcases hval with rfl | rfl | rfl <;> simp [hst, asString]
  · intro hres hinfo
    unfold GetPocValidationResult
    rw [if_neg hid]
    simp only [hres, hinfo]

/-- C5, on the examples of the specification: a task with only an info record
of status `STARTED` is `RUNNING`. -/
theorem GetPocValidationResult_status_witness :
    (GetPocValidationResult sampleEnv sampleStore "t1").Status = "RUNNING" :=
  (GetPocValidationResult_status sampleEnv sampleStore "t1" (by decide)).2.1 (by decide)
    "\x7b\"status\":\"STARTED\"\x7d" (by decide)
    (by simp [Env.UnmarshalMap, sampleEnv])
    (Or.inr ⟨"STARTED", by simp [Env.UnmarshalMap, sampleEnv, Decoded.get, List.lookup],
      Or.inr (Or.inr rfl)⟩)

/-! ## The connection to the store -/

theorem Conn.Publish_kv (c : Conn) (i : Nat) (s : Store) (channel message : String) :
    (c.Publish i s channel message).kv = s.kv := by
  unfold Conn.Publish
  cases c.fault i <;> rfl

theorem timeSub_lt_minute (t u : Int) :
    timeSub t u < 60 * Second ↔ t - u < 60 * 1000000000 := by
  unfold timeSub Second
  split
  · omega
  · split <;> omega

theorem Store.Get_congr (s s1 : Store) (h : s1.kv = s.kv) (k : String) : s1.Get k = s.Get k := by
  unfold Store.Get Store.lookup
  rw [h]

theorem Store.Keys_congr (s s1 : Store) (h : s1.kv = s.kv) (pre : String) :
    s1.Keys pre = s.Keys pre := by
  unfold Store.Keys
  rw [h]

theorem readWorker_congr (env : Env) (c : Conn) (s s1 : Store) (h : s1.kv = s.kv) (i : Nat)
    (k : String) : readWorker env c s1 i k = readWorker env c s i k := by
  unfold readWorker Conn.Get
  rw [Store.Get_congr s s1 h]

theorem workerListLoop_cons (env : Env) (c : Conn) (s : Store) (i : Nat) (k : String)
    (ks : List String) (list : List Worker) :
    workerListLoop env c s i (k :: ks) list =
      workerListLoop env c s (i + 1) ks (list ++ (readWorker env c s i k).toList) := by
  rw [workerListLoop]
  unfold readWorker
  cases hg : c.Get i s k with
  | none => simp
  | some data =>
    cases hd : env.UnmarshalWorkerStatus data with
    | none => simp [hd]
    | some st =>
      simp only [hd, Option.map_some', Option.toList]
      rfl

theorem workerListLoop_eq (env : Env) (c : Conn) (s : Store) : ∀ (keys : List String) (i : Nat)
    (list : List Worker),
    workerListLoop env c s i keys list =
      list ++ (List.enumFrom i keys).filterMap fun e => readWorker env c s e.1 e.2 := by
  intro keys
  induction keys with
  | nil => intro i list; simp [workerListLoop]
  | cons k ks ih =>
    intro i list
    rw [workerListLoop_cons, ih, List.enumFrom_cons, List.filterMap_cons]
    cases readWorker env c s i k <;> simp

/-- The result of `WorkerList` when `KEYS` is answered: code 0 and one entry
for each key of the reply whose record is read and decodes, in reply order. -/
theorem WorkerList_answered (env : Env) (c : Conn) (s : Store) (hkeys : c.fault 1 = none) :
    WorkerList env c s =
      ({ Code := 0, Msg := "success",
         List := (List.enumFrom 2 (c.keysOrder (s.Keys "worker:"))).filterMap
           fun e => readWorker env c s e.1 e.2 },
        c.Publish 0 s "cscan:worker:query" "refresh") := by
  have hkv := Conn.Publish_kv c 0 s "cscan:worker:query" "refresh"
  have hfun : (fun e : Nat × String =>
        readWorker env c (c.Publish 0 s "cscan:worker:query" "refresh") e.1 e.2) =
      fun e => readWorker env c s e.1 e.2 :=
    funext fun e => readWorker_congr env c s _ hkv e.1 e.2
  unfold WorkerList Conn.Keys
  simp only [hkeys]
  rw [workerListLoop_eq, Store.Keys_congr s _ hkv, hfun, List.nil_append]

/-- The result of `WorkerList` when `KEYS` fails: code 500 and no list. -/
theorem WorkerList_unanswered (env : Env) (c : Conn) (s : Store) (e : String)
    (hkeys : c.fault 1 = some e) :
    WorkerList env c s =
      ({ Code := 500, Msg := "查询失败", List := [] },
        c.Publish 0 s "cscan:worker:query" "refresh") := by
  unfold WorkerList Conn.Keys
  simp only [hkeys]

theorem WorkerList_kv (env : Env) (c : Conn) (s : Store) : (WorkerList env c s).2.kv = s.kv := by
  cases h : c.fault 1 with
  | none => rw [WorkerList_answered env c s h]; exact Conn.Publish_kv _ _ _ _ _
  | some e => rw [WorkerList_unanswered env c s e h]; exact Conn.Publish_kv _ _ _ _ _

/-- C9, with the condition the code needs. When `KEYS` is answered and the
`GET` of a key of its reply returns a record that decodes, `WorkerList`
returns code 0, leaves every record in place and lists the record. The listed
status is `running` exactly when the update time parses and lies less than 60
seconds before the clock reading for that record, and `offline` otherwise: also
when exactly 60 seconds have passed, and when the update time is empty or does
not parse. The key is number `j` of the reply, so its `GET` is command number
`2 + j` of the call. -/
theorem WorkerList_liveness (env : Env) (c : Conn) (s : Store) (j : Nat) (key data : String)
    (st : WorkerStatus) (hkeys : c.fault 1 = none)
    (hkey : (c.keysOrder (s.Keys "worker:"))[j]? = some key)
    (hget : c.Get (2 + j) s key = some data)
    (hdec : env.UnmarshalWorkerStatus data = some st) :
    (WorkerList env c s).1.Code = 0 ∧ (WorkerList env c s).2.kv = s.kv ∧
    ∃ w ∈ (WorkerList env c s).1.List,
      w.Name = st.WorkerName ∧ w.UpdateTime = st.UpdateTime ∧
      (∀ t, env.ParseInLocation st.UpdateTime = some t →
        (w.Status = "running" ↔ env.now key - t < 60 * 1000000000) ∧
        (w.Status = "offline" ↔ ¬ (env.now key - t < 60 * 1000000000))) ∧
      ((st.UpdateTime = "" ∨ env.ParseInLocation st.UpdateTime = none) →
        w.Status = "offline") := by
  have hmem : workerEntry env key st ∈ (WorkerList env c s).1.List := by
    rw [WorkerList_answered env c s hkeys]
    refine List.mem_filterMap.2 ⟨(2 + j, key), List.mk_add_mem_enumFrom_iff_getElem?.2 hkey, ?_⟩
    simp only [readWorker, hget, hdec, Option.map_some']
  refine ⟨?_, WorkerList_kv env c s, _, hmem, rfl, rfl, ?_, ?_⟩
  · rw [WorkerList_answered env c s hkeys]
  · intro t ht
    have hne : st.UpdateTime ≠ "" := by
      intro h
      simp [Env.ParseInLocation, h] at ht
    simp only [workerEntry, workerStatusOf, ne_eq, hne, not_false_eq_true, if_true, ht]
    by_cases hlt : timeSub (env.now key) t < 60 * Second
    · have := (timeSub_lt_minute _ _).1 hlt
      simp [hlt]
      omega
    · have : ¬ (env.now key - t < 60 * 1000000000) := fun h => hlt ((timeSub_lt_minute _ _).2 h)
      simp [hlt]
      omega
  · intro h
    have hnone : env.ParseInLocation st.UpdateTime = none := by
      rcases h with h | h
      · simp [Env.ParseInLocation, h]
      · exact h
    simp only [workerEntry, workerStatusOf, hnone]
    split <;> rfl

/-- C9, on the sample fleet and a connection that answers every command: the
record updated exactly 60 seconds before the clock reading is listed as
`offline`, the record updated 10 seconds before it is listed as `running`, and
with a parser that accepts no update time the latter is listed as `offline`. -/
theorem WorkerList_liveness_witness :
    sampleEnv.now "worker:w1" - 1704067200000000000 = 60 * 1000000000 ∧
    sampleEnv.now "worker:w2" - 1704067250000000000 = 10 * 1000000000 ∧
    (WorkerList sampleEnv sampleConn sampleFleet).1.Code = 0 ∧
    (∃ w ∈ (WorkerList sampleEnv sampleConn sampleFleet).1.List,
      w.Name = "w1" ∧ w.UpdateTime = "2024-01-01 00:00:00" ∧ w.Status = "offline") ∧
    (∃ w ∈ (WorkerList sampleEnv sampleConn sampleFleet).1.List,
      w.Name = "w2" ∧ w.UpdateTime = "2024-01-01 00:00:50" ∧ w.Status = "running") ∧
    (∃ w ∈ (WorkerList { sampleEnv with parseTime := fun _ => none } sampleConn sampleFleet).1.List,
      w.Name = "w2" ∧ w.UpdateTime = "2024-01-01 00:00:50" ∧ w.Status = "offline") := by
  refine ⟨by decide, by decide, ?_, ?_, ?_, ?_⟩
  · exact (WorkerList_liveness sampleEnv sampleConn sampleFleet 0 "worker:w1"
      "\x7b\"workerName\":\"w1\",\"updateTime\":\"2024-01-01 00:00:00\"\x7d"
      { WorkerName := "w1", IP := "", CPULoad := 0, MemUsed := 0, TaskStartedNumber := 0,
        TaskExecutedNumber := 0, UpdateTime := "2024-01-01 00:00:00" }
      rfl (by decide) (by decide) (by decide)).1
  · obtain ⟨_, _, w, hw, hname, htime, hstat, _⟩ :=
      WorkerList_liveness sampleEnv sampleConn sampleFleet 0 "worker:w1"
        "\x7b\"workerName\":\"w1\",\"updateTime\":\"2024-01-01 00:00:00\"\x7d"
        { WorkerName := "w1", IP := "", CPULoad := 0, MemUsed := 0, TaskStartedNumber := 0,
          TaskExecutedNumber := 0, UpdateTime := "2024-01-01 00:00:00" }
        rfl (by decide) (by decide) (by decide)
    exact ⟨w, hw, hname, htime, ((hstat 1704067200000000000 (by decide)).2).2 (by decide)⟩
  · obtain ⟨_, _, w, hw, hname, htime, hstat, _⟩ :=
      WorkerList_liveness sampleEnv sampleConn sampleFleet 1 "worker:w2"
        "\x7b\"workerName\":\"w2\",\"updateTime\":\"2024-01-01 00:00:50\"\x7d"
        { WorkerName := "w2", IP := "", CPULoad := 0, MemUsed := 0, TaskStartedNumber := 3,
          TaskExecutedNumber := 1, UpdateTime := "2024-01-01 00:00:50" }
        rfl (by decide) (by decide) (by decide)
    exact ⟨w, hw, hname, htime, ((hstat 1704067250000000000 (by decide)).1).2 (by decide)⟩
  · obtain ⟨_, _, w, hw, hname, htime, _, hoff⟩ :=
      WorkerList_liveness { sampleEnv with parseTime := fun _ => none } sampleConn sampleFleet 1
        "worker:w2"
        "\x7b\"workerName\":\"w2\",\"updateTime\":\"2024-01-01 00:00:50\"\x7d"
        { WorkerName := "w2", IP := "", CPULoad := 0, MemUsed := 0, TaskStartedNumber := 3,
          TaskExecutedNumber := 1, UpdateTime := "2024-01-01 00:00:50" }
        rfl (by decide) (by decide) (by decide)
    exact ⟨w, hw, hname, htime, hoff (Or.inr (by decide))⟩

/-- The fleet holds the record of `w2`, updated 10 seconds before the clock
reading, and the `KEYS` command times out: `WorkerList` returns code 500 and
lists no record, the one of `w2` included. -/
theorem listing_empty_on_failed_keys :
    sampleFleet.Get "worker:w2" =
        some "\x7b\"workerName\":\"w2\",\"updateTime\":\"2024-01-01 00:00:50\"\x7d" ∧
      sampleEnv.now "worker:w2" - 1704067250000000000 = 10 * 1000000000 ∧
      (WorkerList sampleEnv (sampleConnLost 1) sampleFleet).1 =
        { Code := 500, Msg := "查询失败", List := [] } := by
  decide

/-! ## audithandler.go -/

/-- C10. The paging parameters served by the audit-log handler. For every
request the served page size lies in `[1, 100]` and the served page is at least
1. When the request carries the integers `page` and `pageSize`, the served page
size is 100 if `pageSize > 100`, 20 if `pageSize < 1` and `pageSize` otherwise,
and the served page is 1 if `page < 1` and `page` otherwise. -/
theorem auditPaging_clamp (env : Env) (p ps : String) :
    (1 ≤ (WorkerAuditLogHandler.paging env p ps).2 ∧
      (WorkerAuditLogHandler.paging env p ps).2 ≤ 100 ∧
      1 ≤ (WorkerAuditLogHandler.paging env p ps).1) ∧
    ∀ page pageSize : Int, p ≠ "" → ps ≠ "" →
      env.sscanInt p = some page → env.sscanInt ps = some pageSize →
      (WorkerAuditLogHandler.paging env p ps).2 =
        (if pageSize > 100 then 100 else if pageSize < 1 then 20 else pageSize) ∧
      (WorkerAuditLogHandler.paging env p ps).1 = (if page < 1 then 1 else page) ∧
      (1 ≤ pageSize → pageSize ≤ 100 →
        (WorkerAuditLogHandler.paging env p ps).2 = pageSize) ∧
      (1 ≤ page → (WorkerAuditLogHandler.paging env p ps).1 = page) := by
  constructor
  · simp only [WorkerAuditLogHandler.paging]
    refine ⟨?_, ?_, ?_⟩ <;> split_ifs <;> omega
  · intro page pageSize hp hps hpage hsize
    simp only [WorkerAuditLogHandler.paging, ne_eq, hp, hps, not_false_eq_true, if_true,
      hpage, hsize, Option.getD_some]
    refine ⟨?_, ?_, ?_, ?_⟩
    · split_ifs <;> omega
    · trivial
    · intro h1 h2
      split_ifs <;> omega
    · intro h1
      split_ifs <;> omega

/-- C10, on the examples of the specification: page 0 with page size 500 is
served as page 1 with page size 100. -/
theorem auditPaging_clamp_witness :
    WorkerAuditLogHandler.paging sampleEnv "0" "500" = (1, 100) := by
  have h := (auditPaging_clamp sampleEnv "0" "500").2 0 500 (by decide) (by decide)
    (by decide) (by decide)
  exact Prod.ext h.2.1 h.1

/-! ## splitter.go: the batches of `SplitTargets` -/

/-- C1. When the expanded list `ts` of a specification has more than `b ≥ 1`
targets, `SplitTargets` returns, for every step budget that lets it finish,
exactly `⌈n/b⌉` batches; split at line breaks, the batches have `b` targets each
except the last, which has the remaining `n - (⌈n/b⌉ - 1) * b` targets (between
1 and `b`); and the lines of the batches, taken in order, are exactly `ts`. -/
theorem SplitTargets_batches (s : TargetSplitter) (b fuel0 : Nat) (target : String)
    (ts : List String) (hb : 1 ≤ b) (hs : s.batchSize = (b : Int))
    (hparse : parseAllTargets fuel0 target = .done ts) (hn : b < ts.length) :
    1 ≤ ts.length - ((ts.length + b - 1) / b - 1) * b ∧
    ts.length - ((ts.length + b - 1) / b - 1) * b ≤ b ∧
    ∀ fuel, fuel0 ≤ fuel → (ts.length + b - 1) / b ≤ fuel →
      ∃ batches, SplitTargets s fuel target = .done batches ∧
        batches.length = (ts.length + b - 1) / b ∧
        batches.map (fun batch => (Split batch '\n').length) =
          List.replicate ((ts.length + b - 1) / b - 1) b ++
            [ts.length - ((ts.length + b - 1) / b - 1) * b] ∧
        (batches.map fun batch => Split batch '\n').flatten = ts := by
  obtain ⟨hlo, hhi, hk1⟩ := ceil_div_bounds ts.length b hb (by omega)
  obtain ⟨q, hq⟩ : ∃ q, (ts.length + b - 1) / b = q + 1 :=
    ⟨(ts.length + b - 1) / b - 1, by omega⟩
  rw [hq] at hlo hhi ⊢
  simp only [Nat.add_sub_cancel] at hlo ⊢
  have hqb : (q + 1) * b = q * b + b := by ring
  refine ⟨by omega, by omega, ?_⟩
  intro fuel hf0 hfk
  have hparse1 := parseAllTargets_mono fuel0 fuel target ts hf0 hparse
  have hsplit := SplitTargets_eq s b fuel target ts hb hs hparse1 hn (by omega)
  rw [hq] at hsplit
  have hnl := parseAllTargets_no_newline fuel0 target ts hparse
  -- splitting a batch at line breaks gives back its group of targets
  have hback : ∀ j ∈ List.range (q + 1),
      Split (Join ((ts.drop (j * b)).take b) '\n') '\n' = (ts.drop (j * b)).take b := by
    intro j hj
    have hjq : j ≤ q := by have := List.mem_range.1 hj; omega
    have h1 : j * b ≤ q * b := Nat.mul_le_mul_right b hjq
    apply Split_Join
    · intro hnil
      have hlen := congrArg List.length hnil
      simp only [List.length_take, List.length_drop, List.length_nil] at hlen
      omega
    · intro t ht
      exact hnl t (List.mem_of_mem_drop (List.mem_of_mem_take ht))
  have hmapSplit : ((List.range (q + 1)).map fun j =>
      Join ((ts.drop (j * b)).take b) '\n').map (fun batch => Split batch '\n') =
      (List.range (q + 1)).map fun j => (ts.drop (j * b)).take b := by
    rw [List.map_map]
    exact List.map_congr_left hback
  refine ⟨_, hsplit, by simp, ?_, ?_⟩
  · have hlen := chunk_lengths b ts q hlo
    have hmin : min b (ts.length - q * b) = ts.length - q * b := by omega
    rw [hmin] at hlen
    rw [← hlen]
    have := congrArg (List.map List.length) hmapSplit
    simpa [List.map_map, Function.comp_def] using this
  · rw [hmapSplit, flatten_chunks, List.take_of_length_le (by omega)]

/-- C1, on the example of the specification: the 120 targets of
`10.0.0.1-10.0.0.120` in batches of 50 give three batches of 50, 50 and 20 lines. -/
theorem SplitTargets_batches_witness :
    parseAllTargets 200 "10.0.0.1-10.0.0.120" =
      .done ((List.range 120).map fun i => IP.String (ipv4 (167772161 + i))) ∧
    ∃ batches, SplitTargets (NewTargetSplitter 50) 200 "10.0.0.1-10.0.0.120" = .done batches ∧
      batches.length = 3 ∧
      batches.map (fun batch => (Split batch '\n').length) = [50, 50, 20] ∧
      (batches.map fun batch => Split batch '\n').flatten =
        (List.range 120).map fun i => IP.String (ipv4 (167772161 + i)) := by
  have hline : IP.String (ipv4 167772161) ++ "-" ++ IP.String (ipv4 167772280) =
      "10.0.0.1-10.0.0.120" := by decide
  have hexp := expandIPRange_ipv4 167772161 167772280 200 (by decide) (by decide) (by decide)
  rw [hline] at hexp
  have hparse : parseAllTargets 200 "10.0.0.1-10.0.0.120" =
      .done ((List.range 120).map fun i => IP.String (ipv4 (167772161 + i))) := by
    have hsplit : Split "10.0.0.1-10.0.0.120" '\n' = ["10.0.0.1-10.0.0.120"] := by decide
    have htrim : TrimSpace "10.0.0.1-10.0.0.120" = "10.0.0.1-10.0.0.120" := by decide
    have hskip : ¬ (("10.0.0.1-10.0.0.120" : String) = "" ∨
        HasPrefix "10.0.0.1-10.0.0.120" '#' = true) := by decide
    have hslash : ¬ (Contains "10.0.0.1-10.0.0.120" '/' = true) := by decide
    have hdash : Contains "10.0.0.1-10.0.0.120" '-' = true ∧
        (ParseIP ((Split "10.0.0.1-10.0.0.120" '-').headD "")).isSome = true := by decide
    unfold parseAllTargets
    rw [hsplit]
    simp only [parseLines, htrim, if_neg hskip]
    unfold parseLine
    rw [if_neg hslash, if_pos hdash, hexp]
    rfl
  refine ⟨hparse, ?_⟩
  have h := (SplitTargets_batches (NewTargetSplitter 50) 50 200 "10.0.0.1-10.0.0.120"
    ((List.range 120).map fun i => IP.String (ipv4 (167772161 + i))) (by decide) rfl hparse
    (by simp)).2.2 200 (le_refl _) (by simp)
  simpa using h

/-- C2. When the expanded list of a specification has at most `batchSize`
targets (possibly none), `SplitTargets` returns the one-element list holding
the specification itself, unchanged. -/
theorem SplitTargets_no_split (s : TargetSplitter) (fuel : Nat) (target : String)
    (ts : List String) (hparse : parseAllTargets fuel target = .done ts)
    (hn : (ts.length : Int) ≤ s.batchSize) :
    SplitTargets s fuel target = .done [target] := by
  unfold SplitTargets
  simp only [hparse, if_pos hn]

/-- C2, on a small block with a comment and surrounding blanks. -/
theorem SplitTargets_no_split_witness :
    parseAllTargets 10 " 10.0.0.0/30 \n# two hosts\n" = .done ["10.0.0.1", "10.0.0.2"] ∧
    SplitTargets (NewTargetSplitter 50) 10 " 10.0.0.0/30 \n# two hosts\n" =
      .done [" 10.0.0.0/30 \n# two hosts\n"] :=
  ⟨by decide, SplitTargets_no_split (NewTargetSplitter 50) 10 " 10.0.0.0/30 \n# two hosts\n"
    ["10.0.0.1", "10.0.0.2"] (by decide) (by decide)⟩

/-! ## Package net: masks of IPv4 networks -/

set_option maxRecDepth 100000 in
theorem byte_and_mask : ∀ j < 9, ∀ x < 256,
    x &&& (256 - 2 ^ j) % 256 = x / 2 ^ j * 2 ^ j := by
  decide

theorem mod_and_mask (j : Nat) (hj : j < 9) (x : Nat) :
    x % 256 &&& (256 - 2 ^ j) % 256 = x % 256 / 2 ^ j * 2 ^ j :=
  byte_and_mask j hj _ (Nat.mod_lt _ (by decide))

theorem mod_and_masks (x : Nat) :
    x % 256 &&& 255 = x % 256 ∧ x % 256 &&& 254 = x % 256 / 2 * 2 ∧
    x % 256 &&& 252 = x % 256 / 4 * 4 ∧ x % 256 &&& 248 = x % 256 / 8 * 8 ∧
    x % 256 &&& 240 = x % 256 / 16 * 16 ∧ x % 256 &&& 224 = x % 256 / 32 * 32 ∧
    x % 256 &&& 192 = x % 256 / 64 * 64 ∧ x % 256 &&& 128 = x % 256 / 128 * 128 := by
  have h0 := mod_and_mask 0 (by decide) x
  have h1 := mod_and_mask 1 (by decide) x
  have h2 := mod_and_mask 2 (by decide) x
  have h3 := mod_and_mask 3 (by decide) x
  have h4 := mod_and_mask 4 (by decide) x
  have h5 := mod_and_mask 5 (by decide) x
  have h6 := mod_and_mask 6 (by decide) x
  have h7 := mod_and_mask 7 (by decide) x
  norm_num at h0 h1 h2 h3 h4 h5 h6 h7
  exact ⟨h0, h1, h2, h3, h4, h5, h6, h7⟩

/-- Masking the four bytes of an address with the mask of prefix length `p`
clears the low `32 - p` bits of its value. -/
theorem mask_ipv4 (p : Nat) (hp : p ≤ 32) (v : Nat) :
    List.zipWith (fun a m => a &&& m) (ipv4 v) (CIDRMask p 32) =
      ipv4 (v / 2 ^ (32 - p) * 2 ^ (32 - p)) := by
  have e0 := fun x => (mod_and_masks x).1
  have e1 := fun x => (mod_and_masks x).2.1
  have e2 := fun x => (mod_and_masks x).2.2.1
  have e3 := fun x => (mod_and_masks x).2.2.2.1
  have e4 := fun x => (mod_and_masks x).2.2.2.2.1
  have e5 := fun x => (mod_and_masks x).2.2.2.2.2.1
  have e6 := fun x => (mod_and_masks x).2.2.2.2.2.2.1
  have e7 := fun x => (mod_and_masks x).2.2.2.2.2.2.2
  interval_cases p <;>
    simp [CIDRMask, cidrMaskBytes, ipv4, e0, e1, e2, e3, e4, e5, e6, e7] <;>
    omega

theorem CIDRMask_length (p : Nat) (hp : p ≤ 32) : (CIDRMask p 32).length = 4 := by
  interval_cases p <;> decide

theorem ipv4_length (v : Nat) : (ipv4 v).length = 4 := rfl

theorem To4_ipv4 (v : Nat) : To4 (ipv4 v) = ipv4 v := by
  simp [To4, ipv4]

theorem ipv4_ne_nil (v : Nat) : ipv4 v ≠ [] := by
  simp [ipv4]

theorem Mask_ipv4 (p : Nat) (hp : p ≤ 32) (v : Nat) :
    Mask (ipv4 v) (CIDRMask p 32) = ipv4 (v / 2 ^ (32 - p) * 2 ^ (32 - p)) := by
  have hl := CIDRMask_length p hp
  simpa [Mask, hl, ipv4_length] using mask_ipv4 p hp v

theorem Mask_ipv4In16 (p : Nat) (hp : p ≤ 32) (v : Nat) :
    Mask (ipv4In16 v) (CIDRMask p 32) = ipv4 (v / 2 ^ (32 - p) * 2 ^ (32 - p)) := by
  have hl := CIDRMask_length p hp
  have h16 : (ipv4In16 v).length = 16 := rfl
  have hpre : (List.take 12 (ipv4In16 v) == v4InV6Prefix) = true := by
    simp [ipv4In16, v4InV6Prefix]
  have hdrop : List.drop 12 (ipv4In16 v) = ipv4 v := by
    simp [ipv4In16, v4InV6Prefix]
  simpa [Mask, hl, h16, hpre, hdrop, ipv4_length] using mask_ipv4 p hp v

theorem all_range_four (f : Nat → Bool) :
    (List.range 4).all f = (f 0 && f 1 && f 2 && f 3) := by
  simp [List.range_succ, Bool.and_assoc]

/-- An IPv4 network of prefix length `p` contains exactly the addresses that
agree with its address outside the low `32 - p` bits. -/
theorem Contains_ipv4 (p : Nat) (hp : p ≤ 32) (b v : Nat) (hb : b < 4294967296)
    (hv : v < 4294967296) :
    IPNet.Contains { IP := ipv4 b, Mask := CIDRMask p 32 } (ipv4 v) =
      decide (v / 2 ^ (32 - p) = b / 2 ^ (32 - p)) := by
  have hl := CIDRMask_length p hp
  obtain ⟨m0, m1, m2, m3, hm⟩ : ∃ m0 m1 m2 m3, CIDRMask p 32 = [m0, m1, m2, m3] := by
    match h : CIDRMask p 32, hl with
    | [m0, m1, m2, m3], _ => exact ⟨m0, m1, m2, m3, rfl⟩
  have hnn : networkNumberAndMask { IP := ipv4 b, Mask := CIDRMask p 32 } =
      some (ipv4 b, CIDRMask p 32) := by
    unfold networkNumberAndMask
    simp [To4_ipv4, hl, ipv4_length, ipv4_ne_nil]
  have hzip := mask_ipv4 p hp
  have hpos : 0 < 2 ^ (32 - p) := Nat.two_pow_pos _
  have hcontains : IPNet.Contains { IP := ipv4 b, Mask := CIDRMask p 32 } (ipv4 v) =
      decide (List.zipWith (fun a m => a &&& m) (ipv4 b) (CIDRMask p 32) =
        List.zipWith (fun a m => a &&& m) (ipv4 v) (CIDRMask p 32)) := by
    unfold IPNet.Contains
    rw [hnn]
    simp only [To4_ipv4, ite_self, ipv4_length, ne_eq, not_true_eq_false, if_false]
    rw [all_range_four, hm]
    simp only [ipv4, List.getD_cons_zero, List.getD_cons_succ, List.zipWith, List.cons.injEq,
      and_true, Bool.decide_and, beq_eq_decide, Bool.and_assoc]
    congr
  rw [hcontains, hzip b, hzip v]
  have hlt : ∀ x, x < 4294967296 → x / 2 ^ (32 - p) * 2 ^ (32 - p) < 4294967296 :=
    fun x hx => lt_of_le_of_lt (Nat.div_mul_le_self x _) hx
  by_cases h : v / 2 ^ (32 - p) = b / 2 ^ (32 - p)
  · simp [h]
  · have hne : ipv4 (b / 2 ^ (32 - p) * 2 ^ (32 - p)) ≠ ipv4 (v / 2 ^ (32 - p) * 2 ^ (32 - p)) := by
      intro he
      have := ipv4_injective _ _ (hlt b hb) (hlt v hv) he
      exact h (Nat.eq_of_mul_eq_mul_right hpos this).symm
    simp [h, hne]

/-! ## splitter.go: `incIP` on 4-byte addresses -/

/-- On a 4-byte address `incIP` adds one modulo `2^32`: 255.255.255.255 becomes 0.0.0.0. -/
theorem incIP_ipv4 (v : Nat) (hv : v < 4294967296) :
    incIP (ipv4 v) = ipv4 ((v + 1) % 4294967296) := by
  by_cases h : v + 1 < 4294967296
  · have hrev : (ipv4 v).reverse =
        v % 256 :: v / 256 % 256 :: v / 65536 % 256 :: v / 16777216 % 256 :: [] := by
      simp [ipv4]
    unfold incIP
    rw [hrev, incIPRev_ipv4 v [] h, Nat.mod_eq_of_lt h]
    simp [ipv4]
  · have : v = 4294967295 := by omega
    subst this
    decide

/-! ## splitter.go: the loop of `expandCIDR` on an IPv4 network of prefix length at least 1 -/

theorem block_bounds (p q : Nat) (hp1 : 1 ≤ p) (hp : p ≤ 32)
    (hB : q * 2 ^ (32 - p) < 4294967296) :
    0 < 2 ^ (32 - p) ∧ 2 ^ (32 - p) ≤ 2147483648 ∧
      q * 2 ^ (32 - p) + 2 ^ (32 - p) ≤ 4294967296 := by
  have hpos : 0 < 2 ^ (32 - p) := Nat.two_pow_pos _
  have h31 : 2 ^ (32 - p) ≤ 2 ^ 31 := Nat.pow_le_pow_right (by decide) (by omega)
  have hsplit : 2 ^ p * 2 ^ (32 - p) = 4294967296 := by
    rw [← Nat.pow_add, show p + (32 - p) = 32 by omega]
  have hq : q < 2 ^ p := by
    rw [← hsplit] at hB
    exact Nat.lt_of_mul_lt_mul_right hB
  have hq1 : (q + 1) * 2 ^ (32 - p) ≤ 2 ^ p * 2 ^ (32 - p) := Nat.mul_le_mul_right _ hq
  rw [hsplit, Nat.add_mul, Nat.one_mul] at hq1
  refine ⟨hpos, ?_, hq1⟩
  have : (2 : Nat) ^ 31 = 2147483648 := rfl
  omega

theorem cidrLoop_ipv4 (p q : Nat) (hp1 : 1 ≤ p) (hp : p ≤ 32)
    (hB : q * 2 ^ (32 - p) < 4294967296) :
    ∀ (r j fuel : Nat) (acc : List String), j + r = 2 ^ (32 - p) → r ≤ fuel →
      cidrLoop { IP := ipv4 (q * 2 ^ (32 - p)), Mask := CIDRMask p 32 } fuel
          (ipv4 ((q * 2 ^ (32 - p) + j) % 4294967296)) acc =
        .done (acc ++ (List.range' (q * 2 ^ (32 - p) + j) r).map fun v => IP.String (ipv4 v)) := by
  obtain ⟨hpos, h31, hsum⟩ := block_bounds p q hp1 hp hB
  have hBq : q * 2 ^ (32 - p) / 2 ^ (32 - p) = q := Nat.mul_div_cancel _ hpos
  generalize hS : 2 ^ (32 - p) = S at hpos h31 hsum hBq hB
  have hC : ∀ v, v < 4294967296 →
      IPNet.Contains { IP := ipv4 (q * S), Mask := CIDRMask p 32 } (ipv4 v) = decide (v / S = q) := by
    intro v hv
    have := Contains_ipv4 p hp (q * S) v hB hv
    rw [hS, hBq] at this
    exact this
  intro r
  induction r with
  | zero =>
    intro j fuel acc hj _
    have hjS : j = S := by omega
    subst hjS
    have hw : (q * j + j) % 4294967296 < 4294967296 := Nat.mod_lt _ (by decide)
    have hout : ¬ ((q * j + j) % 4294967296 / j = q) := by
      by_cases hlt : q * j + j < 4294967296
      · rw [Nat.mod_eq_of_lt hlt]
        have : (q * j + j) / j = q + 1 :=
          Nat.div_eq_of_lt_le (by rw [Nat.add_mul]; omega) (by
            rw [Nat.add_mul, Nat.add_mul]; omega)
        omega
      · have heq : q * j + j = 4294967296 := by omega
        rw [heq]
        have hq1 : q ≠ 0 := by
          intro h0
          rw [h0] at heq
          omega
        simp only [Nat.mod_self, Nat.zero_div]
        omega
    have hfalse := hC _ hw
    rw [decide_eq_false hout] at hfalse
    cases fuel <;> simp [cidrLoop, hfalse]
  | succ r ih =>
    intro j fuel acc hj hfuel
    have hlt : q * S + j < 4294967296 := by omega
    have hin : (q * S + j) / S = q :=
      Nat.div_eq_of_lt_le (by omega) (by rw [Nat.add_mul]; omega)
    have htrue := hC _ hlt
    rw [decide_eq_true hin] at htrue
    obtain ⟨f, rfl⟩ : ∃ f, fuel = f + 1 := ⟨fuel - 1, by omega⟩
    rw [Nat.mod_eq_of_lt hlt]
    simp only [cidrLoop, htrue, if_true]
    rw [incIP_ipv4 _ hlt, show q * S + j + 1 = q * S + (j + 1) by omega,
      ih (j + 1) f _ (by omega) (by omega), List.range'_succ]
    simp only [List.map_cons, List.append_assoc, List.singleton_append]
    rw [show q * S + j + 1 = q * S + (j + 1) by omega]

theorem trim_range' (f : Nat → String) (b s : Nat) (hs : 2 < s) :
    (((List.range' b s).map f).take (((List.range' b s).map f).length - 1)).drop 1 =
      (List.range' (b + 1) (s - 2)).map f := by
  obtain ⟨t, rfl⟩ : ∃ t, s = t + 2 := ⟨s - 2, by omega⟩
  have h1 : List.range' b (t + 2) = List.range' b (t + 1) ++ [b + (t + 1)] := by
    rw [List.range'_concat]; simp
  simp only [List.length_map, List.length_range', Nat.add_sub_cancel]
  rw [h1, List.map_append, List.take_left' (by simp), List.range'_succ]
  simp

/-! ## splitter.go: `expandCIDR` on the text of an IPv4 network -/

theorem dtoi_prefix_length (p : Nat) (hp : p ≤ 32) :
    dtoi 0 0 (Nat.toDigits 10 p) = (p, (Nat.toDigits 10 p).length, true) := by
  interval_cases p <;> decide

theorem isDotDec_slash : isDotDec '/' = false := by decide

theorem IP_String_ipv4_no_slash (n : Nat) : '/' ∉ (IP.String (ipv4 n)).data :=
  fun h => isDotDec_ne _ _ (IP_String_ipv4_isDotDec n _ h) isDotDec_slash rfl

/-- `net.ParseCIDR` on the text `a/p` of an IPv4 address and a prefix length:
the network address is `a` with its low `32 - p` bits cleared. -/
theorem ParseCIDR_ipv4 (n p : Nat) (hp : p ≤ 32) :
    ParseCIDR (IP.String (ipv4 n) ++ "/" ++ String.mk (Nat.toDigits 10 p)) =
      some (ipv4In16 n,
        { IP := ipv4 (n / 2 ^ (32 - p) * 2 ^ (32 - p)), Mask := CIDRMask p 32 }) := by
  have hdata : (IP.String (ipv4 n) ++ "/" ++ String.mk (Nat.toDigits 10 p)).data =
      (IP.String (ipv4 n)).data ++ '/' :: Nat.toDigits 10 p := by
    simp [String.data_append]
  have hall : ∀ c ∈ (IP.String (ipv4 n)).data, (decide (c ≠ '/')) = true := by
    intro c hc
    have : c ≠ '/' := fun h => IP_String_ipv4_no_slash n (h ▸ hc)
    simpa using this
  have htake : List.takeWhile (fun c => decide (c ≠ '/'))
      ((IP.String (ipv4 n)).data ++ '/' :: Nat.toDigits 10 p) = (IP.String (ipv4 n)).data := by
    rw [List.takeWhile_append_of_pos hall]
    simp [List.takeWhile]
  have hdrop : (List.dropWhile (fun c => decide (c ≠ '/'))
      ((IP.String (ipv4 n)).data ++ '/' :: Nat.toDigits 10 p)).drop 1 = Nat.toDigits 10 p := by
    rw [List.dropWhile_append_of_pos hall]
    simp [List.dropWhile]
  have hcontains : ((IP.String (ipv4 n)).data ++ '/' :: Nat.toDigits 10 p).contains '/' = true := by
    simp
  unfold ParseCIDR
  rw [hdata]
  simp only [hcontains, not_true_eq_false, if_false, htake, hdrop, ParseAddr_ipv4,
    dtoi_prefix_length p hp, ne_eq, Bool.not_eq_true, Bool.true_eq_false, false_or,
    Nat.not_lt.2 hp, gt_iff_lt, or_self, Mask_ipv4In16 p hp]

theorem prefix_digits_isDigit (p : Nat) (hp : p ≤ 32) :
    ∀ c ∈ Nat.toDigits 10 p, isDotDec c = true := by
  intro c hc
  have := toDigits_byte p (by omega) c hc
  simp [isDotDec, this]

/-- `expandCIDR` on the text `a/p` of an IPv4 network of prefix length `p ≥ 1`:
the addresses of the block in ascending order, without the first and the last
when the block has more than two. -/
theorem expandCIDR_ipv4 (n p fuel : Nat) (hn : n < 4294967296) (hp1 : 1 ≤ p) (hp : p ≤ 32)
    (hfuel : 2 ^ (32 - p) ≤ fuel) :
    expandCIDR fuel (IP.String (ipv4 n) ++ "/" ++ String.mk (Nat.toDigits 10 p)) =
      .done (if 2 < 2 ^ (32 - p) then
          (List.range' (n / 2 ^ (32 - p) * 2 ^ (32 - p) + 1) (2 ^ (32 - p) - 2)).map
            fun v => IP.String (ipv4 v)
        else
          (List.range' (n / 2 ^ (32 - p) * 2 ^ (32 - p)) (2 ^ (32 - p))).map
            fun v => IP.String (ipv4 v)) := by
  have hpos : 0 < 2 ^ (32 - p) := Nat.two_pow_pos _
  have hB : n / 2 ^ (32 - p) * 2 ^ (32 - p) < 4294967296 :=
    lt_of_le_of_lt (Nat.div_mul_le_self _ _) hn
  have hstart : Mask (ipv4 (n / 2 ^ (32 - p) * 2 ^ (32 - p))) (CIDRMask p 32) =
      ipv4 ((n / 2 ^ (32 - p) * 2 ^ (32 - p) + 0) % 4294967296) := by
    rw [Mask_ipv4 p hp, Nat.mul_div_cancel _ hpos, Nat.add_zero, Nat.mod_eq_of_lt hB]
  have hloop := cidrLoop_ipv4 p (n / 2 ^ (32 - p)) hp1 hp hB (2 ^ (32 - p)) 0 fuel []
    (by omega) hfuel
  unfold expandCIDR
  rw [ParseCIDR_ipv4 n p hp]
  simp only [Nat.add_zero, List.nil_append] at hstart hloop
  simp only [hstart, hloop, List.length_map, List.length_range', gt_iff_lt]
  by_cases h2 : 2 < 2 ^ (32 - p)
  · have := trim_range' (fun v => IP.String (ipv4 v)) (n / 2 ^ (32 - p) * 2 ^ (32 - p))
      (2 ^ (32 - p)) h2
    simp only [List.length_map, List.length_range'] at this
    rw [if_pos h2, if_pos h2, this]
  · rw [if_neg h2, if_neg h2]

/-- The hosts of an IPv4 network of prefix length `p ≥ 1`, as `parseAllTargets`
returns them for the line `a/p` once the step budget covers the `2^(32-p)`
rounds of the loop: every address of the block in ascending order, the first
(network) and last (broadcast) address left out exactly when the block has more
than two addresses. (For `p = 0` the loop does not end.) -/
theorem parseAllTargets_cidr_eq (n p fuel : Nat) (hn : n < 4294967296) (hp1 : 1 ≤ p) (hp : p ≤ 32)
    (hfuel : 2 ^ (32 - p) ≤ fuel) :
    parseAllTargets fuel (IP.String (ipv4 n) ++ "/" ++ String.mk (Nat.toDigits 10 p)) =
      .done (if 2 < 2 ^ (32 - p) then
          (List.range' (n / 2 ^ (32 - p) * 2 ^ (32 - p) + 1) (2 ^ (32 - p) - 2)).map
            fun v => IP.String (ipv4 v)
        else
          (List.range' (n / 2 ^ (32 - p) * 2 ^ (32 - p)) (2 ^ (32 - p))).map
            fun v => IP.String (ipv4 v)) := by
  have hda := IP_String_ipv4_isDotDec n
  have hdp := prefix_digits_isDigit p hp
  have hline : (IP.String (ipv4 n) ++ "/" ++ String.mk (Nat.toDigits 10 p)).data =
      (IP.String (ipv4 n)).data ++ '/' :: Nat.toDigits 10 p := by
    simp [String.data_append]
  have hchars : ∀ c ∈ (IP.String (ipv4 n) ++ "/" ++ String.mk (Nat.toDigits 10 p)).data,
      isDotDec c = true ∨ c = '/' := by
    intro c hc
    rw [hline] at hc
    rcases List.mem_append.1 hc with hc | hc
    · exact Or.inl (hda c hc)
    · rcases List.mem_cons.1 hc with hc | hc
      · exact Or.inr hc
      · exact Or.inl (hdp c hc)
  have hnot : ∀ x : Char, isDotDec x = false → x ≠ '/' →
      x ∉ (IP.String (ipv4 n) ++ "/" ++ String.mk (Nat.toDigits 10 p)).data := by
    intro x hx hxd hmem
    rcases hchars x hmem with h | h
    · rw [hx] at h; cases h
    · exact hxd h
  have hsplit : Split (IP.String (ipv4 n) ++ "/" ++ String.mk (Nat.toDigits 10 p)) '\n' =
      [IP.String (ipv4 n) ++ "/" ++ String.mk (Nat.toDigits 10 p)] :=
    Split_eq_single _ _ (hnot '\n' (by decide) (by decide))
  have htrim : TrimSpace (IP.String (ipv4 n) ++ "/" ++ String.mk (Nat.toDigits 10 p)) =
      IP.String (ipv4 n) ++ "/" ++ String.mk (Nat.toDigits 10 p) := by
    apply TrimSpace_eq_self
    intro c hc
    rcases hchars c hc with h | h
    · exact isDotDec_not_space c h
    · subst h; decide
  have hnonempty : ¬ (IP.String (ipv4 n) ++ "/" ++ String.mk (Nat.toDigits 10 p) = "") := by
    intro h
    have := congrArg String.data h
    rw [hline] at this
    simp at this
  have hhash : HasPrefix (IP.String (ipv4 n) ++ "/" ++ String.mk (Nat.toDigits 10 p)) '#' =
      false := by
    unfold HasPrefix
    rw [hline]
    cases hs : (IP.String (ipv4 n)).data with
    | nil => exact absurd hs (IP_String_ipv4_ne_nil n)
    | cons c cs =>
      have hc : isDotDec c = true := hda c (by rw [hs]; exact List.mem_cons_self _ _)
      have : c ≠ '#' := isDotDec_ne c '#' hc (by decide)
      simp [this]
  have hslash : Contains (IP.String (ipv4 n) ++ "/" ++ String.mk (Nat.toDigits 10 p)) '/' =
      true := by
    unfold Contains
    rw [hline]
    simp
  have hexp := expandCIDR_ipv4 n p fuel hn hp1 hp hfuel
  unfold parseAllTargets
  rw [hsplit]
  simp only [parseLines, htrim, hnonempty, hhash, Bool.false_eq_true, or_self, if_false]
  unfold parseLine
  simp only [hslash, if_true, hexp, List.nil_append]

/-- The line `10.0.0.0/30` gives the two hosts of the block. -/
theorem parseAllTargets_cidr_example :
    parseAllTargets 4 "10.0.0.0/30" = .done ["10.0.0.1", "10.0.0.2"] := by
  have h := parseAllTargets_cidr_eq 167772160 30 4 (by decide) (by decide) (by decide)
    (by decide)
  have e1 : IP.String (ipv4 167772160) ++ "/" ++ String.mk (Nat.toDigits 10 30) =
      "10.0.0.0/30" := by decide
  rw [e1] at h
  rw [h]
  decide

/-- The hosts of an IPv4 network of prefix length `1 ≤ p ≤ 32`. With a step
budget of `2^(32-p)` rounds, `parseAllTargets` returns for the line `a/p` the
addresses of the block in ascending order, without the first and the last when
the block has more than two addresses: `2^(32-p) - 2` hosts for `p ≤ 30` (254
for a /24, 2 for a /30), both addresses of a /31 and the one address of a /32. -/
theorem parseAllTargets_cidr (n p : Nat) (hn : n < 4294967296) (hp1 : 1 ≤ p)
    (hp : p ≤ 32) :
    ∃ hosts, parseAllTargets (2 ^ (32 - p))
        (IP.String (ipv4 n) ++ "/" ++ String.mk (Nat.toDigits 10 p)) = .done hosts ∧
      hosts = (if 2 < 2 ^ (32 - p) then
          (List.range' (n / 2 ^ (32 - p) * 2 ^ (32 - p) + 1) (2 ^ (32 - p) - 2)).map
            fun v => IP.String (ipv4 v)
        else
          (List.range' (n / 2 ^ (32 - p) * 2 ^ (32 - p)) (2 ^ (32 - p))).map
            fun v => IP.String (ipv4 v)) ∧
      (p ≤ 30 → hosts.length = 2 ^ (32 - p) - 2) ∧
      (p = 31 → hosts.length = 2) ∧ (p = 32 → hosts.length = 1) := by
  refine ⟨_, parseAllTargets_cidr_eq n p _ hn hp1 hp (le_refl _), rfl, ?_, ?_, ?_⟩
  · intro h30
    have h4 : 2 ^ 2 ≤ 2 ^ (32 - p) := Nat.pow_le_pow_right (by decide) (by omega)
    have : 2 < 2 ^ (32 - p) := by omega
    simp [this]
  · rintro rfl
    simp
  · rintro rfl
    simp

/-- The examples of the specification: a /24 block has 254 hosts. -/
theorem parseAllTargets_cidr_witness :
    ∃ hosts, parseAllTargets 256 "10.0.0.0/24" = .done hosts ∧ hosts.length = 254 := by
  obtain ⟨hosts, hrun, _, hlen, _, _⟩ :=
    parseAllTargets_cidr 167772160 24 (by decide) (by decide) (by decide)
  have e1 : IP.String (ipv4 167772160) ++ "/" ++ String.mk (Nat.toDigits 10 24) =
      "10.0.0.0/24" := by decide
  rw [e1] at hrun
  exact ⟨hosts, hrun, hlen (by decide)⟩

/-- A list returned with a budget of 2 rounds is returned with a budget of 1000. -/
theorem parseAllTargets_mono_example :
    parseAllTargets 1000 "10.0.0.1-10.0.0.3\nexample.org" =
      .done ["10.0.0.1", "10.0.0.2", "10.0.0.3", "example.org"] :=
  parseAllTargets_mono 2 1000 "10.0.0.1-10.0.0.3\nexample.org"
    ["10.0.0.1", "10.0.0.2", "10.0.0.3", "example.org"] (by decide) (by decide)

/-! ## Identifiers rejected before the store is used -/

/-- C15. Invalid identifiers are rejected before the store is used. For every
store and whatever the connection does: `WorkerRename` with an empty old or new
name or with equal names returns code 400, `WorkerDelete` with an empty name
returns code 400, and `GetPocValidationResult` with an empty task id returns
`Success = false` with status `ERROR`. Each response is the same whatever the
store holds, and the store handed back, records and published messages alike,
is the one given. -/
theorem invalid_identifiers_rejected (env : Env) (c : Conn) (s : Store)
    (oldName newName : String)
    (h : oldName = "" ∨ newName = "" ∨ oldName = newName) :
    WorkerRename env c s oldName newName =
        .done ({ Code := 400,
                 Msg := if oldName = "" ∨ newName = "" then "Worker名称不能为空"
                        else "新旧名称相同" }, s) ∧
      WorkerDelete c s "" = ({ Code := 400, Msg := "Worker名称不能为空" }, s) ∧
      GetPocValidationResult env s "" =
        { Success := false, Message := "TaskId不能为空", Status := "ERROR" } := by
  refine ⟨?_, rfl, rfl⟩
  unfold WorkerRename
  by_cases h1 : oldName = "" ∨ newName = ""
  · rw [if_pos h1, if_pos h1]
  · rw [if_neg h1, if_neg h1]
    have h2 : oldName = newName := by
      rcases h with h | h | h
      · exact absurd (Or.inl h) h1
      · exact absurd (Or.inr h) h1
      · exact h
    rw [if_pos h2]

theorem invalid_identifiers_rejected_witness :
    (("w1" : String) = "" ∨ ("w1" : String) = "" ∨ ("w1" : String) = "w1") ∧
    (WorkerRename sampleEnv sampleConn sampleStore "w1" "w1" =
        .done ({ Code := 400, Msg := "新旧名称相同" }, sampleStore) ∧
      WorkerDelete sampleConn sampleStore "" =
        ({ Code := 400, Msg := "Worker名称不能为空" }, sampleStore) ∧
      GetPocValidationResult sampleEnv sampleStore "" =
        { Success := false, Message := "TaskId不能为空", Status := "ERROR" }) :=
  ⟨Or.inr (Or.inr rfl),
    invalid_identifiers_rejected sampleEnv sampleConn sampleStore "w1" "w1" (Or.inr (Or.inr rfl))⟩

/-! ## A result record that does not decode -/

/-- C18, as the code has it. For a non-empty task id whose result record is
there but does not decode, `GetPocValidationResult` returns `Success = false`
with the message `解析结果失败` and status `ERROR`, whatever the info record
holds; on the same store with the result record deleted the status is `RUNNING`
or `NOT_FOUND`, so the two outcomes differ. -/
theorem GetPocValidationResult_malformed (env : Env) (s : Store) (taskId data : String)
    (hid : taskId ≠ "")
    (hget : s.Get ("cscan:task:result:" ++ taskId) = some data)
    (hdec : env.UnmarshalMap data = .err) :
    GetPocValidationResult env s taskId =
        { Success := false, Message := "解析结果失败", Status := "ERROR" } ∧
      ((GetPocValidationResult env (s.Del ("cscan:task:result:" ++ taskId)) taskId).Status =
          "RUNNING" ∨
        (GetPocValidationResult env (s.Del ("cscan:task:result:" ++ taskId)) taskId).Status =
          "NOT_FOUND") := by
  constructor
  · unfold GetPocValidationResult
    rw [if_neg hid]
    simp only [hget, hdec]
  · have hnone : (s.Del ("cscan:task:result:" ++ taskId)).Get ("cscan:task:result:" ++ taskId) =
        none := by
      simp [Store.Get, Store.lookup_Del_self]
    unfold GetPocValidationResult
    rw [if_neg hid]
    simp only [hnone]
    cases hinfo : (s.Del ("cscan:task:result:" ++ taskId)).Get ("cscan:task:info:" ++ taskId) with
    | none => right; rfl
    | some info =>
      simp only []
      by_cases hne : info ≠ ""
      · rw [if_pos hne]
        cases hd : env.UnmarshalMap info with
        | err => right; rfl
        | nilMap =>
          simp only []
          split_ifs
          · left; rfl
          · right; rfl
        | map m =>
          simp only []
          split_ifs
          · left; rfl
          · right; rfl
      · rw [if_neg hne]
        right; rfl

/-- C18, a malformed result record is not the same as none. On the sample
store the result record of task `t1` is not JSON and the info record says
`STARTED`: the call answers `ERROR`, and on the store without the result record
it answers `RUNNING`. -/
theorem GetPocValidationResult_malformed_not_absence :
    GetPocValidationResult sampleEnv sampleStoreBadResult "t1" =
        { Success := false, Message := "解析结果失败", Status := "ERROR" } ∧
      GetPocValidationResult sampleEnv (sampleStoreBadResult.Del "cscan:task:result:t1") "t1" =
        { Success := true, Message := "任务执行中", Status := "RUNNING" } ∧
      GetPocValidationResult sampleEnv sampleStoreBadResult "t1" ≠
        GetPocValidationResult sampleEnv (sampleStoreBadResult.Del "cscan:task:result:t1") "t1" := by
  decide

theorem GetPocValidationResult_malformed_witness :
    (("t1" : String) ≠ "" ∧
      sampleStoreBadResult.Get ("cscan:task:result:" ++ "t1") = some "not json" ∧
      sampleEnv.UnmarshalMap "not json" = .err) ∧
    (GetPocValidationResult sampleEnv sampleStoreBadResult "t1" =
        { Success := false, Message := "解析结果失败", Status := "ERROR" } ∧
      ((GetPocValidationResult sampleEnv
            (sampleStoreBadResult.Del ("cscan:task:result:" ++ "t1")) "t1").Status = "RUNNING" ∨
        (GetPocValidationResult sampleEnv
            (sampleStoreBadResult.Del ("cscan:task:result:" ++ "t1")) "t1").Status =
          "NOT_FOUND")) :=
  ⟨⟨by decide, by decide, by simp [Env.UnmarshalMap, sampleEnv]⟩,
    GetPocValidationResult_malformed sampleEnv sampleStoreBadResult "t1" "not json"
      (by decide) (by decide) (by simp [Env.UnmarshalMap, sampleEnv])⟩

/-! ## splitter.go: lines passed through verbatim -/

theorem parseLines_single (fuel : Nat) (line : String) (htrim : TrimSpace line = line)
    (hne : line ≠ "") (hhash : HasPrefix line '#' = false) (out : List String)
    (h : parseLine fuel line = .done out) :
    parseLines fuel [line] [] = .done out := by
  unfold parseLines
  simp only [htrim, hne, hhash, false_or, Bool.false_eq_true, if_false, h]
  simp [parseLines]

theorem parseLine_verbatim (fuel : Nat) (line : String)
    (hcidr : ParseCIDR line = none)
    (hrange : ¬ (Contains line '/' = false ∧ (ParseIP ((Split line '-').headD "")).isSome ∧
      ∃ p0 p1, Split line '-' = [p0, p1] ∧
        (ParseIP (TrimSpace p0)).isSome ∧ (ParseIP (TrimSpace p1)).isSome)) :
    parseLine fuel line = .done [line] := by
  unfold parseLine
  by_cases hs : Contains line '/' = true
  · rw [if_pos hs]
    unfold expandCIDR
    rw [hcidr]
  · rw [if_neg hs]
    by_cases hg : Contains line '-' = true ∧ (ParseIP ((Split line '-').headD "")).isSome = true
    · rw [if_pos hg]
      unfold expandIPRange
      split
      · rename_i p0 p1 hsp
        split
        · rename_i startIP endIP h0 h1
          exfalso
          apply hrange
          refine ⟨by simpa using hs, hg.2, p0, p1, hsp, ?_, ?_⟩
          · rw [h0]; rfl
          · rw [h1]; rfl
        · rfl
      · rfl
    · rw [if_neg hg]

/-- The line `10.0.0.1- 10.0.0.3` is trimmed, not blank, not a comment and not
a valid CIDR; it has no `/`, the text before its one `-` is a valid IP, and the
part after the `-`, which starts with a blank, is not a valid IP. The line is
not handed back: `expandIPRange` trims each part before it parses it, and the
range is expanded. -/
theorem range_with_blank_expanded :
    TrimSpace "10.0.0.1- 10.0.0.3" = "10.0.0.1- 10.0.0.3" ∧
      HasPrefix "10.0.0.1- 10.0.0.3" '#' = false ∧
      ParseCIDR "10.0.0.1- 10.0.0.3" = none ∧
      Contains "10.0.0.1- 10.0.0.3" '/' = false ∧
      Split "10.0.0.1- 10.0.0.3" '-' = ["10.0.0.1", " 10.0.0.3"] ∧
      (ParseIP "10.0.0.1").isSome = true ∧
      ParseIP " 10.0.0.3" = none ∧
      parseAllTargets 5 "10.0.0.1- 10.0.0.3" = .done ["10.0.0.1", "10.0.0.2", "10.0.0.3"] ∧
      parseAllTargets 5 "10.0.0.1- 10.0.0.3" ≠ .done ["10.0.0.1- 10.0.0.3"] := by
  decide

/-- C12, with the parts of a range read as the code reads them. A line
without a line break that is trimmed, not blank and not a comment, that is not
a valid CIDR and not a range the code accepts (no `/`, the text before the
first `-` parses as an IP, and splitting on `-` gives exactly two parts which,
once the white space around each is trimmed, both parse as IPs), comes back
from `parseAllTargets` as the one-element list holding the line itself, with
any budget. -/
theorem parseAllTargets_verbatim (fuel : Nat) (line : String)
    (hnl : '\n' ∉ line.data) (htrim : TrimSpace line = line) (hne : line ≠ "")
    (hhash : HasPrefix line '#' = false)
    (hcidr : ParseCIDR line = none)
    (hrange : ¬ (Contains line '/' = false ∧ (ParseIP ((Split line '-').headD "")).isSome ∧
      ∃ p0 p1, Split line '-' = [p0, p1] ∧
        (ParseIP (TrimSpace p0)).isSome ∧ (ParseIP (TrimSpace p1)).isSome)) :
    parseAllTargets fuel line = .done [line] := by
  unfold parseAllTargets
  rw [Split_eq_single line '\n' hnl]
  exact parseLines_single fuel line htrim hne hhash [line]
    (parseLine_verbatim fuel line hcidr hrange)

/-- C12, on a CIDR that does not parse, a right side that is not an IP, a line
with two dashes, a hyphenated host name and a plain host. -/
theorem parseAllTargets_verbatim_witness :
    parseAllTargets 0 "10.0.0.0/33" = .done ["10.0.0.0/33"] ∧
    parseAllTargets 0 "10.0.0.1-abc" = .done ["10.0.0.1-abc"] ∧
    parseAllTargets 0 "10.0.0.1-10.0.0.2-10.0.0.3" = .done ["10.0.0.1-10.0.0.2-10.0.0.3"] ∧
    parseAllTargets 0 "web-01.example.com" = .done ["web-01.example.com"] ∧
    parseAllTargets 0 "example.com" = .done ["example.com"] :=
  ⟨parseAllTargets_verbatim 0 "10.0.0.0/33" (by decide) (by decide) (by decide) (by decide)
      (by decide) (by rintro ⟨h, -⟩; revert h; decide),
    parseAllTargets_verbatim 0 "10.0.0.1-abc" (by decide) (by decide) (by decide) (by decide)
      (by decide) (by
        rintro ⟨-, -, p0, p1, hsp, -, h1⟩
        have h : Split "10.0.0.1-abc" '-' = ["10.0.0.1", "abc"] := by decide
        rw [h] at hsp
        injection hsp with _ hsp
        injection hsp with hsp _
        subst hsp
        revert h1; decide),
    parseAllTargets_verbatim 0 "10.0.0.1-10.0.0.2-10.0.0.3" (by decide) (by decide) (by decide)
      (by decide) (by decide) (by
        rintro ⟨-, -, p0, p1, hsp, -, -⟩
        have h : Split "10.0.0.1-10.0.0.2-10.0.0.3" '-' = ["10.0.0.1", "10.0.0.2", "10.0.0.3"] := by
          decide
        rw [h] at hsp
        simp at hsp),
    parseAllTargets_verbatim 0 "web-01.example.com" (by decide) (by decide) (by decide)
      (by decide) (by decide) (by rintro ⟨-, h, -⟩; revert h; decide),
    parseAllTargets_verbatim 0 "example.com" (by decide) (by decide) (by decide)
      (by decide) (by decide) (by rintro ⟨-, h, -⟩; revert h; decide)⟩

/-! ## splitter.go: `incIP` as addition of one -/

theorem leVal_lt : ∀ bs : List Nat, (∀ b ∈ bs, b < 256) →
    bs.foldr (fun b acc => acc * 256 + b) 0 < 256 ^ bs.length := by
  intro bs
  induction bs with
  | nil => intro _; simp
  | cons b bs ih =>
    intro h
    have hb : b < 256 := h b (List.mem_cons_self _ _)
    have := ih (fun x hx => h x (List.mem_cons_of_mem _ hx))
    simp only [List.foldr_cons, List.length_cons, pow_succ]
    generalize 256 ^ bs.length = p at *
    generalize bs.foldr (fun b acc => acc * 256 + b) 0 = v at *
    omega

theorem incIPRev_bytes : ∀ bs : List Nat, (∀ b ∈ bs, b < 256) → ∀ b ∈ incIPRev bs, b < 256 := by
  intro bs
  induction bs with
  | nil => intro _ b hb; simp [incIPRev] at hb
  | cons x bs ih =>
    intro h b hb
    simp only [incIPRev] at hb
    split at hb
    · rcases List.mem_cons.1 hb with h1 | h1
      · rw [h1]; exact Nat.mod_lt _ (by decide)
      · exact h b (List.mem_cons_of_mem _ h1)
    · rcases List.mem_cons.1 hb with h1 | h1
      · rw [h1]; exact Nat.mod_lt _ (by decide)
      · exact ih (fun y hy => h y (List.mem_cons_of_mem _ hy)) b h1

theorem incIPRev_val : ∀ bs : List Nat, (∀ b ∈ bs, b < 256) →
    (incIPRev bs).foldr (fun b acc => acc * 256 + b) 0 =
      (bs.foldr (fun b acc => acc * 256 + b) 0 + 1) % 256 ^ bs.length := by
  intro bs
  induction bs with
  | nil => intro _; simp [incIPRev]
  | cons b bs ih =>
    intro h
    have hb : b < 256 := h b (List.mem_cons_self _ _)
    have hbs := fun x hx => h x (List.mem_cons_of_mem _ hx)
    have hlt := leVal_lt bs hbs
    have ih1 := ih hbs
    simp only [incIPRev]
    by_cases hc : (b + 1) % 256 > 0
    · rw [if_pos hc]
      simp only [List.foldr_cons, List.length_cons, pow_succ]
      have hb1 : b + 1 < 256 := by omega
      rw [Nat.mod_eq_of_lt hb1]
      symm
      have : bs.foldr (fun b acc => acc * 256 + b) 0 * 256 + b + 1 < 256 ^ bs.length * 256 := by
        generalize 256 ^ bs.length = p at *
        generalize bs.foldr (fun b acc => acc * 256 + b) 0 = v at *
        omega
      rw [Nat.mod_eq_of_lt this]
      omega
    · rw [if_neg hc]
      have hb1 : b = 255 := by omega
      subst hb1
      simp only [List.foldr_cons, List.length_cons, pow_succ, ih1]
      have : bs.foldr (fun b acc => acc * 256 + b) 0 * 256 + 255 + 1 =
          (bs.foldr (fun b acc => acc * 256 + b) 0 + 1) * 256 := by ring
      rw [this, Nat.mul_mod_mul_right]
      have h0 : (255 + 1) % 256 = 0 := by decide
      rw [h0, Nat.add_zero]

theorem beVal_eq_foldr (ip : List Nat) :
    beVal ip = ip.reverse.foldr (fun b acc => acc * 256 + b) 0 := by
  simp [beVal, List.foldr_reverse]

theorem incIPRev_carry (b : Nat) (hb : b < 255) (rest : List Nat) :
    ∀ k : Nat, incIPRev (List.replicate k 255 ++ b :: rest) =
      List.replicate k 0 ++ (b + 1) :: rest := by
  intro k
  induction k with
  | zero =>
    have h1 : (b + 1) % 256 = b + 1 := Nat.mod_eq_of_lt (by omega)
    simp [incIPRev, h1]
  | succ k ih =>
    have h0 : ¬ (255 + 1) % 256 > 0 := by decide
    have h1 : (255 + 1) % 256 = 0 := by decide
    show incIPRev (255 :: (List.replicate k 255 ++ b :: rest)) = _
    rw [incIPRev, if_neg h0, ih, h1]
    rfl

theorem incIPRev_all_ones : ∀ k : Nat, incIPRev (List.replicate k 255) = List.replicate k 0 := by
  intro k
  induction k with
  | zero => rfl
  | succ k ih =>
    have h0 : ¬ (255 + 1) % 256 > 0 := by decide
    have h1 : (255 + 1) % 256 = 0 := by decide
    show incIPRev (255 :: List.replicate k 255) = _
    rw [incIPRev, if_neg h0, ih, h1]
    rfl

/-- C19. For a slice of bytes `ip` (every entry below 256) of any length `n`,
`incIP` keeps the length and the byte range, and the big-endian value of the
result is the value of `ip` plus one, modulo `2^(8n)`. The carry runs through
the trailing `0xFF` bytes only: `pre ++ [b] ++ [0xFF]*k` with `b < 0xFF` becomes
`pre ++ [b+1] ++ [0]*k`, and `[0xFF]*k` becomes `[0]*k`. Nothing depends on the
length being 4 or 16. -/
theorem incIP_succ (ip : IP) (h : ∀ b ∈ ip, b < 256) :
    (incIP ip).length = ip.length ∧
      (∀ b ∈ incIP ip, b < 256) ∧
      beVal (incIP ip) = (beVal ip + 1) % 2 ^ (8 * ip.length) ∧
      (∀ (pre : List Nat) (b k : Nat), b < 255 → ip = pre ++ b :: List.replicate k 255 →
        incIP ip = pre ++ (b + 1) :: List.replicate k 0) ∧
      (∀ k : Nat, ip = List.replicate k 255 → incIP ip = List.replicate k 0) := by
  have hrev : ∀ b ∈ ip.reverse, b < 256 := fun b hb => h b (List.mem_reverse.1 hb)
  refine ⟨incIP_length ip, ?_, ?_, ?_, ?_⟩
  · intro b hb
    unfold incIP at hb
    exact incIPRev_bytes ip.reverse hrev b (List.mem_reverse.1 hb)
  · rw [beVal_eq_foldr, beVal_eq_foldr]
    unfold incIP
    rw [List.reverse_reverse, incIPRev_val ip.reverse hrev, List.length_reverse, pow_mul]
    rfl
  · intro pre b k hb hip
    unfold incIP
    rw [hip]
    simp only [List.reverse_append, List.reverse_cons, List.reverse_replicate,
      List.append_assoc, List.singleton_append]
    rw [incIPRev_carry b hb pre.reverse k]
    simp
  · intro k hip
    unfold incIP
    rw [hip, List.reverse_replicate, incIPRev_all_ones, List.reverse_replicate]

theorem incIP_succ_witness :
    (incIP [10, 0, 255, 255] = [10, 1, 0, 0] ∧
      beVal (incIP [10, 0, 255, 255]) = (beVal [10, 0, 255, 255] + 1) % 2 ^ (8 * 4)) ∧
    (incIP [255, 255, 255, 255] = [0, 0, 0, 0] ∧
      beVal (incIP [255, 255, 255, 255]) = 0) ∧
    (incIP [32, 1, 13, 184, 0, 0, 0, 0, 0, 0, 0, 0, 0, 0, 255, 255] =
        [32, 1, 13, 184, 0, 0, 0, 0, 0, 0, 0, 0, 0, 1, 0, 0] ∧
      beVal (incIP [32, 1, 13, 184, 0, 0, 0, 0, 0, 0, 0, 0, 0, 0, 255, 255]) =
        (beVal [32, 1, 13, 184, 0, 0, 0, 0, 0, 0, 0, 0, 0, 0, 255, 255] + 1) % 2 ^ (8 * 16)) :=
  ⟨⟨(incIP_succ [10, 0, 255, 255] (by decide)).2.2.2.1 [10] 0 2 (by decide) rfl,
      (incIP_succ [10, 0, 255, 255] (by decide)).2.2.1⟩,
    ⟨(incIP_succ [255, 255, 255, 255] (by decide)).2.2.2.2 4 rfl,
      (incIP_succ [255, 255, 255, 255] (by decide)).2.2.1⟩,
    ⟨(incIP_succ [32, 1, 13, 184, 0, 0, 0, 0, 0, 0, 0, 0, 0, 0, 255, 255] (by decide)).2.2.2.1
        [32, 1, 13, 184, 0, 0, 0, 0, 0, 0, 0, 0, 0] 0 2 (by decide) rfl,
      (incIP_succ [32, 1, 13, 184, 0, 0, 0, 0, 0, 0, 0, 0, 0, 0, 255, 255] (by decide)).2.2.1⟩⟩

/-! ## workerlogic.go: records that cannot be used are skipped -/

theorem filterMap_congr_mem {α β : Type} (f g : α → Option β) : ∀ l : List α,
    (∀ x ∈ l, f x = g x) → l.filterMap f = l.filterMap g := by
  intro l
  induction l with
  | nil => intro _; rfl
  | cons a l ih =>
    intro h
    rw [List.filterMap_cons, List.filterMap_cons, h a (List.mem_cons_self _ _),
      ih fun x hx => h x (List.mem_cons_of_mem _ hx)]

theorem readWorker_answered (env : Env) (c : Conn) (s : Store) (i : Nat) (k : String)
    (h : c.fault i = none) : readWorker env c s i k = storedWorker env s k := by
  unfold readWorker storedWorker Conn.Get
  simp only [h]

theorem storedWorker_corrupt (env : Env) (s : Store) (k : String) :
    corruptWorker env s k = (storedWorker env s k).isNone := by
  unfold corruptWorker storedWorker
  cases s.Get k with
  | none => rfl
  | some data =>
    simp only []
    cases env.UnmarshalWorkerStatus data <;> rfl

theorem storedWorker_filter (env : Env) (s : Store) : ∀ keys : List String,
    keys.filterMap (storedWorker env s) =
      (keys.filter fun k => !corruptWorker env s k).filterMap (storedWorker env s) := by
  intro keys
  induction keys with
  | nil => rfl
  | cons k ks ih =>
    cases h : storedWorker env s k with
    | none =>
      have hc : corruptWorker env s k = true := by rw [storedWorker_corrupt, h]; rfl
      rw [List.filter_cons_of_neg (by simp [hc]), List.filterMap_cons_none h, ih]
    | some w =>
      have hc : corruptWorker env s k = false := by rw [storedWorker_corrupt, h]; rfl
      rw [List.filter_cons_of_pos (by simp [hc]), List.filterMap_cons_some h,
        List.filterMap_cons_some h, ih]

theorem storedWorker_length (env : Env) (s : Store) : ∀ keys : List String,
    (keys.filterMap (storedWorker env s)).length =
      (keys.filter fun k => !corruptWorker env s k).length := by
  intro keys
  induction keys with
  | nil => rfl
  | cons k ks ih =>
    cases h : storedWorker env s k with
    | none =>
      have hc : corruptWorker env s k = true := by rw [storedWorker_corrupt, h]; rfl
      rw [List.filter_cons_of_neg (by simp [hc]), List.filterMap_cons_none h, ih]
    | some w =>
      have hc : corruptWorker env s k = false := by rw [storedWorker_corrupt, h]; rfl
      rw [List.filter_cons_of_pos (by simp [hc]), List.filterMap_cons_some h,
        List.length_cons, List.length_cons, ih]

theorem lookup_filter_key (p : String → Bool) : ∀ (kv : List (String × Value)) (k : String),
    p k = true → (kv.filter fun e => p e.1).lookup k = kv.lookup k := by
  intro kv
  induction kv with
  | nil => intro k _; rfl
  | cons e kv ih =>
    intro k hk
    obtain ⟨a, v⟩ := e
    by_cases hak : k = a
    · subst hak
      rw [List.filter_cons_of_pos (by simpa using hk)]
      simp [List.lookup]
    · have hbeq : (k == a) = false := by simpa using hak
      by_cases hp : p a = true
      · rw [List.filter_cons_of_pos (by simpa using hp)]
        simp only [List.lookup, hbeq]
        exact ih k hk
      · rw [List.filter_cons_of_neg (by simpa using hp)]
        simp only [List.lookup, hbeq]
        exact ih k hk

theorem dropCorruptWorkers_Get (env : Env) (s : Store) (k : String)
    (hk : corruptWorker env s k = false) :
    (dropCorruptWorkers env s).Get k = s.Get k := by
  unfold Store.Get Store.lookup dropCorruptWorkers
  simp only []
  rw [lookup_filter_key (fun a => !("worker:".data.isPrefixOf a.data && corruptWorker env s a))
    s.kv k (by simp [hk])]

theorem dropCorruptWorkers_Keys (env : Env) (s : Store) :
    (dropCorruptWorkers env s).Keys "worker:" =
      (s.Keys "worker:").filter fun k => !corruptWorker env s k := by
  unfold Store.Keys dropCorruptWorkers
  simp only []
  generalize s.kv = kv
  induction kv with
  | nil => rfl
  | cons e kv ih =>
    obtain ⟨a, v⟩ := e
    by_cases hp : "worker:".data.isPrefixOf a.data = true
    · by_cases hc : corruptWorker env s a = true
      · simp [List.filter_cons, hp, hc]
        simpa using ih
      · simp [List.filter_cons, hp, hc]
        simpa using ih
    · simp [List.filter_cons, hp]
      simpa using ih

theorem dropCorruptWorkers_stored (env : Env) (s : Store) (k : String)
    (hk : corruptWorker env s k = false) :
    storedWorker env (dropCorruptWorkers env s) k = storedWorker env s k := by
  unfold storedWorker
  rw [dropCorruptWorkers_Get env s k hk]

/-- The list of `WorkerList` when `KEYS` and every `GET` are answered: the
entries of the records of the reply, in reply order. -/
theorem WorkerList_List (env : Env) (c : Conn) (s : Store)
    (hok : ∀ i, 1 ≤ i → c.fault i = none) :
    (WorkerList env c s).1.List =
      (c.keysOrder (s.Keys "worker:")).filterMap (storedWorker env s) := by
  rw [WorkerList_answered env c s (hok 1 (Nat.le_refl 1))]
  show (List.enumFrom 2 _).filterMap _ = _
  rw [filterMap_congr_mem (fun e : Nat × String => readWorker env c s e.1 e.2)
    (fun e => storedWorker env s e.2) _
    (fun e he => readWorker_answered env c s e.1 e.2
      (hok e.1 (Nat.le_trans (by decide) (List.le_fst_of_mem_enumFrom he))))]
  have h := List.filterMap_map (Prod.snd : Nat × String → String) (storedWorker env s)
    (List.enumFrom 2 (c.keysOrder (s.Keys "worker:")))
  rw [List.enumFrom_map_snd] at h
  rw [h]
  rfl

/-- C16, with the condition the code needs. Whenever the `KEYS` command is
answered, `WorkerList` returns code 0 and its list has one entry for each key
of the reply whose `GET` returns a record that decodes, in reply order: a
record that cannot be read or does not decode is skipped. When every `GET` is
answered too, the list has exactly one entry for each key of the reply whose
record is well formed, and it is the list of a call, answered as well, on the
same store with the corrupt worker records removed: the same list when the
second reply lists the remaining keys in the order of the first, and the same
up to order when each reply lists the matching keys once each, in whatever
order. The store with the corrupt records removed has none left. -/
theorem WorkerList_skips_corrupt (env : Env) (c : Conn) (s : Store) (hkeys : c.fault 1 = none) :
    (WorkerList env c s).1.Code = 0 ∧
    (WorkerList env c s).1.List =
      (List.enumFrom 2 (c.keysOrder (s.Keys "worker:"))).filterMap
        (fun e => readWorker env c s e.1 e.2) ∧
    ((∀ i, 2 ≤ i → c.fault i = none) →
      (WorkerList env c s).1.List.length =
        ((c.keysOrder (s.Keys "worker:")).filter fun k => !corruptWorker env s k).length ∧
      ∀ c1 : Conn, (∀ i, 1 ≤ i → c1.fault i = none) →
        (c1.keysOrder ((dropCorruptWorkers env s).Keys "worker:") =
            (c.keysOrder (s.Keys "worker:")).filter (fun k => !corruptWorker env s k) →
          (WorkerList env c s).1.List =
            (WorkerList env c1 (dropCorruptWorkers env s)).1.List) ∧
        ((c.keysOrder (s.Keys "worker:")).Perm (s.Keys "worker:") →
          (c1.keysOrder ((dropCorruptWorkers env s).Keys "worker:")).Perm
            ((dropCorruptWorkers env s).Keys "worker:") →
          (WorkerList env c s).1.List.Perm
            (WorkerList env c1 (dropCorruptWorkers env s)).1.List)) ∧
    (∀ k ∈ (dropCorruptWorkers env s).Keys "worker:",
      corruptWorker env (dropCorruptWorkers env s) k = false) := by
  have hkeep : ∀ (l : List String), ∀ k ∈ l.filter (fun k => !corruptWorker env s k),
      corruptWorker env s k = false := by
    intro l k hk
    have := (List.mem_filter.1 hk).2
    simpa using this
  refine ⟨?_, ?_, ?_, ?_⟩
  · rw [WorkerList_answered env c s hkeys]
  · rw [WorkerList_answered env c s hkeys]
  · intro hget
    have hok : ∀ i, 1 ≤ i → c.fault i = none := by
      intro i hi
      by_cases h1 : i = 1
      · rw [h1]; exact hkeys
      · exact hget i (by omega)
    refine ⟨?_, ?_⟩
    · rw [WorkerList_List env c s hok, storedWorker_length]
    · intro c1 hok1
      constructor
      · intro horder
        rw [WorkerList_List env c s hok, WorkerList_List env c1 _ hok1, horder,
          storedWorker_filter]
        exact filterMap_congr_mem _ _ _
          (fun k hk => (dropCorruptWorkers_stored env s k (hkeep _ k hk)).symm)
      · intro hperm hperm1
        rw [WorkerList_List env c s hok, WorkerList_List env c1 _ hok1]
        have h1 : ((c.keysOrder (s.Keys "worker:")).filterMap (storedWorker env s)).Perm
            (((s.Keys "worker:").filter fun k => !corruptWorker env s k).filterMap
              (storedWorker env s)) := by
          rw [← storedWorker_filter]
          exact hperm.filterMap _
        have h2 : ((c1.keysOrder ((dropCorruptWorkers env s).Keys "worker:")).filterMap
            (storedWorker env (dropCorruptWorkers env s))).Perm
            (((s.Keys "worker:").filter fun k => !corruptWorker env s k).filterMap
              (storedWorker env s)) := by
          have h3 := hperm1.filterMap (storedWorker env (dropCorruptWorkers env s))
          have h4 : ((dropCorruptWorkers env s).Keys "worker:").filterMap
              (storedWorker env (dropCorruptWorkers env s)) =
              ((s.Keys "worker:").filter fun k => !corruptWorker env s k).filterMap
                (storedWorker env s) := by
            rw [dropCorruptWorkers_Keys]
            exact filterMap_congr_mem _ _ _
              (fun k hk => dropCorruptWorkers_stored env s k (hkeep _ k hk))
          rw [h4] at h3
          exact h3
        exact h1.trans h2.symm
  · intro k hk
    rw [dropCorruptWorkers_Keys] at hk
    have h1 := hkeep _ k hk
    unfold corruptWorker at h1 ⊢
    rw [dropCorruptWorkers_Get env s k (hkeep _ k hk)]
    exact h1

/-- C16, on the sample fleet with a record that is not JSON between two that
decode: with every command answered the call returns code 0 with two entries,
the list of the call on the fleet without the corrupt record, and the same
entries as that call gives when its reply lists the keys in reverse. -/
theorem WorkerList_skips_corrupt_witness :
    (WorkerList sampleEnv sampleConn sampleFleetCorrupt).1.Code = 0 ∧
    (WorkerList sampleEnv sampleConn sampleFleetCorrupt).1.List.length = 2 ∧
    (WorkerList sampleEnv sampleConn sampleFleetCorrupt).1.List =
      (WorkerList sampleEnv sampleConn (dropCorruptWorkers sampleEnv sampleFleetCorrupt)).1.List ∧
    (WorkerList sampleEnv sampleConn sampleFleetCorrupt).1.List.Perm
      (WorkerList sampleEnv sampleConnRev
        (dropCorruptWorkers sampleEnv sampleFleetCorrupt)).1.List :=
  ⟨(WorkerList_skips_corrupt sampleEnv sampleConn sampleFleetCorrupt rfl).1,
    ((WorkerList_skips_corrupt sampleEnv sampleConn sampleFleetCorrupt rfl).2.2.1
      (fun _ _ => rfl)).1.trans (by decide),
    (((WorkerList_skips_corrupt sampleEnv sampleConn sampleFleetCorrupt rfl).2.2.1
      (fun _ _ => rfl)).2 sampleConn (fun _ _ => rfl)).1 (by decide),
    (((WorkerList_skips_corrupt sampleEnv sampleConn sampleFleetCorrupt rfl).2.2.1
      (fun _ _ => rfl)).2 sampleConnRev (fun _ _ => rfl)).2 (List.Perm.refl _)
      (List.reverse_perm _)⟩

/-- The fleet holds two records that decode next to one that is not JSON, and
the `KEYS` command times out: `WorkerList` returns code 500 and no entry. -/
theorem listing_fails_on_failed_keys :
    sampleFleetCorrupt.Keys "worker:" = ["worker:w1", "worker:w3", "worker:w2"] ∧
      corruptWorker sampleEnv sampleFleetCorrupt "worker:w1" = false ∧
      corruptWorker sampleEnv sampleFleetCorrupt "worker:w2" = false ∧
      (WorkerList sampleEnv (sampleConnLost 1) sampleFleetCorrupt).1 =
        { Code := 500, Msg := "查询失败", List := [] } := by
  decide

theorem listing_corrupt_example :
    (dropCorruptWorkers sampleEnv sampleFleetCorrupt).kv = sampleFleet.kv ∧
      (WorkerList sampleEnv sampleConn sampleFleetCorrupt).1 =
        (WorkerList sampleEnv sampleConn sampleFleet).1 ∧
      (WorkerList sampleEnv sampleConn sampleFleetCorrupt).1.List.map (fun w => w.Name) =
        ["w1", "w2"] ∧
      (WorkerList sampleEnv (sampleConnLost 3) sampleFleetCorrupt).1.List.map
        (fun w => w.Name) = ["w1", "w2"] ∧
      (WorkerList sampleEnv (sampleConnLost 2) sampleFleetCorrupt).1.List.map
        (fun w => w.Name) = ["w2"] := by
  decide

/-- The running count is computed on 64-bit integers: a record with
`TaskStartedNumber = -2^63` and `TaskExecutedNumber = 1` is listed with the
running count `2^63 - 1`. -/
theorem running_count_wraps_example :
    (workerEntry sampleEnv "worker:w1"
      { WorkerName := "w1", IP := "", CPULoad := 0, MemUsed := 0,
        TaskStartedNumber := -9223372036854775808, TaskExecutedNumber := 1,
        UpdateTime := "" }).RunningCount = 9223372036854775807 := by
  decide

/-! ## validatepoclogic.go: the enqueue and its one repair -/

theorem info_ne_queue (id : String) : "cscan:task:info:" ++ id ≠ "cscan:task:queue" := by
  intro he
  have := congrArg String.data he
  simp only [String.data_append] at this
  have h11 := congrArg (fun l => l.get? 11) this
  revert h11
  have e1 : ("cscan:task:info:".data ++ id.data).get? 11 = some 'i' := by
    show (['c', 's', 'c', 'a', 'n', ':', 't', 'a', 's', 'k', ':', 'i', 'n', 'f', 'o', ':'] ++
      id.data).get? 11 = some 'i'
    rfl
  have e2 : "cscan:task:queue".data.get? 11 = some 'q' := by decide
  simp only [e1, e2]
  decide

theorem PocCall.zadd_error_store (call : PocCall) (i : Nat) (s : Store) (key : String)
    (score : Int) (member e : String) (h : (call.zadd i s key score member).1 = some e) :
    (call.zadd i s key score member).2 = s := by
  unfold PocCall.zadd at h ⊢
  cases hf : call.fault i with
  | some e1 => rfl
  | none =>
    rw [hf] at h
    simp only [] at h ⊢
    cases hz : s.ZAdd key score member with
    | error e2 => rfl
    | ok s1 => rw [hz] at h; cases h

theorem Store.ZAdd_wrongtype (s : Store) (key : String) (score : Int) (member : String)
    (v : Value) (hv : s.lookup key = some v) (hz : ∀ ms, v ≠ .zset ms) :
    s.ZAdd key score member = .error WRONGTYPE := by
  unfold Store.ZAdd
  rw [hv]
  cases v with
  | str d t => rfl
  | zset ms => exact absurd rfl (hz ms)
  | other => rfl

theorem Store.ZAdd_missing (s : Store) (key : String) (score : Int) (member : String)
    (hv : s.lookup key = none) :
    s.ZAdd key score member =
      .ok { s with kv := s.kv ++ [(key, .zset [(score, member)])] } := by
  unfold Store.ZAdd
  rw [hv]

theorem lookup_append_self (kv : List (String × Value)) (key : String) (v : Value)
    (h : kv.lookup key = none) : (kv ++ [(key, v)]).lookup key = some v := by
  rw [lookup_append_of_none _ _ _ _ h]
  simp [List.lookup]

theorem PocCall.set_lookup_ne (call : PocCall) (i : Nat) (s : Store) (key data : String)
    (ttl : Option Nat) (k : String) (h : k ≠ key) :
    (call.set i s key data ttl).lookup k = s.lookup k := by
  unfold PocCall.set
  cases call.fault i with
  | some e => rfl
  | none => exact Store.lookup_Set_ne s key data ttl k h

theorem ValidatePoc_of_enqueue_ok (env : Env) (call : PocCall) (s s1 : Store)
    (req : ValidatePocReq) (cmds : List Cmd)
    (h : ValidatePoc.enqueue call s req = (none, s1, cmds)) :
    ValidatePoc env call s req =
      ({ Success := true, Message := "POC验证任务已下发", Matched := false, TaskId := call.uuid },
        call.set cmds.length s1 ("cscan:task:info:" ++ call.uuid)
          (env.encodeMap (pocTaskInfo call req)) (some (24 * 3600 * 1000000000)),
        cmds ++ [.set ("cscan:task:info:" ++ call.uuid) (env.encodeMap (pocTaskInfo call req))
          (some (24 * 3600 * 1000000000))]) := by
  unfold ValidatePoc
  rw [h]

theorem ValidatePoc_of_enqueue_error (env : Env) (call : PocCall) (s s1 : Store)
    (req : ValidatePocReq) (cmds : List Cmd) (e : String)
    (h : ValidatePoc.enqueue call s req = (some e, s1, cmds)) :
    ValidatePoc env call s req =
      ({ Success := false, Message := "任务入队失败: " ++ e, Matched := false }, s1, cmds) := by
  unfold ValidatePoc
  rw [h]

theorem enqueue_first_error (call : PocCall) (s : Store) (req : ValidatePocReq) (e : String)
    (h : (call.zadd 0 s "cscan:task:queue" (float64OfInt64 call.unixNano)
      (call.marshalTask (pocTask call req))).1 = some e) (hne : e ≠ WRONGTYPE) :
    ValidatePoc.enqueue call s req =
      (some e, s, [.zadd "cscan:task:queue" (float64OfInt64 call.unixNano)
        (call.marshalTask (pocTask call req))]) := by
  have hs := PocCall.zadd_error_store call 0 s _ _ _ e h
  unfold ValidatePoc.enqueue
  simp only []
  generalize call.zadd 0 s "cscan:task:queue" (float64OfInt64 call.unixNano)
    (call.marshalTask (pocTask call req)) = r at h hs
  obtain ⟨r1, r2⟩ := r
  simp only [] at h hs
  subst h hs
  simp only [hne, if_false]

theorem enqueue_retry (call : PocCall) (s : Store) (req : ValidatePocReq)
    (h : (call.zadd 0 s "cscan:task:queue" (float64OfInt64 call.unixNano)
      (call.marshalTask (pocTask call req))).1 = some WRONGTYPE) :
    ValidatePoc.enqueue call s req =
      ((call.zadd 2 (call.del 1 s "cscan:task:queue") "cscan:task:queue"
          (float64OfInt64 call.unixNano) (call.marshalTask (pocTask call req))).1,
        (call.zadd 2 (call.del 1 s "cscan:task:queue") "cscan:task:queue"
          (float64OfInt64 call.unixNano) (call.marshalTask (pocTask call req))).2,
        [.zadd "cscan:task:queue" (float64OfInt64 call.unixNano)
            (call.marshalTask (pocTask call req)),
          .del "cscan:task:queue",
          .zadd "cscan:task:queue" (float64OfInt64 call.unixNano)
            (call.marshalTask (pocTask call req))]) := by
  have hs := PocCall.zadd_error_store call 0 s _ _ _ WRONGTYPE h
  unfold ValidatePoc.enqueue
  simp only []
  generalize call.zadd 0 s "cscan:task:queue" (float64OfInt64 call.unixNano)
    (call.marshalTask (pocTask call req)) = r at h hs
  obtain ⟨r1, r2⟩ := r
  simp only [] at h hs
  subst h hs
  simp only [if_true]

theorem retry_ok_store (call : PocCall) (s : Store) (score : Int) (member : String) (v : Value)
    (hv : s.lookup "cscan:task:queue" = some v) (hz : ∀ ms, v ≠ .zset ms)
    (hretry : (call.zadd 2 (call.del 1 s "cscan:task:queue") "cscan:task:queue" score
      member).1 = none) :
    (call.zadd 2 (call.del 1 s "cscan:task:queue") "cscan:task:queue" score member).2.lookup
      "cscan:task:queue" = some (.zset [(score, member)]) := by
  unfold PocCall.zadd PocCall.del at hretry ⊢
  cases h2 : call.fault 2 with
  | some e => rw [h2] at hretry; cases hretry
  | none =>
    rw [h2] at hretry
    simp only [] at hretry ⊢
    cases h1 : call.fault 1 with
    | some e =>
      rw [h1] at hretry
      simp only [] at hretry
      rw [Store.ZAdd_wrongtype s _ _ _ v hv hz] at hretry
      cases hretry
    | none =>
      simp only []
      rw [Store.ZAdd_missing _ _ _ _ (Store.lookup_Del_self s "cscan:task:queue")]
      exact lookup_append_self _ _ _ (Store.lookup_Del_self s "cscan:task:queue")

/-- C13. When the queue key holds a value that is not a sorted set and the
store answers the first `ZADD` (so that it fails with the wrong-type error),
`ValidatePoc` sends `DEL` on the queue key and then the same `ZADD` once more.
When that second `ZADD` succeeds, the commands sent are exactly `ZADD`, `DEL`,
`ZADD` and the `SET` of the task-info record, the response is `Success = true`
with the generated task id, and the queue key holds a sorted set whose only
member is the new task, under the score of the call. -/
theorem ValidatePoc_self_heal (env : Env) (call : PocCall) (s : Store) (req : ValidatePocReq)
    (v : Value)
    (hv : s.lookup "cscan:task:queue" = some v) (hz : ∀ ms, v ≠ .zset ms)
    (h0 : call.fault 0 = none)
    (hretry : (call.zadd 2 (call.del 1 s "cscan:task:queue") "cscan:task:queue"
      (float64OfInt64 call.unixNano) (call.marshalTask (pocTask call req))).1 = none) :
    (ValidatePoc env call s req).1 =
        { Success := true, Message := "POC验证任务已下发", Matched := false,
          TaskId := call.uuid } ∧
      (ValidatePoc env call s req).2.2 =
        [.zadd "cscan:task:queue" (float64OfInt64 call.unixNano)
            (call.marshalTask (pocTask call req)),
          .del "cscan:task:queue",
          .zadd "cscan:task:queue" (float64OfInt64 call.unixNano)
            (call.marshalTask (pocTask call req)),
          .set ("cscan:task:info:" ++ call.uuid) (env.encodeMap (pocTaskInfo call req))
            (some (24 * 3600 * 1000000000))] ∧
      (ValidatePoc env call s req).2.1.lookup "cscan:task:queue" =
        some (.zset [(float64OfInt64 call.unixNano, call.marshalTask (pocTask call req))]) := by
  have hfirst : (call.zadd 0 s "cscan:task:queue" (float64OfInt64 call.unixNano)
      (call.marshalTask (pocTask call req))).1 = some WRONGTYPE := by
    unfold PocCall.zadd
    rw [h0]
    simp only []
    rw [Store.ZAdd_wrongtype s _ _ _ v hv hz]
  have henq := enqueue_retry call s req hfirst
  rw [hretry] at henq
  rw [ValidatePoc_of_enqueue_ok env call s _ req _ henq]
  refine ⟨rfl, rfl, ?_⟩
  simp only []
  rw [PocCall.set_lookup_ne _ _ _ _ _ _ _ (info_ne_queue call.uuid).symm]
  exact retry_ok_store call s _ _ v hv hz hretry

theorem ValidatePoc_self_heal_witness :
    sampleStoreOldQueue.lookup "cscan:task:queue" = some (.str "old" none) ∧
    (ValidatePoc sampleEnv (sampleCall "a1" 1700000000000000000) sampleStoreOldQueue
        sampleReq).1 =
      { Success := true, Message := "POC验证任务已下发", Matched := false, TaskId := "a1" } ∧
    (ValidatePoc sampleEnv (sampleCall "a1" 1700000000000000000) sampleStoreOldQueue
        sampleReq).2.1.lookup "cscan:task:queue" =
      some (.zset [(1700000000000000000, "\x7b\"taskId\":\"a1\"\x7d")]) :=
  have h := ValidatePoc_self_heal sampleEnv (sampleCall "a1" 1700000000000000000)
    sampleStoreOldQueue sampleReq (.str "old" none) (by decide) (by intro ms h; cases h) rfl
    (by decide)
  ⟨by decide, h.1, h.2.2⟩

/-- C14. When the enqueue of `ValidatePoc` fails in the end with the error `e`,
because the first `ZADD` fails with `e` other than the wrong-type error or
because it fails with the wrong-type error and the one repeated `ZADD` fails
with `e`, the response is `Success = false` with the message naming `e` and an
empty `TaskId`. The commands sent are the one `ZADD` in the first case and
`ZADD`, `DEL`, `ZADD` in the second: nothing is tried again after that and no
`SET` is sent, so the task-info key of the new task holds what it held before
the call (nothing, when it did not exist). -/
theorem ValidatePoc_enqueue_failure (env : Env) (call : PocCall) (s : Store)
    (req : ValidatePocReq) (e : String)
    (hfail :
      ((call.zadd 0 s "cscan:task:queue" (float64OfInt64 call.unixNano)
          (call.marshalTask (pocTask call req))).1 = some e ∧ e ≠ WRONGTYPE) ∨
      ((call.zadd 0 s "cscan:task:queue" (float64OfInt64 call.unixNano)
          (call.marshalTask (pocTask call req))).1 = some WRONGTYPE ∧
        (call.zadd 2 (call.del 1 s "cscan:task:queue") "cscan:task:queue"
          (float64OfInt64 call.unixNano) (call.marshalTask (pocTask call req))).1 = some e)) :
    (ValidatePoc env call s req).1 =
        { Success := false, Message := "任务入队失败: " ++ e, Matched := false, TaskId := "" } ∧
      ((ValidatePoc env call s req).2.2 =
          [.zadd "cscan:task:queue" (float64OfInt64 call.unixNano)
            (call.marshalTask (pocTask call req))] ∨
        (ValidatePoc env call s req).2.2 =
          [.zadd "cscan:task:queue" (float64OfInt64 call.unixNano)
              (call.marshalTask (pocTask call req)),
            .del "cscan:task:queue",
            .zadd "cscan:task:queue" (float64OfInt64 call.unixNano)
              (call.marshalTask (pocTask call req))]) ∧
      (∀ (k d : String) (t : Option Nat), Cmd.set k d t ∉ (ValidatePoc env call s req).2.2) ∧
      (ValidatePoc env call s req).2.1.lookup ("cscan:task:info:" ++ call.uuid) =
        s.lookup ("cscan:task:info:" ++ call.uuid) ∧
      (ValidatePoc env call s req).2.1.published = s.published := by
  rcases hfail with ⟨h1, hne⟩ | ⟨h1, h2⟩
  · rw [ValidatePoc_of_enqueue_error env call s _ req _ e (enqueue_first_error call s req e h1 hne)]
    refine ⟨rfl, Or.inl rfl, ?_, rfl, rfl⟩
    intro k d t hmem
    simp at hmem
  · have henq := enqueue_retry call s req h1
    have hs := PocCall.zadd_error_store call 2 _ _ _ _ e h2
    rw [h2, hs] at henq
    rw [ValidatePoc_of_enqueue_error env call s _ req _ e henq]
    refine ⟨rfl, Or.inr rfl, ?_, ?_, ?_⟩
    · intro k d t hmem
      simp at hmem
    · simp only []
      unfold PocCall.del
      cases call.fault 1 with
      | some e1 => rfl
      | none => exact Store.lookup_Del_ne s _ _ (info_ne_queue call.uuid)
    · simp only []
      unfold PocCall.del
      cases call.fault 1 with
      | some e1 => rfl
      | none => rfl

theorem ValidatePoc_enqueue_failure_witness :
    ((ValidatePoc sampleEnv sampleCallOffline sampleStoreOldQueue sampleReq).1 =
        { Success := false, Message := "任务入队失败: connection refused", Matched := false,
          TaskId := "" } ∧
      (ValidatePoc sampleEnv sampleCallOffline sampleStoreOldQueue sampleReq).2.1.lookup
        "cscan:task:info:a1" = none) ∧
    ((ValidatePoc sampleEnv sampleCallDelLost sampleStoreOldQueue sampleReq).1 =
        { Success := false, Message := "任务入队失败: " ++ WRONGTYPE, Matched := false,
          TaskId := "" } ∧
      (ValidatePoc sampleEnv sampleCallDelLost sampleStoreOldQueue sampleReq).2.1.lookup
        "cscan:task:info:a1" = none) :=
  have h1 := ValidatePoc_enqueue_failure sampleEnv sampleCallOffline sampleStoreOldQueue
    sampleReq "connection refused" (Or.inl ⟨by decide, by decide⟩)
  have h2 := ValidatePoc_enqueue_failure sampleEnv sampleCallDelLost sampleStoreOldQueue
    sampleReq WRONGTYPE (Or.inr ⟨by decide, by decide⟩)
  ⟨⟨h1.1, h1.2.2.2.1⟩, ⟨h2.1, h2.2.2.2.1⟩⟩

/-! ## validatepoclogic.go: the score of an enqueue and the order of the pops -/

/-- C11, the code at the failing input. Task `A` (id `b2`) is enqueued into
the empty store at clock reading 1700000000000000000 ns and task `B` (id `a1`)
one nanosecond later. `float64` has 53 significant bits, so both readings
become the score 1700000000000000000; the sorted set then ranks the two members
by their bytes, and the first pop returns `B`, the second `A`. -/
theorem ValidatePoc_fifo_lost :
    float64OfInt64 1700000000000000000 = 1700000000000000000 ∧
    float64OfInt64 1700000000000000001 = 1700000000000000000 ∧
    (ValidatePoc sampleEnv (sampleCall "a1" 1700000000000000001)
        (ValidatePoc sampleEnv (sampleCall "b2" 1700000000000000000)
          { kv := [], published := [] } sampleReq).2.1 sampleReq).2.1.lookup
        "cscan:task:queue" =
      some (.zset [(1700000000000000000, "\x7b\"taskId\":\"b2\"\x7d"),
        (1700000000000000000, "\x7b\"taskId\":\"a1\"\x7d")]) ∧
    ((ValidatePoc sampleEnv (sampleCall "a1" 1700000000000000001)
        (ValidatePoc sampleEnv (sampleCall "b2" 1700000000000000000)
          { kv := [], published := [] } sampleReq).2.1 sampleReq).2.1.ZPopMin
        "cscan:task:queue").1 =
      some (1700000000000000000, "\x7b\"taskId\":\"a1\"\x7d") ∧
    (((ValidatePoc sampleEnv (sampleCall "a1" 1700000000000000001)
        (ValidatePoc sampleEnv (sampleCall "b2" 1700000000000000000)
          { kv := [], published := [] } sampleReq).2.1 sampleReq).2.1.ZPopMin
        "cscan:task:queue").2.ZPopMin "cscan:task:queue").1 =
      some (1700000000000000000, "\x7b\"taskId\":\"b2\"\x7d") := by
  decide

/-! ## The pop of the queue by two callers -/

theorem ZPopMin_single (s : Store) (key : String) (score : Int) (member : String)
    (h : s.lookup key = some (.zset [(score, member)])) :
    s.ZPopMin key = (some (score, member), s.Del key) := by
  unfold Store.ZPopMin
  rw [h]
  simp [zsetMin]

theorem ZPopMin_missing (s : Store) (key : String) (h : s.lookup key = none) :
    s.ZPopMin key = (none, s) := by
  unfold Store.ZPopMin
  rw [h]

theorem popNext_single (s : Store) (score : Int) (member : String)
    (h : s.lookup "cscan:task:queue" = some (.zset [(score, member)])) :
    popNext s = (some member, s.Del "cscan:task:queue") := by
  unfold popNext
  rw [ZPopMin_single s _ score member h]
  rfl

theorem popNext_empty (s : Store) (h : s.lookup "cscan:task:queue" = none) :
    popNext s = (none, s) := by
  unfold popNext
  rw [ZPopMin_missing s _ h]
  rfl

/-- C17. On a store whose queue holds exactly one entry, two callers pop, each
pop being one `ZPOPMIN`. Whichever of the two commands the store runs first,
one caller receives the entry and the other nothing, never both the entry, and
the queue is empty afterwards. Were the pop a read followed by a delete, the
order read, read, delete, delete would hand the entry to both. -/
theorem popNext_exclusive (s : Store) (score : Int) (member : String)
    (h : s.lookup "cscan:task:queue" = some (.zset [(score, member)]))
    (firstCallerFirst : Bool) :
    (((twoPops firstCallerFirst s).1 = some member ∧ (twoPops firstCallerFirst s).2.1 = none) ∨
      ((twoPops firstCallerFirst s).1 = none ∧
        (twoPops firstCallerFirst s).2.1 = some member)) ∧
      ¬ ((twoPops firstCallerFirst s).1 = some member ∧
        (twoPops firstCallerFirst s).2.1 = some member) ∧
      (twoPops firstCallerFirst s).2.2.lookup "cscan:task:queue" = none ∧
      ((twoReadThenDelete s).1 = some member ∧ (twoReadThenDelete s).2.1 = some member) := by
  have h1 := popNext_single s score member h
  have h2 := popNext_empty (s.Del "cscan:task:queue") (Store.lookup_Del_self s _)
  have hpops : twoPops firstCallerFirst s =
      if firstCallerFirst then (some member, none, s.Del "cscan:task:queue")
      else (none, some member, s.Del "cscan:task:queue") := by
    unfold twoPops
    rw [h1]
    simp only []
    rw [h2]
  have hread : (s.ZFirst "cscan:task:queue").map Prod.snd = some member := by
    unfold Store.ZFirst
    rw [h]
    simp [zsetMin]
  rw [hpops]
  cases firstCallerFirst with
  | true =>
    refine ⟨Or.inl ⟨rfl, rfl⟩, ?_, Store.lookup_Del_self s _, ?_⟩
    · rintro ⟨-, h3⟩; cases h3
    · unfold twoReadThenDelete; rw [hread]; exact ⟨rfl, rfl⟩
  | false =>
    refine ⟨Or.inr ⟨rfl, rfl⟩, ?_, Store.lookup_Del_self s _, ?_⟩
    · rintro ⟨h3, -⟩; cases h3
    · unfold twoReadThenDelete; rw [hread]; exact ⟨rfl, rfl⟩

theorem popNext_exclusive_witness :
    (ValidatePoc sampleEnv (sampleCall "a1" 1700000000000000000)
        { kv := [], published := [] } sampleReq).2.1.lookup "cscan:task:queue" =
      some (.zset [(1700000000000000000, "\x7b\"taskId\":\"a1\"\x7d")]) ∧
    ¬ ((twoPops false (ValidatePoc sampleEnv (sampleCall "a1" 1700000000000000000)
          { kv := [], published := [] } sampleReq).2.1).1 = some "\x7b\"taskId\":\"a1\"\x7d" ∧
      (twoPops false (ValidatePoc sampleEnv (sampleCall "a1" 1700000000000000000)
          { kv := [], published := [] } sampleReq).2.1).2.1 =
        some "\x7b\"taskId\":\"a1\"\x7d") ∧
    (twoPops false (ValidatePoc sampleEnv (sampleCall "a1" 1700000000000000000)
        { kv := [], published := [] } sampleReq).2.1).2.2.lookup "cscan:task:queue" = none :=
  have h := popNext_exclusive
    (ValidatePoc sampleEnv (sampleCall "a1" 1700000000000000000)
      { kv := [], published := [] } sampleReq).2.1
    1700000000000000000 "\x7b\"taskId\":\"a1\"\x7d" (by decide) false
  ⟨by decide, h.2.1, h.2.2.1⟩

/-! ## splitter.go: targets that parse to themselves -/

theorem TrimSpace_idem (s : String) : TrimSpace (TrimSpace s) = TrimSpace s := by
  unfold TrimSpace
  simp only []
  have h1 : List.dropWhile isSpace (List.rdropWhile isSpace (List.dropWhile isSpace s.data)) =
      List.rdropWhile isSpace (List.dropWhile isSpace s.data) := by
    rw [List.dropWhile_eq_self_iff]
    intro hl
    obtain ⟨r, hr⟩ := List.rdropWhile_prefix isSpace (List.dropWhile isSpace s.data)
    generalize hx : List.rdropWhile isSpace (List.dropWhile isSpace s.data) = x at hl hr ⊢
    cases x with
    | nil => simp at hl
    | cons c cs =>
      have hpos : 0 < (List.dropWhile isSpace s.data).length := by rw [← hr]; simp
      have h0 := List.dropWhile_get_zero_not isSpace s.data hpos
      have hget : (List.dropWhile isSpace s.data).get ⟨0, hpos⟩ = c := by
        simp only [List.get_eq_getElem]
        have : (List.dropWhile isSpace s.data)[0]? = some c := by rw [← hr]; simp
        rw [List.getElem?_eq_getElem hpos] at this
        exact Option.some.inj this
      rw [hget] at h0
      simpa using h0
  rw [h1, List.rdropWhile_idempotent]

theorem toDigitsCore_ne_nil (b : Nat) : ∀ (fuel n : Nat) (ds : List Char),
    (ds ≠ [] ∨ 0 < fuel) → Nat.toDigitsCore b fuel n ds ≠ [] := by
  intro fuel
  induction fuel with
  | zero =>
    intro n ds h
    rcases h with h | h
    · simpa [Nat.toDigitsCore] using h
    · omega
  | succ f ih =>
    intro n ds _
    simp only [Nat.toDigitsCore]
    split
    · simp
    · exact ih _ _ (Or.inl (by simp))

theorem toDigits_ne_nil (b n : Nat) : Nat.toDigits b n ≠ [] :=
  toDigitsCore_ne_nil b _ _ [] (Or.inr (Nat.succ_pos _))

theorem IP_String_ne_empty (ip : IP) : (IP.String ip).data ≠ [] := by
  unfold IP.String
  split
  · decide
  · split
    · rw [String.data_append]
      simp
    · split
      · rename_i h4
        generalize To4 ip = q at h4
        match q, h4 with
        | [a, b, c, d], _ => exact string4_ne_nil a b c d
      · unfold string6
        simp only []
        rw [appendGroups]
        simp only [show ¬ (¬ (0 < 8)) by decide, if_false]
        split
        · simp
        · have := toDigits_ne_nil 16 (v6u16 ip 0)
          simp [this]

theorem isAddrChar_not_space (c : Char) (h : isAddrChar c = true) : isSpace c = false := by
  have hc : c ∈ "0123456789abcdef*.:?<nil>".data := by
    simpa [isAddrChar] using h
  have hall : ∀ x ∈ "0123456789abcdef*.:?<nil>".data, isSpace x = false := by decide
  exact hall c hc

theorem IP_String_stable (ip : IP) : Stable (IP.String ip) := by
  have hchars := IP_String_isAddrChar ip
  have hne := IP_String_ne_empty ip
  have hno : ∀ x : Char, isAddrChar x = false → x ∉ (IP.String ip).data := by
    intro x hx hmem
    rw [hchars x hmem] at hx
    cases hx
  refine ⟨?_, ?_, ?_, ?_⟩
  · exact TrimSpace_eq_self _ (fun c hc => isAddrChar_not_space c (hchars c hc))
  · intro h
    apply hne
    rw [h]
  · unfold HasPrefix
    cases hd : (IP.String ip).data with
    | nil => rfl
    | cons d ds =>
      simp only []
      have : isAddrChar d = true := hchars d (by rw [hd]; exact List.mem_cons_self _ _)
      by_cases hdc : d = '#'
      · subst hdc; revert this; decide
      · simpa using hdc
  · intro fuel
    unfold parseLine
    have h1 : Contains (IP.String ip) '/' = false := by
      unfold Contains
      simpa using hno '/' (by decide)
    have h2 : Contains (IP.String ip) '-' = false := by
      unfold Contains
      simpa using hno '-' (by decide)
    simp [h1, h2]

/-! ## splitter.go: what one line contributes -/

theorem parseLine_out (fuel : Nat) (line : String) (out : List String)
    (h : parseLine fuel line = .done out) :
    ((∀ fuel1 : Nat, parseLine fuel1 line = .done [line]) ∧ out = [line]) ∨
      (∀ t ∈ out, ∃ ip : IP, t = IP.String ip) := by
  have hP : ∀ ip : IP, ∃ ip1 : IP, IP.String ip = IP.String ip1 := fun ip => ⟨ip, rfl⟩
  by_cases hs : Contains line '/' = true
  · have hp : ∀ f, parseLine f line = expandCIDR f line := by
      intro f; unfold parseLine; rw [if_pos hs]
    rw [hp] at h
    unfold expandCIDR at h
    split at h
    · rename_i hc
      left
      refine ⟨fun f => ?_, ?_⟩
      · rw [hp]; unfold expandCIDR; rw [hc]
      · cases h; rfl
    · rename_i a ipnet hc
      right
      cases hl : cidrLoop ipnet fuel (Mask ipnet.IP ipnet.Mask) [] with
      | done ips =>
        have hall := cidrLoop_all (fun t => ∃ ip : IP, t = IP.String ip) hP ipnet fuel _ [] ips
          (by simp) hl
        simp only [hl] at h
        split at h
        · cases h
          intro t ht
          exact hall t (List.mem_of_mem_take (List.mem_of_mem_drop ht))
        · cases h; exact hall
      | fuelOut => simp [hl] at h
      | panic => simp [hl] at h
  · by_cases hg : Contains line '-' = true ∧ (ParseIP ((Split line '-').headD "")).isSome = true
    · have hp : ∀ f, parseLine f line = expandIPRange f line := by
        intro f; unfold parseLine; rw [if_neg hs, if_pos hg]
      rw [hp] at h
      unfold expandIPRange at h
      split at h
      · rename_i p0 p1 hsp
        split at h
        · rename_i startIP endIP h0 h1
          right
          cases hl : rangeLoop endIP fuel startIP [] with
          | done ips =>
            have hall := rangeLoop_all (fun t => ∃ ip : IP, t = IP.String ip) hP endIP fuel _ []
              ips (by simp) hl
            simp only [hl] at h
            cases h
            intro t ht
            rcases List.mem_append.1 ht with ht | ht
            · exact hall t ht
            · exact ⟨endIP, List.mem_singleton.1 ht⟩
          | fuelOut => simp [hl] at h
          | panic => simp [hl] at h
        · rename_i hnot
          left
          refine ⟨fun f => ?_, ?_⟩
          · rw [hp]; unfold expandIPRange; rw [hsp]
            simp only []
          · cases h; rfl
      · rename_i hnot
        left
        refine ⟨fun f => ?_, ?_⟩
        · rw [hp]; unfold expandIPRange
          split
          · rename_i p0 p1 hsp
            exact absurd hsp (hnot p0 p1)
          · rfl
        · cases h; rfl
    · left
      have hp : ∀ f, parseLine f line = .done [line] := by
        intro f; unfold parseLine; rw [if_neg hs, if_neg hg]
      refine ⟨hp, ?_⟩
      rw [hp] at h
      cases h; rfl

theorem parseLine_out_stable (fuel : Nat) (line : String) (out : List String)
    (htrim : TrimSpace line = line) (hne : line ≠ "") (hhash : HasPrefix line '#' = false)
    (h : parseLine fuel line = .done out) : ∀ t ∈ out, Stable t := by
  rcases parseLine_out fuel line out h with ⟨hall, hout⟩ | hips
  · intro t ht
    rw [hout] at ht
    rw [List.mem_singleton.1 ht]
    exact ⟨htrim, hne, hhash, hall⟩
  · intro t ht
    obtain ⟨ip, hip⟩ := hips t ht
    rw [hip]
    exact IP_String_stable ip

theorem parseLines_out_stable (fuel : Nat) : ∀ (lines targets out : List String),
    (∀ t ∈ targets, Stable t) → parseLines fuel lines targets = .done out →
    ∀ t ∈ out, Stable t := by
  intro lines
  induction lines with
  | nil => intro targets out ht h; simp only [parseLines] at h; cases h; exact ht
  | cons line rest ih =>
    intro targets out ht h
    simp only [parseLines] at h
    split at h
    · exact ih _ _ ht h
    · rename_i hskip
      have hne : TrimSpace line ≠ "" := fun e => hskip (Or.inl e)
      have hhash : HasPrefix (TrimSpace line) '#' = false := by
        cases hh : HasPrefix (TrimSpace line) '#' with
        | false => rfl
        | true => exact absurd (Or.inr hh) hskip
      cases hpl : parseLine fuel (TrimSpace line) with
      | done ips =>
        simp only [hpl] at h
        refine ih _ _ ?_ h
        intro t htm
        rcases List.mem_append.1 htm with htm | htm
        · exact ht t htm
        · exact parseLine_out_stable fuel _ ips (TrimSpace_idem line) hne hhash hpl t htm
      | fuelOut => simp [hpl] at h
      | panic => simp [hpl] at h

theorem parseAllTargets_out_stable (fuel : Nat) (target : String) (ts : List String)
    (h : parseAllTargets fuel target = .done ts) : ∀ t ∈ ts, Stable t :=
  parseLines_out_stable fuel _ [] ts (by simp) h

theorem parseLines_stable (fuel : Nat) : ∀ (lines targets : List String),
    (∀ t ∈ lines, Stable t) → parseLines fuel lines targets = .done (targets ++ lines) := by
  intro lines
  induction lines with
  | nil => intro targets _; simp [parseLines]
  | cons line rest ih =>
    intro targets h
    obtain ⟨htrim, hne, hhash, hline⟩ := h line (List.mem_cons_self _ _)
    have hrest := fun t ht => h t (List.mem_cons_of_mem _ ht)
    unfold parseLines
    simp only [htrim, hne, hhash, false_or, Bool.false_eq_true, if_false, hline fuel]
    rw [ih _ hrest]
    simp

/-- Re-parsing the joined text of stable targets gives the targets back, with any budget. -/
theorem parseAllTargets_Join (fuel : Nat) (ts : List String) (hst : ∀ t ∈ ts, Stable t)
    (hnl : ∀ t ∈ ts, '\n' ∉ t.data) :
    parseAllTargets fuel (Join ts '\n') = .done ts := by
  unfold parseAllTargets
  by_cases hne : ts = []
  · subst hne
    have : Split (Join [] '\n') '\n' = [""] := by decide
    rw [this]
    have h0 : TrimSpace "" = "" := by decide
    simp [parseLines, h0]
  · rw [Split_Join ts '\n' hne hnl, parseLines_stable fuel ts [] hst]
    simp

/-! ## splitter.go: the batches of `SplitTargets` parse to their own lines -/

theorem batchLoop_chunks (b : Int) (hb : 1 ≤ b) (all : List String) :
    ∀ (fuel : Nat) (i : Int) (acc out : List String), 0 ≤ i →
      batchLoop b all fuel i acc = .done out →
      ∀ batch ∈ out, batch ∈ acc ∨
        ∃ chunk : List String, chunk ≠ [] ∧ (chunk.length : Int) ≤ b ∧
          (∀ t ∈ chunk, t ∈ all) ∧ batch = Join chunk '\n' := by
  intro fuel
  induction fuel with
  | zero =>
    intro i acc out _ h batch hb1
    simp only [batchLoop] at h
    split at h
    · cases h
    · cases h; exact Or.inl hb1
  | succ f ih =>
    intro i acc out hi h batch hb1
    rw [batchLoop] at h
    by_cases hlt : i < (all.length : Int)
    · rw [if_pos hlt] at h
      simp only [] at h
      generalize hend : (if i + b > (all.length : Int) then (all.length : Int) else i + b) =
        end1 at h
      have hend1 : end1 ≤ i + b ∧ end1 ≤ (all.length : Int) ∧ i + 1 ≤ end1 := by
        rw [← hend]
        split <;> omega
      have hnp : ¬ (i < 0 ∨ end1 < i) := by omega
      rw [if_neg hnp] at h
      rcases ih (i + b) _ out (by omega) h batch hb1 with hmem | hex
      · rcases List.mem_append.1 hmem with hmem | hmem
        · exact Or.inl hmem
        · right
          refine ⟨(all.drop i.toNat).take (end1 - i).toNat, ?_, ?_, ?_, List.mem_singleton.1 hmem⟩
          · intro h0
            have hlen := congrArg List.length h0
            simp only [List.length_take, List.length_drop, List.length_nil] at hlen
            omega
          · simp only [List.length_take, List.length_drop]
            omega
          · intro t ht
            exact List.mem_of_mem_drop (List.mem_of_mem_take ht)
      · exact Or.inr hex
    · rw [if_neg hlt] at h
      cases h
      exact Or.inl hb1

theorem batchLoop_nonpos (b : Int) (hb : b ≤ 0) (all : List String) :
    ∀ (fuel : Nat) (i : Int) (acc out : List String), 0 ≤ i → i < (all.length : Int) →
      batchLoop b all fuel i acc ≠ .done out := by
  intro fuel
  induction fuel with
  | zero =>
    intro i acc out _ hlt h
    simp only [batchLoop, if_pos hlt] at h
    cases h
  | succ f ih =>
    intro i acc out hi hlt h
    rw [batchLoop, if_pos hlt] at h
    simp only [] at h
    have hend : (if i + b > (all.length : Int) then (all.length : Int) else i + b) = i + b := by
      rw [if_neg (by omega)]
    rw [hend] at h
    by_cases hneg : b < 0
    · rw [if_pos (Or.inr (by omega))] at h
      cases h
    · have hb0 : b = 0 := by omega
      subst hb0
      rw [if_neg (by omega)] at h
      simp only [Int.add_zero] at h
      exact ih i _ out hi hlt h

theorem SplitTargets_batch_chunks (s : TargetSplitter) (fuel : Nat) (target : String)
    (ts batches : List String)
    (hparse : parseAllTargets fuel target = .done ts)
    (hsplit : s.batchSize < (ts.length : Int))
    (hb : SplitTargets s fuel target = .done batches) :
    ∀ batch ∈ batches, ∃ chunk : List String, chunk ≠ [] ∧
      (chunk.length : Int) ≤ s.batchSize ∧ (∀ t ∈ chunk, t ∈ ts) ∧ batch = Join chunk '\n' := by
  unfold SplitTargets at hb
  simp only [hparse] at hb
  rw [if_neg (by omega)] at hb
  intro batch hmem
  by_cases hpos : 1 ≤ s.batchSize
  · rcases batchLoop_chunks s.batchSize hpos ts fuel 0 [] batches (le_refl _) hb batch hmem with
      h | h
    · simp at h
    · exact h
  · by_cases hlen : (0 : Int) < (ts.length : Int)
    · exact absurd hb (batchLoop_nonpos s.batchSize (by omega) ts fuel 0 [] batches (le_refl _) hlen)
    · have hnil : batches = [] := by
        cases fuel with
        | zero =>
          simp only [batchLoop, if_neg hlen] at hb
          cases hb; rfl
        | succ f =>
          rw [batchLoop, if_neg hlen] at hb
          cases hb; rfl
      rw [hnil] at hmem
      simp at hmem

/-- C20. When `SplitTargets` splits (the parsed list `ts` is longer than the
batch size) and returns `batches`, every batch parses, with any budget, to the
list of its own lines, its target count is at most the batch size and
`NeedSplit` is false on it. And `parseAllTargets` is idempotent: the text of
`ts` joined by line breaks parses to `ts` again, with any budget, whether
`ts` holds expanded addresses, verbatim lines or literals. -/
theorem SplitTargets_batches_stable (s : TargetSplitter) (fuel : Nat) (target : String)
    (ts batches : List String)
    (hparse : parseAllTargets fuel target = .done ts)
    (hsplit : s.batchSize < (ts.length : Int))
    (hb : SplitTargets s fuel target = .done batches) (fuel1 : Nat) :
    (∀ batch ∈ batches,
        parseAllTargets fuel1 batch = .done (Split batch '\n') ∧
        GetTargetCount fuel1 batch = .done ((Split batch '\n').length : Int) ∧
        ((Split batch '\n').length : Int) ≤ s.batchSize ∧
        NeedSplit s fuel1 batch = .done false) ∧
      parseAllTargets fuel1 (Join ts '\n') = .done ts := by
  have hst := parseAllTargets_out_stable fuel target ts hparse
  have hnl := parseAllTargets_no_newline fuel target ts hparse
  refine ⟨?_, parseAllTargets_Join fuel1 ts hst hnl⟩
  intro batch hmem
  obtain ⟨chunk, hne, hlen, hsub, hjoin⟩ :=
    SplitTargets_batch_chunks s fuel target ts batches hparse hsplit hb batch hmem
  have hsp : Split batch '\n' = chunk := by
    rw [hjoin]
    exact Split_Join chunk '\n' hne (fun t ht => hnl t (hsub t ht))
  have hp : parseAllTargets fuel1 batch = .done chunk := by
    rw [hjoin]
    exact parseAllTargets_Join fuel1 chunk (fun t ht => hst t (hsub t ht))
      (fun t ht => hnl t (hsub t ht))
  have hcount : GetTargetCount fuel1 batch = .done (chunk.length : Int) := by
    unfold GetTargetCount
    rw [hp]
  rw [hsp]
  refine ⟨hp, hcount, hlen, ?_⟩
  unfold NeedSplit
  rw [hcount]
  simp only []
  congr 1
  simpa using hlen

theorem SplitTargets_batches_stable_witness :
    SplitTargets { batchSize := 2 } 5 "10.0.0.1-10.0.0.3\nweb-01.example.com\n10.0.0.0/33" =
      .done ["10.0.0.1\n10.0.0.2", "10.0.0.3\nweb-01.example.com", "10.0.0.0/33"] ∧
    (parseAllTargets 0 "10.0.0.3\nweb-01.example.com" =
        .done (Split "10.0.0.3\nweb-01.example.com" '\n') ∧
      GetTargetCount 0 "10.0.0.3\nweb-01.example.com" =
        .done ((Split "10.0.0.3\nweb-01.example.com" '\n').length : Int) ∧
      ((Split "10.0.0.3\nweb-01.example.com" '\n').length : Int) ≤ 2 ∧
      NeedSplit { batchSize := 2 } 0 "10.0.0.3\nweb-01.example.com" = .done false) ∧
    parseAllTargets 0
        (Join ["10.0.0.1", "10.0.0.2", "10.0.0.3", "web-01.example.com", "10.0.0.0/33"] '\n') =
      .done ["10.0.0.1", "10.0.0.2", "10.0.0.3", "web-01.example.com", "10.0.0.0/33"] :=
  have h := SplitTargets_batches_stable { batchSize := 2 } 5
    "10.0.0.1-10.0.0.3\nweb-01.example.com\n10.0.0.0/33"
    ["10.0.0.1", "10.0.0.2", "10.0.0.3", "web-01.example.com", "10.0.0.0/33"]
    ["10.0.0.1\n10.0.0.2", "10.0.0.3\nweb-01.example.com", "10.0.0.0/33"]
    (by decide) (by decide) (by decide) 0
  ⟨by decide, h.1 "10.0.0.3\nweb-01.example.com" (by simp), h.2⟩

/-! ## The sorted set as a queue -/

theorem zsetMin_mem : ∀ xs : List (Int × String),
    zsetMin xs = none ∨ ∃ y ∈ xs, zsetMin xs = some y := by
  intro xs
  induction xs with
  | nil => exact Or.inl rfl
  | cons x xs ih =>
    right
    rw [zsetMin]
    rcases ih with h | ⟨y, hy, h⟩
    · rw [h]; exact ⟨x, List.mem_cons_self _ _, rfl⟩
    · rw [h]
      simp only []
      split
      · exact ⟨x, List.mem_cons_self _ _, rfl⟩
      · exact ⟨y, List.mem_cons_of_mem _ hy, rfl⟩

theorem zsetMin_head (x : Int × String) (xs : List (Int × String))
    (h : ∀ y ∈ xs, x.1 < y.1) : zsetMin (x :: xs) = some x := by
  rw [zsetMin]
  rcases zsetMin_mem xs with h0 | ⟨y, hy, h0⟩
  · rw [h0]
  · rw [h0]
    simp only []
    rw [if_pos (Or.inl (h y hy))]

theorem filter_ne_head (x : Int × String) (xs : List (Int × String))
    (h : ∀ y ∈ xs, x.1 < y.1) : (x :: xs).filter (fun y => y != x) = xs := by
  rw [List.filter_cons_of_neg (by simp)]
  rw [List.filter_eq_self]
  intro y hy
  have := h y hy
  have hne : y ≠ x := by
    intro e
    rw [e] at this
    exact lt_irrefl _ this
  simpa using hne

theorem drainQueue_sorted : ∀ (ms : List (Int × String)) (s : Store),
    s.lookup "cscan:task:queue" = some (.zset ms) → ms.Pairwise (fun a b => a.1 < b.1) →
    drainQueue ms.length s = ms.map Prod.snd := by
  intro ms
  induction ms with
  | nil => intro s _ _; rfl
  | cons x xs ih =>
    intro s hq hsorted
    have hx : ∀ y ∈ xs, x.1 < y.1 := (List.pairwise_cons.1 hsorted).1
    have hxs := (List.pairwise_cons.1 hsorted).2
    have hpop : s.ZPopMin "cscan:task:queue" =
        if xs = [] then (some x, s.Del "cscan:task:queue")
        else (some x, { s with kv := s.kv.filter (fun e => e.1 != "cscan:task:queue") ++
          [("cscan:task:queue", .zset xs)] }) := by
      unfold Store.ZPopMin
      rw [hq]
      simp only []
      rw [zsetMin_head x xs hx]
      simp only []
      rw [filter_ne_head x xs hx]
    simp only [List.length_cons, drainQueue, hpop, List.map_cons]
    by_cases hnil : xs = []
    · subst hnil
      simp [drainQueue]
    · rw [if_neg hnil]
      simp only []
      congr 1
      apply ih _ _ hxs
      show List.lookup _ _ = _
      exact lookup_append_self _ _ _ (lookup_filter_self s.kv _)

/-! ## validatepoclogic.go: what a call that meets no fault leaves in the queue -/

theorem Store.ZAdd_zset (s : Store) (key : String) (score : Int) (member : String)
    (ms : List (Int × String)) (hv : s.lookup key = some (.zset ms))
    (hnew : member ∉ ms.map Prod.snd) :
    s.ZAdd key score member =
      .ok { s with kv := s.kv.filter (fun e => e.1 != key) ++
        [(key, .zset (ms ++ [(score, member)]))] } := by
  unfold Store.ZAdd
  rw [hv]
  simp only []
  have hf : ms.filter (fun m => m.2 != member) = ms := by
    rw [List.filter_eq_self]
    intro y hy
    have : y.2 ≠ member := by
      intro e
      exact hnew (List.mem_map.2 ⟨y, hy, e⟩)
    simpa using this
  rw [hf]

theorem ValidatePoc_queue_of_zadd (env : Env) (call : PocCall) (s s1 : Store)
    (req : ValidatePocReq) (h0 : call.fault 0 = none)
    (hz : s.ZAdd "cscan:task:queue" (float64OfInt64 call.unixNano)
      (call.marshalTask (pocTask call req)) = .ok s1) :
    (ValidatePoc env call s req).2.1.lookup "cscan:task:queue" =
      s1.lookup "cscan:task:queue" := by
  have henq : ValidatePoc.enqueue call s req =
      (none, s1, [.zadd "cscan:task:queue" (float64OfInt64 call.unixNano)
        (call.marshalTask (pocTask call req))]) := by
    unfold ValidatePoc.enqueue PocCall.zadd
    simp only [h0, hz]
  rw [ValidatePoc_of_enqueue_ok env call s s1 req _ henq]
  simp only []
  exact PocCall.set_lookup_ne _ _ _ _ _ _ _ (info_ne_queue call.uuid).symm

theorem ValidatePoc_queue_first (env : Env) (call : PocCall) (s : Store) (req : ValidatePocReq)
    (h0 : call.fault 0 = none) (hq : s.lookup "cscan:task:queue" = none) :
    (ValidatePoc env call s req).2.1.lookup "cscan:task:queue" =
      some (.zset [(float64OfInt64 call.unixNano, call.marshalTask (pocTask call req))]) := by
  rw [ValidatePoc_queue_of_zadd env call s _ req h0 (Store.ZAdd_missing s _ _ _ hq)]
  exact lookup_append_self _ _ _ hq

theorem ValidatePoc_queue_next (env : Env) (call : PocCall) (s : Store) (req : ValidatePocReq)
    (ms : List (Int × String)) (h0 : call.fault 0 = none)
    (hq : s.lookup "cscan:task:queue" = some (.zset ms))
    (hnew : call.marshalTask (pocTask call req) ∉ ms.map Prod.snd) :
    (ValidatePoc env call s req).2.1.lookup "cscan:task:queue" =
      some (.zset (ms ++
        [(float64OfInt64 call.unixNano, call.marshalTask (pocTask call req))])) := by
  rw [ValidatePoc_queue_of_zadd env call s _ req h0 (Store.ZAdd_zset s _ _ _ ms hq hnew)]
  exact lookup_append_self _ _ _ (lookup_filter_self s.kv _)

theorem enqueueAll_queue_next (env : Env) : ∀ (jobs : List (PocCall × ValidatePocReq))
    (s : Store) (ms : List (Int × String)),
    s.lookup "cscan:task:queue" = some (.zset ms) →
    (∀ job ∈ jobs, job.1.fault 0 = none) →
    (ms.map Prod.snd ++ jobs.map fun job => job.1.marshalTask (pocTask job.1 job.2)).Nodup →
    (enqueueAll env s jobs).lookup "cscan:task:queue" =
      some (.zset (ms ++ jobs.map fun job =>
        (float64OfInt64 job.1.unixNano, job.1.marshalTask (pocTask job.1 job.2)))) := by
  intro jobs
  induction jobs with
  | nil => intro s ms hq _ _; simpa [enqueueAll] using hq
  | cons job rest ih =>
    intro s ms hq hf hnd
    have hnew : job.1.marshalTask (pocTask job.1 job.2) ∉ ms.map Prod.snd := by
      intro hmem
      rw [List.map_cons] at hnd
      exact (List.nodup_append.1 hnd).2.2 hmem (List.mem_cons_self _ _)
    have h1 := ValidatePoc_queue_next env job.1 s job.2 ms (hf job (List.mem_cons_self _ _)) hq hnew
    have h2 := ih _ _ h1 (fun j hj => hf j (List.mem_cons_of_mem _ hj)) (by
      rw [List.map_cons] at hnd
      simpa [List.map_append, List.append_assoc] using hnd)
    rw [enqueueAll, h2]
    simp [List.append_assoc]

theorem enqueueAll_queue (env : Env) (jobs : List (PocCall × ValidatePocReq)) (s : Store)
    (hne : jobs ≠ [])
    (hq : s.lookup "cscan:task:queue" = none)
    (hf : ∀ job ∈ jobs, job.1.fault 0 = none)
    (hnd : (jobs.map fun job => job.1.marshalTask (pocTask job.1 job.2)).Nodup) :
    (enqueueAll env s jobs).lookup "cscan:task:queue" =
      some (.zset (jobs.map fun job =>
        (float64OfInt64 job.1.unixNano, job.1.marshalTask (pocTask job.1 job.2)))) := by
  cases jobs with
  | nil => exact absurd rfl hne
  | cons job rest =>
    have h1 := ValidatePoc_queue_first env job.1 s job.2 (hf job (List.mem_cons_self _ _)) hq
    have h2 := enqueueAll_queue_next env rest _ _ h1
      (fun j hj => hf j (List.mem_cons_of_mem _ hj)) (by simpa using hnd)
    rw [enqueueAll, h2]
    simp

/-! ## The score of an enqueue: how far `float64` moves a clock reading -/

theorem leadingBit_le : ∀ (fuel m k : Nat), m < 2 ^ (k + 1) → leadingBit fuel m ≤ k := by
  intro fuel
  induction fuel with
  | zero => intro m k _; simp [leadingBit]
  | succ f ih =>
    intro m k h
    rw [leadingBit]
    split
    · rename_i h2
      cases k with
      | zero => simp at h; omega
      | succ k =>
        have : m / 2 < 2 ^ (k + 1) := by
          rw [Nat.div_lt_iff_lt_mul (by decide)]
          rw [pow_succ] at h
          exact h
        have := ih (m / 2) k this
        omega
    · omega

theorem round_near (m e : Nat) (he : e ≤ 8) :
    (if 2 * (m % 2 ^ e) > 2 ^ e ∨ (2 * (m % 2 ^ e) = 2 ^ e ∧ m / 2 ^ e % 2 = 1)
        then m / 2 ^ e + 1 else m / 2 ^ e) * 2 ^ e ≤ m + 128 ∧
      m ≤ (if 2 * (m % 2 ^ e) > 2 ^ e ∨ (2 * (m % 2 ^ e) = 2 ^ e ∧ m / 2 ^ e % 2 = 1)
        then m / 2 ^ e + 1 else m / 2 ^ e) * 2 ^ e + 128 := by
  interval_cases e <;> norm_num <;> split_ifs <;> omega

theorem float64OfInt64_near (n : Int) (h0 : 0 ≤ n) (h1 : n < 2 ^ 61) :
    n - 128 ≤ float64OfInt64 n ∧ float64OfInt64 n ≤ n + 128 := by
  obtain ⟨m, rfl⟩ := Int.eq_ofNat_of_zero_le h0
  have hm : m < 2 ^ 61 := by exact_mod_cast h1
  unfold float64OfInt64
  simp only [Int.natAbs_ofNat]
  by_cases hs : m < 2 ^ 53
  · rw [if_pos hs]; omega
  · rw [if_neg hs]
    have he : leadingBit 64 m - 52 ≤ 8 := by
      have := leadingBit_le 64 m 60 hm
      omega
    have hr := round_near m (leadingBit 64 m - 52) he
    have hnn : ¬ ((m : Int) < 0) := by omega
    rw [if_neg hnn]
    constructor
    · have := hr.2
      omega
    · have := hr.1
      omega

theorem float64OfInt64_spaced (a b : Int) (ha : 0 ≤ a) (hb : b < 2 ^ 61)
    (hab : a + 257 ≤ b) : float64OfInt64 a < float64OfInt64 b := by
  have h1 := float64OfInt64_near a ha (by omega)
  have h2 := float64OfInt64_near b (by omega) hb
  omega

/-! ## validatepoclogic.go: first in, first out for calls far enough apart -/

/-- For `ValidatePoc` calls run one after the other on a store without the
queue key, whose first command meets no fault, whose tasks have distinct JSON
texts and whose clock readings lie in `[0, 2^61)` ns, each more than 256 ns
after every earlier one: the scores are strictly increasing, and as many
`ZPOPMIN` commands as there were calls return the tasks in the order they were
enqueued. -/
theorem ValidatePoc_fifo_spaced (env : Env) (s : Store)
    (jobs : List (PocCall × ValidatePocReq))
    (hq : s.lookup "cscan:task:queue" = none)
    (hf : ∀ job ∈ jobs, job.1.fault 0 = none)
    (hnd : (jobs.map fun job => job.1.marshalTask (pocTask job.1 job.2)).Nodup)
    (hrange : ∀ job ∈ jobs, 0 ≤ job.1.unixNano ∧ job.1.unixNano < 2 ^ 61)
    (hspaced : jobs.Pairwise fun a b => a.1.unixNano + 257 ≤ b.1.unixNano) :
    (jobs.map fun job => float64OfInt64 job.1.unixNano).Pairwise (fun x y => x < y) ∧
      drainQueue jobs.length (enqueueAll env s jobs) =
        jobs.map fun job => job.1.marshalTask (pocTask job.1 job.2) := by
  have hlt : jobs.Pairwise fun a b =>
      float64OfInt64 a.1.unixNano < float64OfInt64 b.1.unixNano := by
    refine List.Pairwise.imp_of_mem ?_ hspaced
    intro a b ha hb hab
    exact float64OfInt64_spaced _ _ (hrange a ha).1 (hrange b hb).2 hab
  refine ⟨by rw [List.pairwise_map]; exact hlt, ?_⟩
  by_cases hne : jobs = []
  · subst hne; rfl
  · have hqueue := enqueueAll_queue env jobs s hne hq hf hnd
    have hsorted : (jobs.map fun job =>
        (float64OfInt64 job.1.unixNano, job.1.marshalTask (pocTask job.1 job.2))).Pairwise
        (fun a b => a.1 < b.1) := by
      rw [List.pairwise_map]; exact hlt
    have h := drainQueue_sorted _ _ hqueue hsorted
    rw [List.length_map] at h
    rw [h, List.map_map]
    rfl

theorem ValidatePoc_fifo_spaced_witness :
    drainQueue 3 (enqueueAll sampleEnv { kv := [], published := [] }
        [(sampleCall "c3" 1700000000000000000, sampleReq),
          (sampleCall "b2" 1700000000000000257, sampleReq),
          (sampleCall "a1" 1700000000000000514, sampleReq)]) =
      ["\x7b\"taskId\":\"c3\"\x7d", "\x7b\"taskId\":\"b2\"\x7d",
        "\x7b\"taskId\":\"a1\"\x7d"] :=
  (ValidatePoc_fifo_spaced sampleEnv { kv := [], published := [] }
    [(sampleCall "c3" 1700000000000000000, sampleReq),
      (sampleCall "b2" 1700000000000000257, sampleReq),
      (sampleCall "a1" 1700000000000000514, sampleReq)]
    rfl (by
      intro job hj
      simp only [List.mem_cons, List.mem_singleton, List.not_mem_nil, or_false] at hj
      rcases hj with rfl | rfl | rfl <;> rfl)
    (by decide) (by decide) (by decide)).2

/-! ## validatepoclogic.go and getpocvalidationresultlogic.go: a task just submitted -/

theorem cidrLoop_length_le (ipnet : IPNet) : ∀ (fuel : Nat) (ip : IP) (ips out : List String),
    cidrLoop ipnet fuel ip ips = .done out → out.length ≤ ips.length + fuel := by
  intro fuel
  induction fuel with
  | zero =>
    intro ip ips out h
    simp only [cidrLoop] at h
    split at h
    · cases h
    · cases h; simp
  | succ f ih =>
    intro ip ips out h
    simp only [cidrLoop] at h
    split at h
    · have := ih _ _ _ h
      simp only [List.length_append, List.length_singleton] at this
      omega
    · cases h; omega

theorem cidrLoop_ne_panic (ipnet : IPNet) : ∀ (fuel : Nat) (ip : IP) (ips : List String),
    cidrLoop ipnet fuel ip ips ≠ .panic := by
  intro fuel
  induction fuel with
  | zero =>
    intro ip ips h
    simp only [cidrLoop] at h
    split at h <;> cases h
  | succ f ih =>
    intro ip ips h
    simp only [cidrLoop] at h
    split at h
    · exact ih _ _ h
    · cases h

theorem cidrLoop_short (ipnet : IPNet) (fuel total : Nat) (ip : IP) (out : List String)
    (hfull : cidrLoop ipnet total ip [] = .done out) (hlen : out.length = total)
    (hlt : fuel < total) : cidrLoop ipnet fuel ip [] = .fuelOut := by
  cases hr : cidrLoop ipnet fuel ip [] with
  | fuelOut => rfl
  | panic => exact absurd hr (cidrLoop_ne_panic ipnet fuel ip [])
  | done out1 =>
    have h1 := cidrLoop_length_le ipnet fuel ip [] out1 hr
    have h2 := cidrLoop_mono ipnet fuel (total - fuel) ip [] out1 hr
    rw [show fuel + (total - fuel) = total by omega, hfull] at h2
    cases h2
    simp only [List.length_nil] at h1
    omega

theorem block_next_outside (p q : Nat) (hp1 : 1 ≤ p) (hp : p ≤ 32)
    (hB : q * 2 ^ (32 - p) < 4294967296) :
    (q * 2 ^ (32 - p) + 2 ^ (32 - p)) % 4294967296 / 2 ^ (32 - p) ≠ q := by
  obtain ⟨hpos, h31, hsum⟩ := block_bounds p q hp1 hp hB
  generalize 2 ^ (32 - p) = S at hpos h31 hsum hB
  by_cases hlt : q * S + S < 4294967296
  · rw [Nat.mod_eq_of_lt hlt]
    have : (q * S + S) / S = q + 1 := by
      rw [show q * S + S = (q + 1) * S by ring]
      exact Nat.mul_div_cancel _ hpos
    omega
  · have heq : q * S + S = 4294967296 := by omega
    rw [heq]
    simp only [Nat.mod_self, Nat.zero_div]
    intro h0
    rw [← h0] at heq
    omega

theorem ParseCIDR_ipv4_zero (n : Nat) (hn : n < 4294967296) :
    ParseCIDR (IP.String (ipv4 n) ++ "/" ++ String.mk (Nat.toDigits 10 0)) =
      some (ipv4In16 n, { IP := [0, 0, 0, 0], Mask := [0, 0, 0, 0] }) := by
  rw [ParseCIDR_ipv4 n 0 (by omega)]
  have h0 : n / 2 ^ (32 - 0) * 2 ^ (32 - 0) = 0 := by
    have : n / 2 ^ (32 - 0) = 0 := Nat.div_eq_of_lt (by simpa using hn)
    rw [this, Nat.zero_mul]
  rw [h0]
  have hm : CIDRMask 0 32 = [0, 0, 0, 0] := by decide
  rw [hm]
  rfl

/-- C23. For the text `a/p` of an IPv4 network with `1 ≤ p ≤ 32`, the loop of
`expandCIDR` makes exactly `2^(32-p)` rounds: with a budget of that many rounds
or more it ends, having collected `2^(32-p)` addresses, and with any smaller
budget it is still running; the address it reaches after the last round, which
is `0.0.0.0` when the block ends at `255.255.255.255`, lies outside the block.
For `a/0` the network holds every 4-byte address and the loop is still running
after any number of rounds. -/
theorem expandCIDR_rounds (n p : Nat) (hn : n < 4294967296) (hp1 : 1 ≤ p) (hp : p ≤ 32) :
    ParseCIDR (IP.String (ipv4 n) ++ "/" ++ String.mk (Nat.toDigits 10 p)) =
        some (ipv4In16 n,
          { IP := ipv4 (n / 2 ^ (32 - p) * 2 ^ (32 - p)), Mask := CIDRMask p 32 }) ∧
      (∀ fuel, 2 ^ (32 - p) ≤ fuel →
        ∃ ips, cidrLoop { IP := ipv4 (n / 2 ^ (32 - p) * 2 ^ (32 - p)), Mask := CIDRMask p 32 }
            fuel (Mask (ipv4 (n / 2 ^ (32 - p) * 2 ^ (32 - p))) (CIDRMask p 32)) [] =
            .done ips ∧ ips.length = 2 ^ (32 - p)) ∧
      (∀ fuel, fuel < 2 ^ (32 - p) →
        cidrLoop { IP := ipv4 (n / 2 ^ (32 - p) * 2 ^ (32 - p)), Mask := CIDRMask p 32 }
          fuel (Mask (ipv4 (n / 2 ^ (32 - p) * 2 ^ (32 - p))) (CIDRMask p 32)) [] =
          .fuelOut) ∧
      IPNet.Contains { IP := ipv4 (n / 2 ^ (32 - p) * 2 ^ (32 - p)), Mask := CIDRMask p 32 }
        (ipv4 ((n / 2 ^ (32 - p) * 2 ^ (32 - p) + 2 ^ (32 - p)) % 4294967296)) = false ∧
      (∀ fuel, 2 ^ (32 - p) ≤ fuel →
        ∃ out, expandCIDR fuel (IP.String (ipv4 n) ++ "/" ++ String.mk (Nat.toDigits 10 p)) =
          .done out) ∧
      (∀ fuel, fuel < 2 ^ (32 - p) →
        expandCIDR fuel (IP.String (ipv4 n) ++ "/" ++ String.mk (Nat.toDigits 10 p)) =
          .fuelOut) ∧
      (ParseCIDR (IP.String (ipv4 n) ++ "/" ++ String.mk (Nat.toDigits 10 0)) =
          some (ipv4In16 n, { IP := [0, 0, 0, 0], Mask := [0, 0, 0, 0] }) ∧
        (∀ ip : IP, ip.length = 4 →
          IPNet.Contains { IP := [0, 0, 0, 0], Mask := [0, 0, 0, 0] } ip = true) ∧
        ∀ fuel,
          cidrLoop { IP := [0, 0, 0, 0], Mask := [0, 0, 0, 0] } fuel
            (Mask [0, 0, 0, 0] [0, 0, 0, 0]) [] = .fuelOut ∧
          expandCIDR fuel (IP.String (ipv4 n) ++ "/" ++ String.mk (Nat.toDigits 10 0)) =
            .fuelOut) := by
  have hpos : 0 < 2 ^ (32 - p) := Nat.two_pow_pos _
  have hB : n / 2 ^ (32 - p) * 2 ^ (32 - p) < 4294967296 :=
    lt_of_le_of_lt (Nat.div_mul_le_self _ _) hn
  have hstart : Mask (ipv4 (n / 2 ^ (32 - p) * 2 ^ (32 - p))) (CIDRMask p 32) =
      ipv4 ((n / 2 ^ (32 - p) * 2 ^ (32 - p) + 0) % 4294967296) := by
    rw [Mask_ipv4 p hp, Nat.mul_div_cancel _ hpos, Nat.add_zero, Nat.mod_eq_of_lt hB]
  have hloop : ∀ fuel, 2 ^ (32 - p) ≤ fuel →
      cidrLoop { IP := ipv4 (n / 2 ^ (32 - p) * 2 ^ (32 - p)), Mask := CIDRMask p 32 } fuel
          (Mask (ipv4 (n / 2 ^ (32 - p) * 2 ^ (32 - p))) (CIDRMask p 32)) [] =
        .done ((List.range' (n / 2 ^ (32 - p) * 2 ^ (32 - p)) (2 ^ (32 - p))).map
          fun v => IP.String (ipv4 v)) := by
    intro fuel hfuel
    have h := cidrLoop_ipv4 p (n / 2 ^ (32 - p)) hp1 hp hB (2 ^ (32 - p)) 0 fuel []
      (by omega) hfuel
    rw [hstart]
    simpa using h
  have hshort : ∀ fuel, fuel < 2 ^ (32 - p) →
      cidrLoop { IP := ipv4 (n / 2 ^ (32 - p) * 2 ^ (32 - p)), Mask := CIDRMask p 32 } fuel
          (Mask (ipv4 (n / 2 ^ (32 - p) * 2 ^ (32 - p))) (CIDRMask p 32)) [] = .fuelOut :=
    fun fuel hlt => cidrLoop_short _ fuel (2 ^ (32 - p)) _ _ (hloop _ (le_refl _)) (by simp) hlt
  have hmask0 : Mask [0, 0, 0, 0] [0, 0, 0, 0] = [0, 0, 0, 0] := by decide
  refine ⟨ParseCIDR_ipv4 n p hp, ?_, hshort, ?_, ?_, ?_, ParseCIDR_ipv4_zero n hn,
    Contains_zero_mask, ?_⟩
  · intro fuel hfuel
    exact ⟨_, hloop fuel hfuel, by simp⟩
  · rw [Contains_ipv4 p hp _ _ hB (Nat.mod_lt _ (by decide))]
    have h1 := block_next_outside p (n / 2 ^ (32 - p)) hp1 hp hB
    rw [Nat.mul_div_cancel _ hpos]
    simpa using h1
  · intro fuel hfuel
    exact ⟨_, expandCIDR_ipv4 n p fuel hn hp1 hp hfuel⟩
  · intro fuel hlt
    unfold expandCIDR
    rw [ParseCIDR_ipv4 n p hp]
    simp only [hshort fuel hlt]
  · intro fuel
    have h0 := cidrLoop_zero_mask fuel [0, 0, 0, 0] [] rfl
    refine ⟨by rw [hmask0]; exact h0, ?_⟩
    unfold expandCIDR
    rw [ParseCIDR_ipv4_zero n hn]
    simp only [hmask0, h0]

theorem expandCIDR_rounds_witness :
    (∀ fuel, 4 ≤ fuel → ∃ out, expandCIDR fuel "255.255.255.252/30" = .done out) ∧
      (∀ fuel, fuel < 4 → expandCIDR fuel "255.255.255.252/30" = .fuelOut) ∧
      IPNet.Contains { IP := [255, 255, 255, 252], Mask := [255, 255, 255, 252] }
        [0, 0, 0, 0] = false ∧
      (∀ fuel, expandCIDR fuel "255.255.255.252/0" = .fuelOut) := by
  have h := expandCIDR_rounds 4294967292 30 (by decide) (by decide) (by decide)
  have e1 : IP.String (ipv4 4294967292) ++ "/" ++ String.mk (Nat.toDigits 10 30) =
      "255.255.255.252/30" := by decide
  have e0 : IP.String (ipv4 4294967292) ++ "/" ++ String.mk (Nat.toDigits 10 0) =
      "255.255.255.252/0" := by decide
  rw [e1, e0] at h
  exact ⟨h.2.2.2.2.1, h.2.2.2.2.2.1, by decide, fun fuel => (h.2.2.2.2.2.2.2.2 fuel).2⟩

/-! ## splitter.go: `incIP` on byte slices read as numbers -/

theorem incIP_beVal (ip : IP) (h : ∀ b ∈ ip, b < 256) :
    beVal (incIP ip) = (beVal ip + 1) % 256 ^ ip.length := by
  have hrev : ∀ b ∈ ip.reverse, b < 256 := fun b hb => h b (List.mem_reverse.1 hb)
  rw [beVal_eq_foldr, beVal_eq_foldr]
  unfold incIP
  rw [List.reverse_reverse, incIPRev_val ip.reverse hrev, List.length_reverse]

theorem incIP_bytes (ip : IP) (h : ∀ b ∈ ip, b < 256) : ∀ b ∈ incIP ip, b < 256 := by
  intro b hb
  unfold incIP at hb
  exact incIPRev_bytes ip.reverse (fun x hx => h x (List.mem_reverse.1 hx)) b
    (List.mem_reverse.1 hb)

theorem beVal_lt (ip : IP) (h : ∀ b ∈ ip, b < 256) : beVal ip < 256 ^ ip.length := by
  rw [beVal_eq_foldr]
  have := leVal_lt ip.reverse (fun b hb => h b (List.mem_reverse.1 hb))
  rwa [List.length_reverse] at this

theorem leVal_injective : ∀ l1 l2 : List Nat, l1.length = l2.length →
    (∀ b ∈ l1, b < 256) → (∀ b ∈ l2, b < 256) →
    l1.foldr (fun b acc => acc * 256 + b) 0 = l2.foldr (fun b acc => acc * 256 + b) 0 →
    l1 = l2 := by
  intro l1
  induction l1 with
  | nil =>
    intro l2 hlen _ _ _
    cases l2 with
    | nil => rfl
    | cons y ys => cases hlen
  | cons x xs ih =>
    intro l2 hlen h1 h2 hv
    cases l2 with
    | nil => cases hlen
    | cons y ys =>
      have hx := h1 x (List.mem_cons_self _ _)
      have hy := h2 y (List.mem_cons_self _ _)
      simp only [List.foldr_cons] at hv
      have hxy : x = y := by omega
      have hrest : xs.foldr (fun b acc => acc * 256 + b) 0 =
          ys.foldr (fun b acc => acc * 256 + b) 0 := by omega
      rw [hxy, ih ys (by simpa using hlen) (fun b hb => h1 b (List.mem_cons_of_mem _ hb))
        (fun b hb => h2 b (List.mem_cons_of_mem _ hb)) hrest]

theorem beVal_injective (l1 l2 : List Nat) (hlen : l1.length = l2.length)
    (h1 : ∀ b ∈ l1, b < 256) (h2 : ∀ b ∈ l2, b < 256) (hv : beVal l1 = beVal l2) : l1 = l2 := by
  rw [beVal_eq_foldr, beVal_eq_foldr] at hv
  have := leVal_injective l1.reverse l2.reverse (by simpa using hlen)
    (fun b hb => h1 b (List.mem_reverse.1 hb)) (fun b hb => h2 b (List.mem_reverse.1 hb)) hv
  exact List.reverse_injective this

theorem Equal_same_length (ip x : IP) (h : ip.length = x.length) :
    Equal ip x = decide (ip = x) := by
  unfold Equal
  rw [if_pos h]
  by_cases hx : ip = x
  · subst hx; simp
  · simp [hx]

/-! ## splitter.go: the loop of `expandIPRange` on 16-byte addresses -/

theorem rangeLoop_walk (endIP : IP) (hlenE : endIP.length = 16) (hE : ∀ b ∈ endIP, b < 256) :
    ∀ (fuel k : Nat) (ip : IP) (acc : List String), ip.length = 16 → (∀ b ∈ ip, b < 256) →
      (beVal endIP + 340282366920938463463374607431768211456 - beVal ip) %
        340282366920938463463374607431768211456 = k →
      (k ≤ fuel → rangeLoop endIP fuel ip acc =
        .done (acc ++ (List.range k).map fun j => IP.String (Nat.iterate incIP j ip))) ∧
      (fuel < k → rangeLoop endIP fuel ip acc = .fuelOut) := by
  have hM : (256 : Nat) ^ 16 = 340282366920938463463374607431768211456 := by norm_num
  have hEl := beVal_lt endIP hE
  rw [hlenE, hM] at hEl
  intro fuel
  induction fuel with
  | zero =>
    intro k ip acc hlen hb hk
    have hl := beVal_lt ip hb
    rw [hlen, hM] at hl
    constructor
    · intro hk0
      have hv : beVal ip = beVal endIP := by omega
      have hip : ip = endIP := beVal_injective ip endIP (by rw [hlen, hlenE]) hb hE hv
      have hk00 : k = 0 := by omega
      subst hk00
      have heq : Equal ip endIP = true := by
        rw [Equal_same_length ip endIP (by rw [hlen, hlenE])]
        exact decide_eq_true hip
      simp [rangeLoop, heq]
    · intro hk0
      have hne : ip ≠ endIP := by
        intro h
        rw [h] at hk
        omega
      have heq : Equal ip endIP = false := by
        rw [Equal_same_length ip endIP (by rw [hlen, hlenE])]
        exact decide_eq_false hne
      simp [rangeLoop, heq]
  | succ f ih =>
    intro k ip acc hlen hb hk
    have hl := beVal_lt ip hb
    rw [hlen, hM] at hl
    by_cases hip : ip = endIP
    · have hk00 : k = 0 := by
        rw [hip] at hk
        omega
      subst hk00
      have heq : Equal ip endIP = true := by
        rw [Equal_same_length ip endIP (by rw [hlen, hlenE])]
        exact decide_eq_true hip
      constructor
      · intro _
        simp [rangeLoop, heq]
      · intro h; omega
    · have hvne : beVal ip ≠ beVal endIP := fun hv =>
        hip (beVal_injective ip endIP (by rw [hlen, hlenE]) hb hE hv)
      have hnext := incIP_beVal ip hb
      rw [hlen, hM] at hnext
      have hk1 : (beVal endIP + 340282366920938463463374607431768211456 - beVal (incIP ip)) %
          340282366920938463463374607431768211456 = k - 1 := by
        rw [hnext]
        omega
      have hkpos : 1 ≤ k := by omega
      have hstep := ih (k - 1) (incIP ip) (acc ++ [IP.String ip])
        (by rw [incIP_length]; exact hlen) (incIP_bytes ip hb) hk1
      have heq : Equal ip endIP = false := by
        rw [Equal_same_length ip endIP (by rw [hlen, hlenE])]
        exact decide_eq_false hip
      have hloop : rangeLoop endIP (f + 1) ip acc =
          rangeLoop endIP f (incIP ip) (acc ++ [IP.String ip]) := by
        simp [rangeLoop, heq]
      rw [hloop]
      constructor
      · intro hkf
        rw [hstep.1 (by omega)]
        obtain ⟨k1, rfl⟩ : ∃ k1, k = k1 + 1 := ⟨k - 1, by omega⟩
        simp only [Nat.add_sub_cancel]
        rw [List.range_succ_eq_map]
        simp only [List.map_cons, List.map_map, List.append_assoc, List.singleton_append,
          Function.iterate_zero, id_eq]
        rfl
      · intro hkf
        exact hstep.2 (by omega)

/-! ## splitter.go: a range whose end lies below its start -/

theorem ipv4In16_bytes (n : Nat) : ∀ b ∈ ipv4In16 n, b < 256 := by
  intro b hb
  simp only [ipv4In16, v4InV6Prefix, ipv4, List.cons_append, List.nil_append, List.mem_cons,
    List.mem_singleton, List.not_mem_nil, or_false] at hb
  rcases hb with h | h | h | h | h | h | h | h | h | h | h | h | h | h | h | h <;> omega

theorem beVal_ipv4In16 (n : Nat) (hn : n < 4294967296) :
    beVal (ipv4In16 n) = 281470681743360 + n := by
  simp only [beVal, ipv4In16, v4InV6Prefix, ipv4, List.cons_append, List.nil_append,
    List.foldl_cons, List.foldl_nil]
  omega

theorem iterate_incIP_ipv4In16 (a : Nat) : ∀ j : Nat, a + j < 4294967296 →
    Nat.iterate incIP j (ipv4In16 a) = ipv4In16 (a + j) := by
  intro j
  induction j with
  | zero => intro _; rfl
  | succ j ih =>
    intro h
    rw [Function.iterate_succ_apply', ih (by omega), incIP_ipv4In16 (a + j) (by omega)]
    rfl

theorem expandIPRange_16_done (a b fuel : Nat) (ips : List String)
    (h : rangeLoop (ipv4In16 b) fuel (ipv4In16 a) [] = .done ips) :
    expandIPRange fuel (IP.String (ipv4 a) ++ "-" ++ IP.String (ipv4 b)) =
      .done (ips ++ [IP.String (ipv4 b)]) := by
  have hparts : Split (IP.String (ipv4 a) ++ "-" ++ IP.String (ipv4 b)) '-' =
      [IP.String (ipv4 a), IP.String (ipv4 b)] :=
    Split_two _ _ '-' (IP_String_ipv4_no_dash a) (IP_String_ipv4_no_dash b)
  unfold expandIPRange
  rw [hparts]
  simp only [IP_String_ipv4_trim, ParseIP_ipv4, IP_String_ipv4In16, h]

theorem expandIPRange_16_fuelOut (a b fuel : Nat)
    (h : rangeLoop (ipv4In16 b) fuel (ipv4In16 a) [] = .fuelOut) :
    expandIPRange fuel (IP.String (ipv4 a) ++ "-" ++ IP.String (ipv4 b)) = .fuelOut := by
  have hparts : Split (IP.String (ipv4 a) ++ "-" ++ IP.String (ipv4 b)) '-' =
      [IP.String (ipv4 a), IP.String (ipv4 b)] :=
    Split_two _ _ '-' (IP_String_ipv4_no_dash a) (IP_String_ipv4_no_dash b)
  unfold expandIPRange
  rw [hparts]
  simp only [IP_String_ipv4_trim, ParseIP_ipv4, h]

/-- The walk of `expandIPRange` on a reversed range. For IPv4 addresses
`b < a`, `expandIPRange` on the text `a-b` does not hand the text back and does
not return an empty list: it walks upwards from `a`. `net.ParseIP` gives the
16-byte form, so after `255.255.255.255` the walk goes on with `::1:0:0:0` and
comes to `b` only after `2^128 - (a - b)` rounds. A budget of that many rounds
gives a list of `2^128 - (a - b) + 1` entries that begins with
`a, a+1, ..., 255.255.255.255` and ends with `b`; with a smaller budget the
loop is still running. -/
theorem reversed_range_walk (a b : Nat) (ha : a < 4294967296) (hab : b < a) :
    (∃ out, (∀ fuel, 2 ^ 128 - (a - b) ≤ fuel →
          expandIPRange fuel (IP.String (ipv4 a) ++ "-" ++ IP.String (ipv4 b)) = .done out) ∧
        out.length = 2 ^ 128 - (a - b) + 1 ∧
        2 ^ 32 - (a - b) + 1 ≤ out.length ∧
        (∀ i, i < 2 ^ 32 - a → out[i]? = some (IP.String (ipv4 (a + i)))) ∧
        out[2 ^ 32 - a]? = some "::1:0:0:0" ∧
        out.getLast? = some (IP.String (ipv4 b))) ∧
      (∀ fuel, fuel < 2 ^ 128 - (a - b) →
        expandIPRange fuel (IP.String (ipv4 a) ++ "-" ++ IP.String (ipv4 b)) = .fuelOut) ∧
      (∀ fuel,
        expandIPRange fuel (IP.String (ipv4 a) ++ "-" ++ IP.String (ipv4 b)) ≠
            .done [IP.String (ipv4 a) ++ "-" ++ IP.String (ipv4 b)] ∧
          expandIPRange fuel (IP.String (ipv4 a) ++ "-" ++ IP.String (ipv4 b)) ≠ .done []) := by
  have hb : b < 4294967296 := by omega
  have h128 : (2 : Nat) ^ 128 = 340282366920938463463374607431768211456 := by norm_num
  have h32 : (2 : Nat) ^ 32 = 4294967296 := by norm_num
  rw [h128, h32]
  have hk : (beVal (ipv4In16 b) + 340282366920938463463374607431768211456 -
      beVal (ipv4In16 a)) % 340282366920938463463374607431768211456 =
      340282366920938463463374607431768211456 - (a - b) := by
    rw [beVal_ipv4In16 a ha, beVal_ipv4In16 b hb]
    omega
  have hwalk := fun fuel => rangeLoop_walk (ipv4In16 b) rfl (ipv4In16_bytes b) fuel
    (340282366920938463463374607431768211456 - (a - b)) (ipv4In16 a) [] rfl (ipv4In16_bytes a) hk
  have hdone : ∀ fuel, 340282366920938463463374607431768211456 - (a - b) ≤ fuel →
      expandIPRange fuel (IP.String (ipv4 a) ++ "-" ++ IP.String (ipv4 b)) =
        .done ((List.range (340282366920938463463374607431768211456 - (a - b))).map
          (fun j => IP.String (Nat.iterate incIP j (ipv4In16 a))) ++ [IP.String (ipv4 b)]) := by
    intro fuel hfuel
    exact expandIPRange_16_done a b fuel _ ((hwalk fuel).1 hfuel)
  have hout : ∀ fuel, fuel < 340282366920938463463374607431768211456 - (a - b) →
      expandIPRange fuel (IP.String (ipv4 a) ++ "-" ++ IP.String (ipv4 b)) = .fuelOut := by
    intro fuel hfuel
    exact expandIPRange_16_fuelOut a b fuel ((hwalk fuel).2 hfuel)
  have hlast : Nat.iterate incIP (4294967296 - a) (ipv4In16 a) =
      [0, 0, 0, 0, 0, 0, 0, 0, 0, 1, 0, 0, 0, 0, 0, 0] := by
    obtain ⟨j, hj⟩ : ∃ j, 4294967296 - a = j + 1 := ⟨4294967296 - a - 1, by omega⟩
    rw [hj, Function.iterate_succ_apply', iterate_incIP_ipv4In16 a j (by omega),
      show a + j = 4294967295 by omega]
    decide
  refine ⟨⟨_, hdone, ?_, ?_, ?_, ?_, ?_⟩, hout, ?_⟩
  · simp
  · simp only [List.length_append, List.length_map, List.length_range, List.length_singleton]
    omega
  · intro i hi
    rw [List.getElem?_append_left (by simp; omega), List.getElem?_map,
      List.getElem?_range (by omega)]
    simp only [Option.map_some']
    rw [iterate_incIP_ipv4In16 a i (by omega), IP_String_ipv4In16]
  · rw [List.getElem?_append_left (by simp; omega), List.getElem?_map,
      List.getElem?_range (by omega)]
    simp only [Option.map_some']
    rw [hlast]
    decide
  · simp
  · intro fuel
    by_cases hfuel : 340282366920938463463374607431768211456 - (a - b) ≤ fuel
    · rw [hdone fuel hfuel]
      constructor
      · intro h
        have hlen := congrArg (fun r => match r with
          | Run.done l => l.length
          | _ => 0) h
        simp only [List.length_append, List.length_map, List.length_range,
          List.length_singleton] at hlen
        omega
      · intro h
        have hlen := congrArg (fun r => match r with
          | Run.done l => l.length
          | _ => 0) h
        simp only [List.length_append, List.length_map, List.length_range,
          List.length_singleton, List.length_nil] at hlen
        omega
    · rw [hout fuel (by omega)]
      exact ⟨fun h => (by cases h), fun h => (by cases h)⟩

/-- C24, at the range `10.0.0.5-10.0.0.1`. Whatever the budget, the call is
still running, unless the budget allows `2^128 - 4` rounds of the loop, each of
which appends one entry; the list then has `2^128 - 3` entries, the entry after
`255.255.255.255` being `::1:0:0:0`. -/
theorem reversed_range_diverges (fuel : Nat) :
    expandIPRange fuel "10.0.0.5-10.0.0.1" = .fuelOut ∨
      (340282366920938463463374607431768211452 ≤ fuel ∧
        ∃ out, expandIPRange fuel "10.0.0.5-10.0.0.1" = .done out ∧
          out.length = 340282366920938463463374607431768211453 ∧
          out[0]? = some "10.0.0.5" ∧
          out[4127195131]? = some "::1:0:0:0" ∧
          out.getLast? = some "10.0.0.1") := by
  have h := reversed_range_walk 167772165 167772161 (by decide) (by decide)
  have e : IP.String (ipv4 167772165) ++ "-" ++ IP.String (ipv4 167772161) =
      "10.0.0.5-10.0.0.1" := by decide
  have e5 : IP.String (ipv4 (167772165 + 0)) = "10.0.0.5" := by decide
  have e1 : IP.String (ipv4 167772161) = "10.0.0.1" := by decide
  have h128 : (2 : Nat) ^ 128 = 340282366920938463463374607431768211456 := by norm_num
  have h32 : (2 : Nat) ^ 32 = 4294967296 := by norm_num
  rw [e, h128, h32] at h
  obtain ⟨⟨out, hdone, hlen, -, hpre, hnext, hlast⟩, hout, -⟩ := h
  have h0 := hpre 0 (by norm_num)
  rw [e5] at h0
  rw [e1] at hlast
  by_cases hfuel : 340282366920938463463374607431768211452 ≤ fuel
  · exact Or.inr ⟨hfuel, out, hdone fuel (by omega), by omega, h0, hnext, hlast⟩
  · exact Or.inl (hout fuel (by omega))

/-! ## naabu.go: the callback, one reported port at a time -/

theorem portStep_skipped (gc : String → String) (T : Int) (h : String) :
    ∀ (ps : List Int) (st : NaabuState), st.skippedHosts h = true →
      (ps.map fun port => (h, port)).foldl (portStep gc T) st = st := by
  intro ps
  induction ps with
  | nil => intro st _; rfl
  | cons p rest ih =>
    intro st hs
    simp only [List.map_cons, List.foldl_cons]
    have : portStep gc T st (h, p) = st := by
      unfold portStep
      simp only [hs, if_true]
    rw [this]
    exact ih st hs

theorem mapSet_self {α : Type} (m : String → α) (key : String) (v : α) :
    mapSet m key v key = v := by
  simp [mapSet]

theorem mapSet_ne {α : Type} (m : String → α) (key k : String) (v : α) (h : k ≠ key) :
    mapSet m key v k = m k := by
  simp [mapSet, h]

theorem OnResult_ports_eq (gc : String → String) (T : Int) (h : String) :
    ∀ (ps : List Int) (st : NaabuState), st.skippedHosts h = false →
      OnResult.ports gc T h ps st = (ps.map fun port => (h, port)).foldl (portStep gc T) st := by
  intro ps
  induction ps with
  | nil => intro st _; rfl
  | cons p rest ih =>
    intro st hs
    simp only [List.map_cons, List.foldl_cons]
    rw [OnResult.ports]
    simp only [mapSet_self]
    have hstep : portStep gc T st (h, p) =
        if T > 0 ∧ wrapInt (st.hostPortCount h + 1) > T then
          { assets := st.assets.filter fun a => a.Host != h
            hostPortCount := mapSet st.hostPortCount h (wrapInt (st.hostPortCount h + 1))
            skippedHosts := mapSet st.skippedHosts h true }
        else
          { assets := st.assets ++ [newAsset gc h p]
            hostPortCount := mapSet st.hostPortCount h (wrapInt (st.hostPortCount h + 1))
            skippedHosts := st.skippedHosts } := by
      unfold portStep
      simp only [hs, Bool.false_eq_true, if_false]
    rw [hstep]
    by_cases hc : T > 0 ∧ wrapInt (st.hostPortCount h + 1) > T
    · rw [if_pos hc, if_pos hc]
      simp only [hs, Bool.false_eq_true, not_false_eq_true, if_true]
      rw [portStep_skipped gc T h rest _ (mapSet_self _ _ _)]
    · rw [if_neg hc, if_neg hc]
      exact ih _ hs

theorem OnResult_eq (gc : String → String) (T : Int) (st : NaabuState) (hr : HostResult) :
    OnResult gc T st hr = (hr.Ports.map fun port => (hr.Host, port)).foldl (portStep gc T) st := by
  unfold OnResult
  cases hs : st.skippedHosts hr.Host with
  | true =>
    simp only [if_true]
    exact (portStep_skipped gc T hr.Host hr.Ports st hs).symm
  | false =>
    simp only [Bool.false_eq_true, if_false]
    exact OnResult_ports_eq gc T hr.Host hr.Ports st hs

theorem reports_cons (hr : HostResult) (calls : List HostResult) :
    reports (hr :: calls) = (hr.Ports.map fun port => (hr.Host, port)) ++ reports calls := by
  simp [reports, List.flatMap_cons]

theorem reports_append (c1 c2 : List HostResult) :
    reports (c1 ++ c2) = reports c1 ++ reports c2 := by
  simp [reports, List.flatMap_append]

theorem foldl_OnResult_eq (gc : String → String) (T : Int) : ∀ (calls : List HostResult)
    (st : NaabuState),
    calls.foldl (OnResult gc T) st = (reports calls).foldl (portStep gc T) st := by
  intro calls
  induction calls with
  | nil => intro st; rfl
  | cons hr rest ih =>
    intro st
    rw [List.foldl_cons, reports_cons, List.foldl_append, OnResult_eq, ih]

/-! ## naabu.go: the port threshold -/

theorem wrapInt_small (x : Int) (h0 : -9223372036854775808 ≤ x) (h1 : x < 9223372036854775808) :
    wrapInt x = x := by
  unfold wrapInt
  omega

theorem count_snoc (es : List (String × Int)) (h h2 : String) (p : Int) :
    (((es ++ [(h, p)]).filter fun e => e.1 == h2).length : Int) =
      ((es.filter fun e => e.1 == h2).length : Int) + (if h = h2 then 1 else 0) := by
  rw [List.filter_append, List.length_append]
  by_cases hh : h = h2
  · subst hh
    simp
  · have : ((h == h2) = false) := by simpa using hh
    simp [List.filter_cons, this, hh]

theorem ThresholdInv_step (gc : String → String) (T : Int) (hT : 0 < T)
    (hT1 : T < 9223372036854775807) (st : NaabuState) (es : List (String × Int))
    (e : String × Int) (hinv : ThresholdInv gc T st es) :
    ThresholdInv gc T (portStep gc T st e) (es ++ [e]) := by
  obtain ⟨h, p⟩ := e
  obtain ⟨h1, h2, h3⟩ := hinv
  have hcnt := count_snoc es h
  have hnn : (0 : Int) ≤ ((es.filter fun e => e.1 == h).length : Int) := Int.natCast_nonneg _
  have hmap : (es ++ [(h, p)]).map (fun e => newAsset gc e.1 e.2) =
      es.map (fun e => newAsset gc e.1 e.2) ++ [newAsset gc h p] := by simp
  have hhost : (newAsset gc h p).Host = h := rfl
  cases hs : st.skippedHosts h with
  | true =>
    have hover : T < ((es.filter fun e => e.1 == h).length : Int) := by
      have := h1 h
      rw [hs] at this
      exact of_decide_eq_true this.symm
    have hstep : portStep gc T st (h, p) = st := by
      unfold portStep
      simp only [hs, if_true]
    rw [hstep]
    refine ⟨?_, ?_, ?_⟩
    · intro k
      rw [h1 k, hcnt k p]
      by_cases hk : h = k
      · subst hk
        rw [if_pos rfl, decide_eq_true hover, decide_eq_true (by omega)]
      · rw [if_neg hk, Int.add_zero]
    · intro k hk
      have hne : h ≠ k := by
        intro e
        rw [e] at hs
        rw [hs] at hk
        cases hk
      rw [h2 k hk, hcnt k p, if_neg hne, Int.add_zero]
    · rw [hmap, List.filter_append, h3]
      have hlast : [newAsset gc h p].filter (fun a =>
          decide ((((es ++ [(h, p)]).filter fun e => e.1 == a.Host).length : Int) ≤ T)) = [] := by
        rw [List.filter_cons_of_neg]
        · rfl
        · rw [hhost, hcnt h p, if_pos rfl]
          simp only [decide_eq_true_eq, not_le]
          omega
      rw [hlast, List.append_nil]
      apply List.filter_congr
      intro a _
      rw [hcnt a.Host p]
      by_cases hk : h = a.Host
      · rw [if_pos hk, ← hk, decide_eq_false (by omega), decide_eq_false (by omega)]
      · rw [if_neg hk, Int.add_zero]
  | false =>
    have hle : ((es.filter fun e => e.1 == h).length : Int) ≤ T := by
      have := h1 h
      rw [hs] at this
      have := of_decide_eq_false this.symm
      omega
    have hcount := h2 h hs
    have hwrap : wrapInt (st.hostPortCount h + 1) =
        ((es.filter fun e => e.1 == h).length : Int) + 1 := by
      rw [hcount]
      exact wrapInt_small _ (by omega) (by omega)
    by_cases hc : T > 0 ∧ wrapInt (st.hostPortCount h + 1) > T
    · have hstep : portStep gc T st (h, p) =
          { assets := st.assets.filter fun a => a.Host != h
            hostPortCount := mapSet st.hostPortCount h (wrapInt (st.hostPortCount h + 1))
            skippedHosts := mapSet st.skippedHosts h true } := by
        unfold portStep
        simp only [hs, Bool.false_eq_true, if_false, hc, and_self, if_true]
      rw [hstep]
      have hgt : T < ((es.filter fun e => e.1 == h).length : Int) + 1 := by
        have := hc.2
        rw [hwrap] at this
        exact this
      refine ⟨?_, ?_, ?_⟩
      · intro k
        simp only []
        rw [hcnt k p]
        by_cases hk : h = k
        · subst hk
          rw [mapSet_self, if_pos rfl, decide_eq_true hgt]
        · rw [mapSet_ne _ _ _ _ (fun e => hk e.symm), if_neg hk, Int.add_zero]
          exact h1 k
      · intro k hk
        simp only [] at hk ⊢
        have hne : h ≠ k := by
          intro e
          rw [← e, mapSet_self] at hk
          cases hk
        rw [mapSet_ne _ _ _ _ (fun e => hne e.symm)] at hk ⊢
        rw [h2 k hk, hcnt k p, if_neg hne, Int.add_zero]
      · simp only []
        rw [hmap, List.filter_append, h3, List.filter_filter]
        have hlast : [newAsset gc h p].filter (fun a =>
            decide ((((es ++ [(h, p)]).filter fun e => e.1 == a.Host).length : Int) ≤ T)) =
            [] := by
          rw [List.filter_cons_of_neg]
          · rfl
          · rw [hhost, hcnt h p, if_pos rfl]
            simp only [decide_eq_true_eq, not_le]
            omega
        rw [hlast, List.append_nil]
        apply List.filter_congr
        intro a _
        rw [hcnt a.Host p]
        by_cases hk : h = a.Host
        · have hb : (a.Host != h) = false := by simp [← hk]
          rw [if_pos hk, hb, Bool.false_and, ← hk]
          exact (decide_eq_false (by omega)).symm
        · have hb : (a.Host != h) = true := by simpa using fun e => hk e.symm
          rw [if_neg hk, Int.add_zero, hb, Bool.true_and]
    · have hstep : portStep gc T st (h, p) =
          { assets := st.assets ++ [newAsset gc h p]
            hostPortCount := mapSet st.hostPortCount h (wrapInt (st.hostPortCount h + 1))
            skippedHosts := st.skippedHosts } := by
        unfold portStep
        simp only [hs, Bool.false_eq_true, if_false, hc]
      rw [hstep]
      have hle1 : ((es.filter fun e => e.1 == h).length : Int) + 1 ≤ T := by
        rw [hwrap] at hc
        by_contra hcon
        exact hc ⟨hT, by omega⟩
      refine ⟨?_, ?_, ?_⟩
      · intro k
        simp only []
        rw [h1 k, hcnt k p]
        by_cases hk : h = k
        · subst hk
          rw [if_pos rfl, decide_eq_false (by omega), decide_eq_false (by omega)]
        · rw [if_neg hk, Int.add_zero]
      · intro k hk
        simp only [] at hk ⊢
        rw [hcnt k p]
        by_cases hkh : h = k
        · subst hkh
          rw [mapSet_self, if_pos rfl, hwrap]
        · rw [mapSet_ne _ _ _ _ (fun e => hkh e.symm), if_neg hkh, Int.add_zero]
          exact h2 k hk
      · simp only []
        rw [hmap, List.filter_append, h3]
        have hlast : [newAsset gc h p].filter (fun a =>
            decide ((((es ++ [(h, p)]).filter fun e => e.1 == a.Host).length : Int) ≤ T)) =
            [newAsset gc h p] := by
          rw [List.filter_cons_of_pos]
          · rfl
          · rw [hhost, hcnt h p, if_pos rfl]
            exact decide_eq_true hle1
        rw [hlast]
        congr 1
        apply List.filter_congr
        intro a _
        rw [hcnt a.Host p]
        by_cases hk : h = a.Host
        · rw [if_pos hk, ← hk, decide_eq_true hle, decide_eq_true hle1]
        · rw [if_neg hk, Int.add_zero]

/-! ## naabu.go: the threshold over a whole scan -/

theorem ThresholdInv_init (gc : String → String) (T : Int) (hT : 0 < T) :
    ThresholdInv gc T NaabuState.init [] := by
  refine ⟨?_, ?_, rfl⟩
  · intro h
    simp [NaabuState.init]
    omega
  · intro h _
    simp [NaabuState.init]

theorem ThresholdInv_foldl (gc : String → String) (T : Int) (hT : 0 < T)
    (hT1 : T < 9223372036854775807) : ∀ (es2 : List (String × Int)) (st : NaabuState)
    (es1 : List (String × Int)), ThresholdInv gc T st es1 →
    ThresholdInv gc T (es2.foldl (portStep gc T) st) (es1 ++ es2) := by
  intro es2
  induction es2 with
  | nil => intro st es1 h; simpa using h
  | cons e rest ih =>
    intro st es1 h
    have := ih _ _ (ThresholdInv_step gc T hT hT1 st es1 e h)
    simpa [List.append_assoc] using this

theorem runNaabu_eq (gc : String → String) (T : Int) (hT : 0 < T)
    (hT1 : T < 9223372036854775807) (calls : List HostResult) :
    runNaabu gc T calls = (reportedAssets gc calls).filter fun a =>
      decide ((reportedPorts a.Host calls : Int) ≤ T) := by
  have h := ThresholdInv_foldl gc T hT hT1 (reports calls) NaabuState.init []
    (ThresholdInv_init gc T hT)
  rw [List.nil_append] at h
  unfold runNaabu
  rw [foldl_OnResult_eq]
  exact h.2.2

theorem host_assets_length (gc : String → String) (es : List (String × Int)) (h : String) :
    ((es.map fun e => newAsset gc e.1 e.2).filter fun a => a.Host == h).length =
      (es.filter fun e => e.1 == h).length := by
  rw [List.filter_map, List.length_map]
  rfl

theorem portStep_others (gc : String → String) (T : Int) (st : NaabuState) (e : String × Int) :
    (portStep gc T st e).assets.filter (fun a => a.Host != e.1) =
      st.assets.filter (fun a => a.Host != e.1) := by
  unfold portStep
  split
  · rfl
  · simp only []
    split
    · simp only [List.filter_filter, Bool.and_self]
    · simp only [List.filter_append]
      have : [newAsset gc e.1 e.2].filter (fun a => a.Host != e.1) = [] := by
        rw [List.filter_cons_of_neg]
        · rfl
        · simp [newAsset]
      rw [this, List.append_nil]

theorem OnResult_others (gc : String → String) (T : Int) (st : NaabuState) (hr : HostResult) :
    (OnResult gc T st hr).assets.filter (fun a => a.Host != hr.Host) =
      st.assets.filter (fun a => a.Host != hr.Host) := by
  rw [OnResult_eq]
  generalize hr.Ports = ps
  induction ps generalizing st with
  | nil => rfl
  | cons p rest ih =>
    simp only [List.map_cons, List.foldl_cons]
    rw [ih, portStep_others gc T st (hr.Host, p)]

theorem portStep_no_threshold (gc : String → String) (T : Int) (hT : T ≤ 0) :
    ∀ (es : List (String × Int)) (st : NaabuState), (∀ h, st.skippedHosts h = false) →
      (es.foldl (portStep gc T) st).assets =
        st.assets ++ es.map fun e => newAsset gc e.1 e.2 := by
  intro es
  induction es with
  | nil => intro st _; simp
  | cons e rest ih =>
    intro st hs
    have hstep : portStep gc T st e =
        { assets := st.assets ++ [newAsset gc e.1 e.2]
          hostPortCount := mapSet st.hostPortCount e.1 (wrapInt (st.hostPortCount e.1 + 1))
          skippedHosts := st.skippedHosts } := by
      unfold portStep
      have hc : ¬ (T > 0 ∧ wrapInt (st.hostPortCount e.1 + 1) > T) := by
        rintro ⟨h0, -⟩
        omega
      simp only [hs e.1, Bool.false_eq_true, if_false, hc]
    rw [List.foldl_cons, hstep]
    refine (ih { assets := st.assets ++ [newAsset gc e.1 e.2]
                 hostPortCount := mapSet st.hostPortCount e.1
                   (wrapInt (st.hostPortCount e.1 + 1))
                 skippedHosts := st.skippedHosts } hs).trans ?_
    simp

/-- C22. The port threshold of the `OnResult` callback of `runNaabu`, for any
sequence of callbacks. With a threshold `0 < T` (below the largest `int`), the
assets collected after the sequence are the reported ports, in the order
reported, of exactly the hosts for which at most `T` ports were reported in
all; so no host has more than `T` assets, and a host with more than `T`
reported ports has none after this sequence and after any longer one. One
callback leaves the assets of every other host as they are, in number and
order, whatever the state and the threshold. With a threshold of zero (or
below) every reported port is in the list and nothing is removed. -/
theorem runNaabu_threshold (gc : String → String) (T : Int) (calls : List HostResult) :
    (0 < T → T < 9223372036854775807 →
      runNaabu gc T calls = (reportedAssets gc calls).filter (fun a =>
        decide ((reportedPorts a.Host calls : Int) ≤ T)) ∧
      (∀ h : String, (((runNaabu gc T calls).filter fun a => a.Host == h).length : Int) ≤ T) ∧
      (∀ h : String, T < (reportedPorts h calls : Int) →
        ∀ (more : List HostResult) (a : Asset), a ∈ runNaabu gc T (calls ++ more) →
          a.Host ≠ h)) ∧
    (∀ (st : NaabuState) (hr : HostResult),
      (OnResult gc T st hr).assets.filter (fun a => a.Host != hr.Host) =
        st.assets.filter (fun a => a.Host != hr.Host)) ∧
    (T ≤ 0 → runNaabu gc T calls = reportedAssets gc calls) := by
  refine ⟨?_, OnResult_others gc T, ?_⟩
  · intro hT hT1
    refine ⟨runNaabu_eq gc T hT hT1 calls, ?_, ?_⟩
    · intro h
      rw [runNaabu_eq gc T hT hT1 calls]
      by_cases hle : (reportedPorts h calls : Int) ≤ T
      · have h1 := (List.Sublist.filter (fun a : Asset => a.Host == h)
          (List.filter_sublist (p := fun a : Asset =>
            decide ((reportedPorts a.Host calls : Int) ≤ T)) (reportedAssets gc calls))).length_le
        have h2 : ((reportedAssets gc calls).filter fun a => a.Host == h).length =
            reportedPorts h calls := host_assets_length gc (reports calls) h
        omega
      · have hnil : ((reportedAssets gc calls).filter fun a =>
            decide ((reportedPorts a.Host calls : Int) ≤ T)).filter (fun a => a.Host == h) =
            [] := by
          rw [List.filter_eq_nil_iff]
          intro a ha hah
          have hq := (List.mem_filter.1 ha).2
          have hah1 : a.Host = h := by simpa using hah
          rw [hah1] at hq
          exact hle (by simpa using hq)
        rw [hnil]
        simp only [List.length_nil, Nat.cast_zero]
        omega
    · intro h hover more a ha hhost
      rw [runNaabu_eq gc T hT hT1 (calls ++ more)] at ha
      have hdec := (List.mem_filter.1 ha).2
      rw [hhost] at hdec
      have hle : (reportedPorts h (calls ++ more) : Int) ≤ T := by simpa using hdec
      have hmono : reportedPorts h calls ≤ reportedPorts h (calls ++ more) := by
        unfold reportedPorts
        rw [reports_append, List.filter_append, List.length_append]
        omega
      omega
  · intro hT
    unfold runNaabu reportedAssets
    rw [foldl_OnResult_eq, portStep_no_threshold gc T hT (reports calls) NaabuState.init
      (fun _ => rfl)]
    rfl

theorem runNaabu_threshold_witness :
    runNaabu sampleCategory 2 sampleCalls =
        [newAsset sampleCategory "10.0.0.2" 22, newAsset sampleCategory "10.0.0.2" 25] ∧
      (((runNaabu sampleCategory 2 sampleCalls).filter fun a => a.Host == "10.0.0.2").length :
        Int) ≤ 2 ∧
      (∀ a : Asset, a ∈ runNaabu sampleCategory 2 (sampleCalls ++ []) → a.Host ≠ "10.0.0.1") ∧
      runNaabu sampleCategory 0 sampleCalls = reportedAssets sampleCategory sampleCalls :=
  have h := (runNaabu_threshold sampleCategory 2 sampleCalls).1 (by decide) (by decide)
  ⟨by decide, h.2.1 "10.0.0.2", h.2.2 "10.0.0.1" (by decide) [],
    (runNaabu_threshold sampleCategory 0 sampleCalls).2.2 (by decide)⟩

end Cscan
